import Mathlib

/-!
# A verification model of the `nfl-prop-agent` repository

This file shallowly embeds, in Lean 4, the parts of the repository that the
frozen claims talk about:

* `agent_core.py` — odds/probability helpers, `estimate_credits`,
  `sanity_line_ok`, name normalisation and matching, `best_offer_for_player`,
  and the main `scan_edges` engine;
* `cleaning.py` — the `clean_projections` pipeline over a DataFrame model;
* `config.py` — `load_config`;
* `alerts.py` — `format_advice` / `alert_edges`.

Modelling conventions.

* Python floats are modelled by `ℚ`.  Transcendental functions the code calls
  (`math.erf`, `math.sqrt`, `numpy.sqrt`) cannot be represented exactly over
  `ℚ`, so the definitions that use them are parametrised by an abstract
  function (`erfs`, `sq`); every theorem quantifies over those parameters, so
  nothing proved here depends on their actual values.
* A pandas cell is a `Val`: a number, the missing marker `NaN`, or a string.
  A `DataFrame` is a `Table`: an ordered list of column names plus rows of
  cells, one cell per column, looked up positionally by the first matching
  column name.
* Fallible Python code (code that can raise) is modelled in
  `Except String _`; the error *message* is not semantic, only the fact that
  an exception escapes.  Python `try/except` blocks become `match`es on the
  embedded result.
* Network and environment access is passed in explicitly: the events list and
  the per-event odds payload are function arguments of `scanEdges`, the
  relevant environment variables are string/option arguments, and the Slack
  HTTP layer of `alert_edges` is an oracle mapping the attempt number to the
  outcome of that POST.
* Logging and the diagnostics artifacts written by `scan_edges` are I/O that
  does not influence any returned value; they are not modelled.
-/

/- `Rat`'s arithmetic is `@[irreducible]` in Mathlib, which blocks kernel
evaluation of the executable model on concrete inputs; restore the default
reducibility so closed instances can be settled by `decide`/`rfl`. -/
set_option allowUnsafeReducibility true in
attribute [semireducible] Rat.mul Rat.add Rat.sub Rat.inv Rat.div Rat.neg

/-- A pandas/Python scalar cell: a (finite) float, the float NaN, or a
string.  Python `None` in a cell position is folded into `nan`, which is how
pandas stores missing object values for the columns this program touches. -/
inductive Val where
  | num (q : ℚ)
  | nan
  | str (s : String)
deriving DecidableEq, Repr

/-- Python truthiness of a cell value (`bool(x)`): `0.0` and `""` are falsy;
NaN is truthy (it is a nonzero float). -/
def Val.pyTruthy : Val → Bool
  | .num q => q ≠ 0
  | .nan => true
  | .str s => s ≠ ""


/-- Kernel-computable character-list primitives standing in for Python's
`str` methods (`lower`, `upper`, `strip`, `split`, `replace`, `join`).  The
corresponding core `String` functions are byte-position loops that the
kernel cannot evaluate, so the embedding defines its own. -/
def strLower (s : String) : String :=
  String.mk (s.toList.map Char.toLower)

/-- Python `str.upper` (character-wise). -/
def strUpper (s : String) : String :=
  String.mk (s.toList.map Char.toUpper)

/-- Python `str.strip()`. -/
def strTrim (s : String) : String :=
  String.mk (((s.toList.dropWhile Char.isWhitespace).reverse.dropWhile Char.isWhitespace).reverse)

/-- Split a character list at every character satisfying `p` (every
separator produces a boundary, so adjacent separators yield empty pieces —
the semantics of Python `str.split(sep)`). -/
def splitPredList (p : Char → Bool) : List Char → List (List Char)
  | [] => [[]]
  | c :: cs =>
    if p c then [] :: splitPredList p cs
    else
      match splitPredList p cs with
      | [] => [[c]]
      | h :: t => (c :: h) :: t

/-- Python `s.split(",")`. -/
def splitComma (s : String) : List String :=
  (splitPredList (fun c => c = ',') s.toList).map String.mk

/-- Fuel-driven substring replacement (structural so the kernel can run
it); `fuel` bounds the number of characters consumed. -/
def replaceFuel (pat repl : List Char) : ℕ → List Char → List Char
  | 0, l => l
  | _ + 1, [] => []
  | fuel + 1, c :: cs =>
    if pat.isPrefixOf (c :: cs) then
      repl ++ replaceFuel pat repl fuel ((c :: cs).drop pat.length)
    else c :: replaceFuel pat repl fuel cs

/-- Python `s.replace(pat, repl)` for a non-empty pattern (the only uses in
this code base); an empty pattern returns `s` unchanged. -/
def strReplace (s pat repl : String) : String :=
  if pat = "" then s
  else String.mk (replaceFuel pat.toList repl.toList s.toList.length s.toList)

/-- Python `sep.join(xs)`. -/
def strIntercalate (sep : String) : List String → String
  | [] => ""
  | [x] => x
  | x :: y :: rest => x ++ sep ++ strIntercalate sep (y :: rest)

/-- Numeric value of a digit list (most significant first). -/
def digitsToNat (ds : List Char) : ℕ :=
  ds.foldl (fun acc c => 10 * acc + (c.toNat - '0'.toNat)) 0

/-- Parse the optional exponent tail of a Python float literal
(`e`/`E`, optional sign, digits), scaling `q` accordingly. -/
def parseExpTail (q : ℚ) (cs : List Char) : Option ℚ :=
  match cs with
  | [] => some q
  | c :: rest =>
    if c = 'e' ∨ c = 'E' then
      let signed : Bool × List Char :=
        match rest with
        | '-' :: r => (true, r)
        | '+' :: r => (false, r)
        | r => (false, r)
      let ds := signed.2.takeWhile Char.isDigit
      let rest2 := signed.2.dropWhile Char.isDigit
      if ds.isEmpty ∨ ¬rest2.isEmpty then none
      else
        let e : ℕ := digitsToNat ds
        some (if signed.1 then q / 10 ^ e else q * 10 ^ e)
    else none

/-- Parse an unsigned Python float literal body: digits, optionally a dot and
more digits, optionally an exponent; at least one digit must be present. -/
def parseUnsigned (cs : List Char) : Option ℚ :=
  let ip := cs.takeWhile Char.isDigit
  let rest := cs.dropWhile Char.isDigit
  match rest with
  | '.' :: rest2 =>
    let fp := rest2.takeWhile Char.isDigit
    let rest3 := rest2.dropWhile Char.isDigit
    if ip.isEmpty ∧ fp.isEmpty then none
    else
      parseExpTail ((digitsToNat ip : ℚ) + (digitsToNat fp : ℚ) / 10 ^ fp.length) rest3
  | _ =>
    if ip.isEmpty then none else parseExpTail (digitsToNat ip : ℚ) rest

/-- Model of Python `float(s)` on a string: optional surrounding whitespace,
optional sign, decimal literal with optional fraction and exponent.
(`inf`/`nan`/underscore forms are not representable in `ℚ` and are out of
scope for this model.) -/
def pyParseFloat (s : String) : Option ℚ :=
  match (strTrim s).toList with
  | '-' :: cs => (parseUnsigned cs).map Neg.neg
  | '+' :: cs => parseUnsigned cs
  | cs => parseUnsigned cs

/-- Model of Python `int(s)` on a string: optional whitespace, optional sign,
digits only (no dot, no exponent). -/
def pyParseInt (s : String) : Option ℤ :=
  let body : List Char → Option ℤ := fun cs =>
    if cs.isEmpty ∨ ¬(cs.all Char.isDigit) then none else some (digitsToNat cs)
  match (strTrim s).toList with
  | '-' :: cs => (body cs).map Neg.neg
  | '+' :: cs => body cs
  | cs => body cs

/-- Python `int(x)` on a float: truncation toward zero. -/
def truncQ (q : ℚ) : ℤ :=
  if 0 ≤ q then ⌊q⌋ else -⌊-q⌋

/-- Round a rational to the nearest integer, ties to even — the rounding mode
of Python's `round`. -/
def roundHalfEven (q : ℚ) : ℤ :=
  let f := ⌊q⌋
  let r := q - (f : ℚ)
  if r < 1 / 2 then f
  else if 1 / 2 < r then f + 1
  else if f % 2 = 0 then f else f + 1

/-- Model of Python `round(q, n)`. -/
def roundTo (n : ℕ) (q : ℚ) : ℚ :=
  (roundHalfEven (q * 10 ^ n) : ℚ) / 10 ^ n

/-- Insert `x` into `l`, placing it before the first element `y` with
`le x y`.  Folding this over a list from the right yields a stable sort. -/
def insertSorted (le : α → α → Bool) (x : α) : List α → List α
  | [] => [x]
  | y :: ys => if le x y then x :: y :: ys else y :: insertSorted le x ys

/-- Stable insertion sort: the model of Python's stable `sorted` /
`DataFrame.sort_values(kind="mergesort")` for a total preorder `le`
(`le x y` = "x may come weakly before y"). -/
def sortedBy (le : α → α → Bool) (l : List α) : List α :=
  l.foldr (insertSorted le) []

/-- Structural monadic map over `Except` (the model of a Python list
comprehension / `for` loop collecting one value per element). -/
def exMapM (f : α → Except String β) : List α → Except String (List β)
  | [] => .ok []
  | a :: as => do pure ((← f a) :: (← exMapM f as))

/-- Whitespace-collapsing used by `normalize_name`: replace each maximal run
of whitespace by a single space (the effect of `re.sub(r"\s+", " ", ·)`).
`inRun` records whether the previous character was whitespace. -/
def collapseWsGo (inRun : Bool) : List Char → List Char
  | [] => []
  | c :: cs =>
    if c.isWhitespace then
      if inRun then collapseWsGo true cs else ' ' :: collapseWsGo true cs
    else c :: collapseWsGo false cs

/-- Collapse every whitespace run to a single space. -/
def collapseWs (l : List Char) : List Char :=
  collapseWsGo false l

/-- `normalize_name` (agent_core.py): lowercase, strip, remove `.,'’`, and
collapse internal whitespace. -/
def normalize_name (n : String) : String :=
  let s1 := strTrim (strLower n)
  let s2 := s1.toList.filter fun c => ¬(c = '.' ∨ c = ',' ∨ c = '\'' ∨ c = '’')
  String.mk (collapseWs s2)

/-- Python `s.split()`: split on whitespace runs, dropping empty pieces. -/
def pySplit (s : String) : List String :=
  ((splitPredList Char.isWhitespace s.toList).map String.mk).filter (· ≠ "")

/-- Substring containment (Python `a in b` on strings). -/
def strContains (b a : String) : Bool :=
  decide (a.toList <:+: b.toList)

/-- `DISCRETE_KEYS` (agent_core.py). -/
def DISCRETE_KEYS : List String :=
  ["player_receptions", "player_pass_tds", "player_rush_tds",
   "player_reception_tds", "player_pass_attempts", "player_pass_completions",
   "player_interceptions", "player_pass_interceptions",
   "player_rush_attempts", "player_pass_rush_reception_tds"]

/-- `is_discrete_market` (agent_core.py). -/
def is_discrete_market (market_key : String) : Bool :=
  market_key ∈ DISCRETE_KEYS

/-- `sanity_line_ok` (agent_core.py): the line must be present, coercible to
float, and non-negative; the market key is ignored.  The argument is an
optional cell to model `line is None` and the `float(line)` coercion. -/
def sanity_line_ok (_market_key : String) (line : Option Val) : Bool :=
  match line with
  | none => false
  | some v =>
    match v with
    | .num q => decide (0 ≤ q)
    | .nan => false
    | .str s =>
      match pyParseFloat s with
      | some q => decide (0 ≤ q)
      | none => false

/-- Modelled from the spec: the *stricter per-market* line sanity rule the
spec (§4.5.3, "Line sanity rule") calls canonical.  This definition is not in
`src/` (only the looser non-negative variant is); it is transcribed from the
spec's words so claim C1 can be compared against the code. -/
def specSanityLineOk (market_key : String) (line : ℚ) : Bool :=
  let yardage : List String :=
    ["player_pass_yds", "player_rush_yds", "player_reception_yds",
     "player_pass_rush_yds", "player_pass_rush_reception_yds"]
  let touchdown : List String :=
    ["player_pass_tds", "player_rush_tds", "player_reception_tds",
     "player_pass_rush_reception_tds"]
  if market_key ∈ yardage then decide (11 / 2 ≤ line)
  else if market_key = "player_receptions" then decide (1 / 2 ≤ line)
  else if market_key ∈ touchdown then decide (line = 1 / 2 ∨ line = 3 / 2)
  else if market_key = "player_pass_attempts" ∨ market_key = "player_pass_completions" then
    decide (11 / 2 ≤ line)
  else if market_key = "player_interceptions" ∨ market_key = "player_pass_interceptions" then
    decide (line = 1 / 2 ∨ line = 3 / 2)
  else if market_key = "player_longest_reception" ∨ market_key = "player_longest_rush" then
    decide (11 / 2 ≤ line)
  else true

/-- `_player_name_match` (agent_core.py): heuristic match between an Odds API
player label and a normalised projection name. -/
def _player_name_match (desc : String) (player_norm : String) : Bool :=
  if desc = "" then false
  else
    let dn := normalize_name desc
    if dn = player_norm then true
    else
      let pt := pySplit player_norm
      let dt := pySplit dn
      match pt.getLast? with
      | none => false
      | some last =>
        let lastOk0 := dt.any fun t => last = t || strContains t last || strContains last t
        let lastOk :=
          if ¬lastOk0 ∧ last ≠ "" then strContains (strReplace dn " " "") last else lastOk0
        if 2 ≤ pt.length then
          let first := pt.headD ""
          let initials := dt.filterMap fun t => t.toList.head?
          let firstOk0 : Bool :=
            dt.contains first ||
              (first ≠ "" &&
                match first.toList.head? with
                | some c => initials.contains c
                | none => false)
          let firstOk :=
            if ¬firstOk0 ∧ first ≠ "" then
              let combo := if last ≠ "" then String.mk (first.toList.take 1) ++ last else ""
              combo ≠ "" && strContains (strReplace dn " " "") combo
            else firstOk0
          lastOk && firstOk
        else
          let target := pt.headD ""
          dt.any fun t => target = t || strContains t target || strContains target t

/-- `_clean_team_token` (agent_core.py): uppercase, then keep only `A–Z0–9`. -/
def _clean_team_token (name : String) : String :=
  String.mk ((strUpper name).toList.filter fun c => ('A' ≤ c ∧ c ≤ 'Z') ∨ c.isDigit)

/-- `TEAM_ALIASES` (agent_core.py). -/
def TEAM_ALIASES : List (String × List String) :=
  [("ARIZONACARDINALS", ["ARI", "ARIZONA", "ARIZONA CARDINALS"]),
   ("ATLANTAFALCONS", ["ATL", "ATLANTA", "ATLANTA FALCONS"]),
   ("BALTIMORERAVENS", ["BAL", "BALTIMORE", "BALTIMORE RAVENS"]),
   ("BUFFALOBILLS", ["BUF", "BUFFALO", "BUFFALO BILLS"]),
   ("CAROLINAPANTHERS", ["CAR", "CAROLINA", "CAROLINA PANTHERS"]),
   ("CHICAGOBEARS", ["CHI", "CHICAGO", "CHICAGO BEARS"]),
   ("CINCINNATIBENGALS", ["CIN", "CINCINNATI", "CINCINNATI BENGALS"]),
   ("CLEVELANDBROWNS", ["CLE", "CLEVELAND", "CLEVELAND BROWNS"]),
   ("DALLASCOWBOYS", ["DAL", "DALLAS", "DALLAS COWBOYS"]),
   ("DENVERBRONCOS", ["DEN", "DENVER", "DENVER BRONCOS"]),
   ("DETROITLIONS", ["DET", "DETROIT", "DETROIT LIONS"]),
   ("GREENBAYPACKERS", ["GB", "GBP", "GB PACKERS", "GREEN BAY", "GREEN BAY PACKERS"]),
   ("HOUSTONTEXANS", ["HOU", "HOUSTON", "HOUSTON TEXANS"]),
   ("INDIANAPOLISCOLTS", ["IND", "INDIANAPOLIS", "INDIANAPOLIS COLTS"]),
   ("JACKSONVILLEJAGUARS", ["JAX", "JAC", "JACKSONVILLE", "JACKSONVILLE JAGUARS"]),
   ("KANSASCITYCHIEFS", ["KC", "KAN", "KANSAS CITY", "KANSAS CITY CHIEFS"]),
   ("LASVEGASRAIDERS", ["LV", "LVR", "LAS VEGAS", "LAS VEGAS RAIDERS"]),
   ("LOSANGELESRAMS", ["LAR", "LA RAMS", "LOS ANGELES", "LOS ANGELES RAMS"]),
   ("LOSANGELESCHARGERS", ["LAC", "LA CHARGERS", "LOS ANGELES CHARGERS"]),
   ("MIAMIDOLPHINS", ["MIA", "MIAMI", "MIAMI DOLPHINS"]),
   ("MINNESOTAVIKINGS", ["MIN", "MINNESOTA", "MINNESOTA VIKINGS"]),
   ("NEWENGLANDPATRIOTS", ["NE", "NENG", "NEW ENGLAND", "NEW ENGLAND PATRIOTS"]),
   ("NEWORLEANSSAINTS", ["NO", "NOR", "NEW ORLEANS", "NEW ORLEANS SAINTS"]),
   ("NEWYORKGIANTS", ["NYG", "N.Y.G", "NEW YORK GIANTS", "NY GIANTS"]),
   ("NEWYORKJETS", ["NYJ", "N.Y.J", "NEW YORK JETS", "NY JETS"]),
   ("PHILADELPHIAEAGLES", ["PHI", "PHILADELPHIA", "PHILADELPHIA EAGLES"]),
   ("PITTSBURGHSTEELERS", ["PIT", "PITTSBURGH", "PITTSBURGH STEELERS"]),
   ("SANFRANCISCO49ERS", ["SF", "SFO", "SAN FRANCISCO", "SAN FRANCISCO 49ERS", "49ERS"]),
   ("SEATTLESEAHAWKS", ["SEA", "SEATTLE", "SEATTLE SEAHAWKS"]),
   ("TAMPABAYBUCCANEERS", ["TB", "TAMPA", "TAMPA BAY", "TAMPA BAY BUCCANEERS"]),
   ("TENNESSEETITANS", ["TEN", "TENNESSEE", "TENNESSEE TITANS"]),
   ("WASHINGTONCOMMANDERS",
    ["WAS", "WSH", "WASHINGTON", "WASHINGTON COMMANDERS", "WASHINGTON FOOTBALL TEAM"])]

/-- `TEAM_CANONICAL_MAP` (agent_core.py): cleaned token → canonical key.
The Python dict is built by insertion; the cleaned tokens are pairwise
distinct across entries, so first-match lookup equals dict lookup. -/
def TEAM_CANONICAL_MAP : List (String × String) :=
  TEAM_ALIASES.flatMap fun ca =>
    (_clean_team_token ca.1, ca.1) :: ca.2.map fun al => (_clean_team_token al, ca.1)

/-- `canonical_team` (agent_core.py). -/
def canonical_team (name : String) : String :=
  let token := _clean_team_token name
  if token = "" then ""
  else
    match TEAM_CANONICAL_MAP.lookup token with
    | some canonical => canonical
    | none => token

/-- One Odds API outcome object.  The player-identifying fields are the
strings the spec documents for this payload (§6.1); `point`/`price` are raw
JSON scalars (`float(...)`/`int(...)` coercion happens at use). -/
structure OddsOutcome where
  participant : Option String := none
  player : Option String := none
  player_name : Option String := none
  name : Option String := none
  description : Option String := none
  point : Option Val := none
  price : Option Val := none
deriving DecidableEq, Repr

/-- One Odds API market object. -/
structure OddsMarket where
  key : String
  outcomes : List OddsOutcome
deriving DecidableEq, Repr

/-- One Odds API bookmaker object. -/
structure Bookmaker where
  key : String
  markets : List OddsMarket
deriving DecidableEq, Repr

/-- Player label extraction in `best_offer_for_player`: the first truthy
field among `participant`, `player`, `player_name`, `name`, else
`description or ""`. -/
def outcomeLabel (o : OddsOutcome) : String :=
  let pick : Option String → Option String := fun f =>
    match f with
    | some s => if s = "" then none else some s
    | none => none
  match pick o.participant <|> pick o.player <|> pick o.player_name <|> pick o.name with
  | some s => s
  | none => o.description.getD ""

/-- `float(x)` on a cell (`none` = raises).  `float` of the NaN cell actually
yields NaN, which then fails every `>=`/sanity comparison; collapsing that to
a failed conversion is observationally identical here. -/
def valToFloat : Val → Option ℚ
  | .num q => some q
  | .nan => none
  | .str s => pyParseFloat s

/-- `int(x)` on a cell (`none` = raises): floats truncate toward zero,
strings parse as integer literals. -/
def valToInt : Val → Option ℤ
  | .num q => some (truncQ q)
  | .nan => none
  | .str s => pyParseInt s

/-- The candidate `(book, line, price)` an outcome contributes inside
`best_offer_for_player`'s `_search`, if it passes every filter: label match,
line/price present and coercible, and `sanity_line_ok`. -/
def outcomeCand (player_norm market_key bk : String) (o : OddsOutcome) :
    Option (String × ℚ × ℤ) :=
  if ¬_player_name_match (outcomeLabel o) player_norm then none
  else do
    let pv ← o.point
    let prv ← o.price
    let line ← valToFloat pv
    let price ← valToInt prv
    if sanity_line_ok market_key (some (.num line)) then pure (bk, line, price) else none

/-- The book filter of `_search`: skip a bookmaker only when the allowed set
is given, non-empty, and does not contain its key. -/
def allowedBook (allowed : Option (List String)) (bk : String) : Bool :=
  match allowed with
  | none => true
  | some bs => bs.isEmpty || bs.contains bk

/-- All candidates `_search` iterates over, in iteration order. -/
def searchCandidates (event_json : List Bookmaker) (player_norm market_key : String)
    (allowed : Option (List String)) : List (String × ℚ × ℤ) :=
  event_json.flatMap fun bm =>
    if ¬allowedBook allowed bm.key then []
    else
      bm.markets.flatMap fun mk =>
        if mk.key ≠ market_key then []
        else mk.outcomes.filterMap (outcomeCand player_norm market_key bm.key)

/-- The running-best update of `_search`: replace the current best when the
candidate has a better line for the side, or the same line at a higher
price. -/
def betterOffer (side : String) (best cand : String × ℚ × ℤ) : String × ℚ × ℤ :=
  if side = "OVER" then
    if cand.2.1 < best.2.1 ∨ (cand.2.1 = best.2.1 ∧ best.2.2 < cand.2.2) then cand else best
  else
    if best.2.1 < cand.2.1 ∨ (cand.2.1 = best.2.1 ∧ best.2.2 < cand.2.2) then cand else best

/-- `_search` as a fold of `betterOffer` over the candidate list. -/
def searchBest (side : String) (cands : List (String × ℚ × ℤ)) : Option (String × ℚ × ℤ) :=
  cands.foldl
    (fun acc c =>
      match acc with
      | none => some c
      | some b => some (betterOffer side b c))
    none

/-- `best_offer_for_player` (agent_core.py): search restricted to the target
books when that set is non-empty; if that finds nothing, search all books. -/
def best_offer_for_player (event_json : List Bookmaker)
    (player_name market_key side : String) (target_books : List String) :
    Option (String × ℚ × ℤ) :=
  let player_norm := normalize_name player_name
  let search := fun allowed => searchBest side (searchCandidates event_json player_norm market_key allowed)
  match search (if target_books.isEmpty then none else some target_books) with
  | some b => some b
  | none => if target_books.isEmpty then none else search none

/-- `normal_cdf` (agent_core.py).  `erfs z` stands for `erf(z / sqrt 2)`,
abstract because it is irrational; the `sd <= 0` step-function branch is
exact. -/
def normal_cdf (erfs : ℚ → ℚ) (x mu sd : ℚ) : ℚ :=
  if sd ≤ 0 then (if mu ≤ x then 1 else 0)
  else 1 / 2 * (1 + erfs ((x - mu) / sd))

/-- `prob_over` (agent_core.py). -/
def prob_over (erfs : ℚ → ℚ) (line mu sd : ℚ) (is_discrete : Bool) : ℚ :=
  1 - normal_cdf erfs (line + if is_discrete then 1 / 2 else 0) mu sd

/-- `ev_per_unit` (agent_core.py): expected profit per unit staked. -/
def ev_per_unit (p : ℚ) (american_odds : ℤ) : ℚ :=
  let b : ℚ := if american_odds < 0 then 100 / (american_odds.natAbs : ℚ)
               else (american_odds : ℚ) / 100
  p * b - (1 - p) * 1

/-- A parsed YAML/JSON value, as produced by `yaml.safe_load` and consumed by
`load_config` / `scan_edges`.  Dict keys are strings (the only key type this
program's configs use). -/
inductive YVal where
  | str (s : String)
  | num (q : ℚ)
  | bool (b : Bool)
  | null
  | list (xs : List YVal)
  | dict (kvs : List (String × YVal))

/-- Python truthiness of a YAML value. -/
def YVal.pyTruthy : YVal → Bool
  | .str s => s ≠ ""
  | .num q => q ≠ 0
  | .bool b => b
  | .null => false
  | .list xs => ¬xs.isEmpty
  | .dict kvs => ¬kvs.isEmpty

/-- `v.get(k)` (`None` when the key is absent); raises `AttributeError`
unless `v` is a dict. -/
def YVal.get? : YVal → String → Except String (Option YVal)
  | .dict kvs, k => .ok (kvs.lookup k)
  | _, _ => .error "AttributeError: no attribute get"

/-- `v.get(k, d)`. -/
def yget (v : YVal) (k : String) (d : YVal) : Except String YVal :=
  (v.get? k).map (·.getD d)

/-- `v[k]` subscription: `KeyError` when absent, `TypeError` on a non-dict. -/
def yindex (v : YVal) (k : String) : Except String YVal :=
  match v with
  | .dict kvs =>
    match kvs.lookup k with
    | some x => .ok x
    | none => .error "KeyError"
  | _ => .error "TypeError: not subscriptable"

/-- `float(x)` on a YAML value (`bool` is an `int` subclass in Python). -/
def yFloat : YVal → Except String ℚ
  | .num q => .ok q
  | .bool b => .ok (if b then 1 else 0)
  | .str s =>
    match pyParseFloat s with
    | some q => .ok q
    | none => .error "ValueError: float"
  | _ => .error "TypeError: float"

/-- A YAML value used as a number in arithmetic/comparisons without
conversion (raises `TypeError` for anything that is not an int/float/bool). -/
def yNum : YVal → Except String ℚ
  | .num q => .ok q
  | .bool b => .ok (if b then 1 else 0)
  | _ => .error "TypeError: not a number"

/-- `int(x)` on a YAML value: floats truncate toward zero, strings must be
integer literals, `bool` maps to 0/1. -/
def yInt : YVal → Except String ℤ
  | .num q => .ok (truncQ q)
  | .bool b => .ok (if b then 1 else 0)
  | .str s =>
    match pyParseInt s with
    | some z => .ok z
    | none => .error "ValueError: int"
  | _ => .error "TypeError: int"

/-- Iterating a YAML value (`sorted(x)`, `set(x)`, `list(x)`): lists yield
elements, strings their characters, dicts their keys; everything else raises
`TypeError`. -/
def yIter : YVal → Except String (List YVal)
  | .list xs => .ok xs
  | .str s => .ok (s.toList.map fun c => .str (String.mk [c]))
  | .dict kvs => .ok (kvs.map fun kv => .str kv.1)
  | _ => .error "TypeError: not iterable"

/-- `x or []` followed by iteration (the `odds_levels` loop): a falsy value
becomes the empty list instead of raising. -/
def yIterOrEmpty (v : YVal) : Except String (List YVal) :=
  if v.pyTruthy then yIter v else .ok []

/-- Render a rational the way Python `repr`s the corresponding float when it
is an exact short decimal (`55.5`, `110.0`); rationals that are not exact
decimals (unreachable for float-valued data) fall back to `num/den` form. -/
def pyFloatRepr (q : ℚ) : String :=
  match (List.range 18).find? (fun n => (q * 10 ^ n).den = 1) with
  | some n =>
    let m := (q * 10 ^ n).num
    let sign := if m < 0 then "-" else ""
    let a := m.natAbs
    let ip := a / 10 ^ n
    let fp := a % 10 ^ n
    let fs := toString fp
    let pad := String.mk (List.replicate (n - fs.length) '0')
    if n = 0 then sign ++ toString ip ++ ".0"
    else sign ++ toString ip ++ "." ++ pad ++ fs
  | none => toString q.num ++ "/" ++ toString q.den

/-- `str(x)` on a YAML value.  For containers only non-emptiness of the
result is ever observed by the modelled code (`str(mj).strip() != ""`), so
their repr is a fixed non-empty placeholder. -/
def YVal.pyStr : YVal → String
  | .str s => s
  | .num q => pyFloatRepr q
  | .bool b => if b then "True" else "False"
  | .null => "None"
  | .list _ => "[...]"
  | .dict _ => "<dict>"

/-- `load_config` (config.py).  `pathExists` models `os.path.exists(path)`;
`raw0` is the value `yaml.safe_load` produced (`none` for an empty file).
Note: no environment access of any kind occurs — the function has no
environment parameter because the source reads none. -/
def load_config (pathExists : Bool) (raw0 : Option YVal) : Except String YVal := do
  if ¬pathExists then
    throw "FileNotFoundError: Config file not found"
  let raw : YVal :=
    match raw0 with
    | none => .dict []
    | some v => if v.pyTruthy then v else .dict []
  let marketsCfg ← yget raw "markets" (.list [])
  let marketsByProfile : YVal :=
    match marketsCfg with
    | .dict kvs =>
      .dict (kvs.map fun kv =>
        (kv.1,
          match kv.2 with
          | .str s => YVal.list [.str s]
          | .list xs => .list xs
          | .null => .list []
          | other => .list [other]))
    | .list xs => .dict [("base", .list xs)]
    | _ => .dict [("base", .list [])]
  let regions ← yget raw "regions" (.str "us")
  let targetBooks ← yget raw "target_books" (.list [])
  let sigmaInner ← yget raw "sigma_defaults" (.dict [])
  let sigma ← yget raw "outcome_sigma" sigmaInner
  let blend ← yget raw "blend_alpha" (.num (35 / 100))
  let bankroll ← yget raw "bankroll" (.num 1000)
  let unitPct ← yget raw "unit_pct" (.num (1 / 100))
  let bandsInner ← yget raw "stake_bands" (.list [])
  let bands ← yget raw "ev_bands" bandsInner
  let oddsLevels ← yget raw "odds_levels" (.list [.num (-120), .num (-110), .num 100])
  let maxJuice ← (raw.get? "max_juice").map (·.getD .null)
  let topN ← yget raw "top_n" (.num 0)
  let oddsFormat ← yget raw "odds_format" (.str "american")
  return .dict
    [("regions", regions), ("target_books", targetBooks),
     ("markets", marketsByProfile), ("sigma_defaults", sigma),
     ("blend_alpha", blend), ("bankroll", bankroll), ("unit_pct", unitPct),
     ("stake_bands", bands), ("odds_levels", oddsLevels),
     ("max_juice", maxJuice), ("top_n", topN), ("odds_format", oddsFormat)]

/-- The `key=lambda x: x["min_ev"]` extraction of the staking-band sort,
paired with the band itself. -/
def bandKeyFn (b : YVal) : Except String (ℚ × YVal) := do
  let mv ← yindex b "min_ev"
  let q ← yNum mv
  pure (q, b)

/-- The staking-band loop of `scan_edges` (agent_core.py lines 507–511):
sort the configured bands by `min_ev` descending (stable) and take the
`stake_u` of the first band whose `min_ev` the EV meets or exceeds; 0 when
none qualifies. -/
def stakeForBands (stake_bands : YVal) (ev_now : ℚ) : Except String ℚ := do
  let xs ← yIter stake_bands
  let keyed ← exMapM bandKeyFn xs
  let sortedBands := sortedBy (fun a b : ℚ × YVal => decide (b.1 ≤ a.1)) keyed
  match sortedBands.find? (fun p => decide (p.1 ≤ ev_now)) with
  | none => pure 0
  | some p => do
    let sv ← yindex p.2 "stake_u"
    yNum sv

/-- One well-formed staking band `(min_ev, stake_u)` as a YAML dict. -/
def bandDict (b : ℚ × ℚ) : YVal :=
  .dict [("min_ev", .num b.1), ("stake_u", .num b.2)]

/-- Well-formed staking bands `(min_ev, stake_u)` as a YAML value, for
stating properties of `stakeForBands`. -/
def mkBands (bs : List (ℚ × ℚ)) : YVal :=
  .list (bs.map bandDict)

/-- The default staking bands hard-coded in `scan_edges`. -/
def defaultBands : YVal :=
  mkBands [(8 / 100, 1), (4 / 100, 1 / 2), (2 / 100, 3 / 10)]

/-- `estimate_credits` (agent_core.py).  `markets` may hold arbitrary values
(only its length is used); `regions` is any Python value — a non-string
counts as one region (the `isinstance(regions, str)` branch). -/
def estimate_credits (num_events : ℕ) (markets : List α) (regions : YVal) : ℕ :=
  let n_markets := markets.length
  let n_regions :=
    match regions with
    | .str s => (splitComma s).length
    | _ => 1
  num_events * n_markets * n_regions

/-- A pandas DataFrame: an ordered list of column names plus rows of cells
(one cell per column, positionally). -/
structure Table where
  cols : List String
  rows : List (List Val)
deriving DecidableEq, Repr

/-- The cell of `row` under column `c` (first matching column). -/
def cellAt (cols : List String) (row : List Val) (c : String) : Val :=
  match cols.indexOf? c with
  | some i => row.getD i Val.nan
  | none => Val.nan

/-- `Series.get(c)` on a row: `none` models Python `None` (column absent). -/
def rowGet (cols : List String) (row : List Val) (c : String) : Option Val :=
  (cols.indexOf? c).map fun i => row.getD i Val.nan

/-- `str(x)` on a cell (`str` of the float NaN is `"nan"`). -/
def pyValStr : Val → String
  | .str s => s
  | .num q => pyFloatRepr q
  | .nan => "nan"

/-- Python `a or b` over optional cell values (`None` and falsy values pass
through to the right operand, which is returned as-is). -/
def pyOrOpt (a b : Option Val) : Option Val :=
  match a with
  | some v => if v.pyTruthy then some v else b
  | none => b

/-- Python `a or b or ... or dflt` over optional cell values: the first
truthy value, else `dflt`. -/
def firstTruthy (xs : List (Option Val)) (dflt : Val) : Val :=
  match xs with
  | [] => dflt
  | a :: rest =>
    match a with
    | some v => if v.pyTruthy then v else firstTruthy rest dflt
    | none => firstTruthy rest dflt

/-- `make_variance_blend` (agent_core.py).  `sq` stands for `math.sqrt`.
The per-player sd comes from the first of `<market>_sd` /
`<market minus player_ prefix>_sd` that is present, non-NaN and
float-coercible (a coercion failure falls through to the next candidate). -/
def make_variance_blend (sq : ℚ → ℚ) (cols : List String) (row : List Val)
    (market_key : String) (sigma_cfg : YVal) (alpha : ℚ) : Except String ℚ := do
  let posV := firstTruthy [rowGet cols row "pos", rowGet cols row "position"] (.str "")
  let pos := strUpper (pyValStr posV)
  let cands := [market_key ++ "_sd", (strReplace market_key "player_" "") ++ "_sd"]
  let src_sd : Option ℚ := cands.firstM fun cand =>
    if cols.contains cand then
      match cellAt cols row cand with
      | .nan => none
      | v => valToFloat v
    else none
  let inner ← yget sigma_cfg pos (.dict [])
  let baseV ← yget inner market_key (.num 25)
  let base_sigma ← yFloat baseV
  match src_sd with
  | none => pure base_sigma
  | some s => pure (sq (alpha * s ^ 2 + (1 - alpha) * base_sigma ^ 2))

/-- One Edge Row of the scan output (`row = {...}` in `scan_edges`). -/
structure EdgeRow where
  player : String
  team : Option Val
  pos : Option Val
  market_key : String
  side : String
  proj_mean : ℚ
  model_sd : ℚ
  best_book : String
  book_line : ℚ
  book_odds : ℤ
  win_prob : ℚ
  ev_per_unit : ℚ
  playable : String
  stake_u : ℚ
  stake_dollars : ℚ
  event_id : String
  home_team : String
  away_team : String
  extra_evs : List (ℤ × ℚ)
deriving DecidableEq, Repr

/-- One event object from the events endpoint. -/
structure OddsEvent where
  id : String
  home_team : Option String := none
  away_team : Option String := none
deriving DecidableEq, Repr

/-- `event_map = {e["id"]: e for e in events}`: Python dict-comprehension
semantics — key order is first occurrence, value is the last event seen for
a duplicated id. -/
def eventMapList (es : List OddsEvent) : List OddsEvent :=
  es.foldl
    (fun acc e =>
      if acc.any fun x => x.id = e.id then
        acc.map fun x => if x.id = e.id then e else x
      else acc ++ [e])
    []

/-- `team_matches` (scan_edges): canonical-key equality against either team,
else case-insensitive substring containment.  Raises (`AttributeError`) for a
truthy non-string team cell, as `(...).upper()` does. -/
def team_matches (home away home_canon away_canon : String) (t : Val) :
    Except String Bool :=
  if ¬t.pyTruthy then pure false
  else do
    let ts ← match t with
      | .str s => pure s
      | _ => throw "AttributeError: upper on non-string team value"
    let canon := canonical_team ts
    if canon ≠ "" ∧ (canon = home_canon ∨ canon = away_canon) then pure true
    else
      let T := strUpper ts
      pure (strContains T home || strContains T away || strContains home T || strContains away T)

/-- Monadic concat-map: the model of a Python `for` loop appending to an
accumulator, with exceptions propagating. -/
def concatMapM (f : α → Except String (List β)) : List α → Except String (List β)
  | [] => pure []
  | a :: as => do pure ((← f a) ++ (← concatMapM f as))

/-- The per-scan constants threaded through the nested loops of
`scan_edges` (the Python closure's local variables). -/
structure ScanCtx where
  erfs : ℚ → ℚ
  sq : ℚ → ℚ
  projCols : List String
  sigma_defaults : YVal
  alpha : ℚ
  target_books : List String
  stake_bands : YVal
  odds_levels : List ℤ
  bankroll : ℚ
  unit_pct : ℚ
  max_juice : Option ℤ

/-- Building one Edge Row once an offer survived the max-juice check
(`scan_edges` inner loop, win-probability through `rows.append(row)`). -/
def buildEdgeRow (ctx : ScanCtx) (playerStr : String) (team pos : Option Val)
    (mkey side : String) (mu sd : ℚ) (event_id home away : String)
    (offer : String × ℚ × ℤ) : Except String EdgeRow := do
  let best_book := offer.1
  let book_line := offer.2.1
  let book_odds := offer.2.2
  let win0 := prob_over ctx.erfs book_line mu sd (is_discrete_market mkey)
  let win_prob := if side = "UNDER" then 1 - win0 else win0
  let ev_now := ev_per_unit win_prob book_odds
  let extra_evs := ctx.odds_levels.map fun lvl => (lvl, roundTo 4 (ev_per_unit win_prob lvl))
  let playable := if 0 < ev_now then "YES" else "NO"
  let unit_size := ctx.bankroll * ctx.unit_pct
  let stake_u ← stakeForBands ctx.stake_bands ev_now
  let stake_dollars := roundTo 2 (unit_size * stake_u)
  pure
    { player := playerStr, team := team, pos := pos, market_key := mkey,
      side := side, proj_mean := roundTo 3 mu, model_sd := roundTo 3 sd,
      best_book := best_book, book_line := book_line, book_odds := book_odds,
      win_prob := roundTo 4 win_prob, ev_per_unit := roundTo 4 ev_now,
      playable := playable, stake_u := stake_u, stake_dollars := stake_dollars,
      event_id := event_id, home_team := home, away_team := away,
      extra_evs := extra_evs }

/-- One `(player, market, side)` iteration: find the best offer, apply the
max-juice filter, emit at most one Edge Row. -/
def sideRow (ctx : ScanCtx) (ev_json : List Bookmaker) (playerStr : String)
    (team pos : Option Val) (mkey : String) (mu sd : ℚ)
    (event_id home away : String) (side : String) :
    Except String (Option EdgeRow) := do
  match best_offer_for_player ev_json playerStr mkey side ctx.target_books with
  | none => pure none
  | some offer =>
    if match ctx.max_juice with
       | some mj => decide (offer.2.2 < mj)
       | none => false then
      pure none
    else
      some <$> buildEdgeRow ctx playerStr team pos mkey side mu sd event_id home away offer

/-- One `(player, market)` iteration of `scan_edges`: column present, value
float-coercible and non-missing, then blend the variance and try both
sides. -/
def marketRows (ctx : ScanCtx) (ev_json : List Bookmaker) (playerStr : String)
    (team pos : Option Val) (r : List Val) (event_id home away : String)
    (mkey : String) : Except String (List EdgeRow) := do
  if ¬ctx.projCols.contains mkey then pure []
  else
    match cellAt ctx.projCols r mkey with
    | .nan => pure []
    | cell =>
      match valToFloat cell with
      | none => pure []
      | some mu => do
        let sd ← make_variance_blend ctx.sq ctx.projCols r mkey ctx.sigma_defaults ctx.alpha
        let o? ← sideRow ctx ev_json playerStr team pos mkey mu sd event_id home away "OVER"
        let u? ← sideRow ctx ev_json playerStr team pos mkey mu sd event_id home away "UNDER"
        pure (o?.toList ++ u?.toList)

/-- One projection-row iteration of `scan_edges`.  The player label is
`r.get("player") or r.get("name") or ""`; a falsy label skips the row.  The
string extraction models `normalize_name` raising inside
`best_offer_for_player` for a truthy non-string label — hoisted here, before
the per-market loop's own fallible steps; only the error message differs. -/
def projRowRows (ctx : ScanCtx) (ev_json : List Bookmaker)
    (markets : List String) (event_id home away : String) (r : List Val) :
    Except String (List EdgeRow) := do
  let playerV := firstTruthy [rowGet ctx.projCols r "player", rowGet ctx.projCols r "name"] (.str "")
  if ¬playerV.pyTruthy then pure []
  else do
    let playerStr ← match playerV with
      | .str s => pure s
      | _ => throw "AttributeError: player label is not a string"
    let team := rowGet ctx.projCols r "team"
    let pos := pyOrOpt (rowGet ctx.projCols r "pos") (rowGet ctx.projCols r "position")
    concatMapM (marketRows ctx ev_json playerStr team pos r event_id home away) markets

/-- `",".join(markets_list)`: every element must be a string. -/
def joinMarkets (xs : List YVal) : Except String String := do
  let ss ← exMapM (fun m =>
    match m with
    | .str s => pure (s : String)
    | _ => throw "TypeError: join on non-string market key") xs
  pure (strIntercalate "," ss)

/-- One event iteration of `scan_edges`: fetch odds, skip events without
bookmakers, team-filter the projections (with fallback to the whole table
when the filter empties it), then walk rows × markets × sides. -/
def eventRows (ctx : ScanCtx) (projections : Table) (markets_list : List YVal)
    (oddsOf : String → String → List Bookmaker) (use_all : Bool)
    (e : OddsEvent) : Except String (List EdgeRow) := do
  let markets_csv ← joinMarkets markets_list
  let ev_json := oddsOf e.id markets_csv
  if ev_json.isEmpty then pure []
  else do
    let home_raw := e.home_team.getD ""
    let away_raw := e.away_team.getD ""
    let home := strUpper home_raw
    let away := strUpper away_raw
    let home_canon := canonical_team home_raw
    let away_canon := canonical_team away_raw
    let dfEvRows ←
      if use_all then pure projections.rows
      else if projections.cols.contains "team" then do
        let flags ← exMapM (fun r =>
          team_matches home away home_canon away_canon (cellAt projections.cols r "team"))
          projections.rows
        let filtered := ((projections.rows.zip flags).filter (·.2)).map (·.1)
        pure (if filtered.isEmpty then projections.rows else filtered)
      else pure projections.rows
    let markets ← exMapM (fun m =>
      match m with
      | .str s => pure (s : String)
      | _ => throw "TypeError: join on non-string market key") markets_list
    concatMapM (projRowRows ctx ev_json markets e.id home away) dfEvRows

/-- The `regions` resolution of `scan_edges`: the `REGIONS` environment
variable when non-blank, else the configured value. -/
def resolveRegions (cfg : YVal) (regionsEnv : String) : Except String YVal :=
  if strTrim regionsEnv ≠ "" then pure (.str (strTrim regionsEnv))
  else yget cfg "regions" (.str "us,us2")

/-- The profile's market list as a Python sequence: a list yields its
elements, a string its characters, anything else raises when iterated /
sliced / joined. -/
def marketsOfProfile : YVal → Except String (List YVal)
  | .list xs => pure xs
  | .str s => pure (s.toList.map fun c => .str (String.mk [c]))
  | _ => throw "TypeError: markets profile is not a sequence"

/-- The event loop of `scan_edges`: with an empty market list the loop
`break`s immediately; otherwise every event of the (deduplicated) event map
is processed in order. -/
def collectRows (ctx : ScanCtx) (projections : Table) (markets_list : List YVal)
    (oddsOf : String → String → List Bookmaker) (use_all : Bool)
    (events : List OddsEvent) : Except String (List EdgeRow) :=
  if markets_list.isEmpty then pure []
  else concatMapM (eventRows ctx projections markets_list oddsOf use_all) (eventMapList events)

/-- The stable descending `(ev_per_unit, win_prob)` order of the final
`sort_values(kind="mergesort")`. -/
def edgeLe (a b : EdgeRow) : Bool :=
  decide (b.ev_per_unit < a.ev_per_unit) ||
    (a.ev_per_unit == b.ev_per_unit && decide (b.win_prob ≤ a.win_prob))

/-- `scan_edges` (agent_core.py).  Parameters standing for the outside
world: `erfs`/`sq` for the transcendental functions, `regionsEnv` /
`noTeamFilterEnv` for the `REGIONS` / `NO_TEAM_FILTER` environment
variables, `events` for the (free) events listing and `oddsOf` for the
per-event odds endpoint (event id and joined markets string).  The returned
pair is `(projections table after the call, edges)`: every pandas operation
the source applies to the projections object is a read, so the threaded
table is returned as received; the diagnostics/summary artifact writes are
I/O without influence on the result and are not modelled. -/
def scanEdges (erfs sq : ℚ → ℚ) (projections : Table) (cfg : YVal)
    (regionsEnv noTeamFilterEnv : String) (events : List OddsEvent)
    (oddsOf : String → String → List Bookmaker)
    (profile : String := "base") (max_calls : ℕ := 1000) :
    Except String (Table × List EdgeRow) := do
  let regions : YVal ← resolveRegions cfg regionsEnv
  let targetBooksY ← yget cfg "target_books" (.list [])
  let tbIter ← yIter targetBooksY
  let target_books : List String := tbIter.filterMap fun v =>
    match v with
    | .str s => some s
    | _ => none
  let sigma_defaults ← yget cfg "sigma_defaults" (.dict [])
  let alpha ← yFloat (← yget cfg "blend_alpha" (.num (35 / 100)))
  let marketsDict ← yget cfg "markets" (.dict [])
  let baseDflt ← yget marketsDict "base" (.list [])
  let marketsProfileY ← yget marketsDict profile baseDflt
  let markets_list0 : List YVal ← marketsOfProfile marketsProfileY
  let bankroll ← yFloat (← yget cfg "bankroll" (.num 1000))
  let unit_pct ← yFloat (← yget cfg "unit_pct" (.num (1 / 100)))
  let stake_bands ← yget cfg "stake_bands" defaultBands
  let oddsLevelsCfg ← yget cfg "odds_levels" (.list [.num (-120), .num (-110), .num 100])
  let lvls ← yIterOrEmpty oddsLevelsCfg
  let odds_levels0 := lvls.filterMap fun lvl =>
    match yFloat lvl with
    | .ok q => some (truncQ q)
    | .error _ => none
  let odds_levels := if odds_levels0.isEmpty then [-120, -110, 100] else odds_levels0
  let maxJuiceV ← (cfg.get? "max_juice").map (·.getD .null)
  let max_juice : Option ℤ :=
    match maxJuiceV with
    | .null => none
    | v =>
      if strTrim v.pyStr = "" then none
      else
        match yFloat v with
        | .ok q => some (truncQ q)
        | .error _ => none
  let topNV ← (cfg.get? "top_n").map (·.getD .null)
  let top_n : ℤ :=
    match yInt topNV with
    | .ok z => z
    | .error _ => 0
  let _odds_format ← yget cfg "odds_format" (.str "american")
  let num_events := events.length
  let est := estimate_credits num_events markets_list0 regions
  let markets_list :=
    if est > max_calls ∧ 0 < num_events then
      markets_list0.take (max 1 (max_calls / num_events))
    else markets_list0
  let use_all := noTeamFilterEnv = "1"
  let ctx : ScanCtx :=
    { erfs := erfs, sq := sq, projCols := projections.cols,
      sigma_defaults := sigma_defaults, alpha := alpha,
      target_books := target_books, stake_bands := stake_bands,
      odds_levels := odds_levels, bankroll := bankroll, unit_pct := unit_pct,
      max_juice := max_juice }
  let rows ← collectRows ctx projections markets_list oddsOf use_all events
  let sorted := sortedBy edgeLe rows
  let final := if 0 < top_n then sorted.take top_n.toNat else sorted
  pure (projections, final)

/-- `_KEEP_POS` (cleaning.py). -/
def _KEEP_POS : List String := ["QB", "RB", "WR", "TE"]

/-- `_DROP_COLS` (cleaning.py). -/
def _DROP_COLS : List String :=
  ["two_pts", "two_pts_sd", "return_tds", "return_tds_sd",
   "fg_0019", "fg_0019_sd", "fg_2029", "fg_2029_sd", "fg_3039", "fg_3039_sd",
   "fg_4049", "fg_4049_sd", "fg_50", "fg_50_sd", "xp", "xp_sd",
   "dst_int", "dst_int_sd", "dst_sacks", "dst_sacks_sd", "dst_safety", "dst_safety_sd",
   "dst_td", "dst_td_sd", "dst_blk", "dst_blk_sd",
   "idp_solo", "idp_solo_sd", "idp_sack", "idp_sack_sd", "idp_int", "idp_int_sd",
   "idp_pd", "idp_pd_sd", "idp_td", "idp_td_sd",
   "birthdate", "draft_year", "injury_status", "injury_details"]

/-- `_MARKET_MAP` (cleaning.py), in insertion order. -/
def _MARKET_MAP : List (String × String) :=
  [("pass_yds", "player_pass_yds"), ("pass_tds", "player_pass_tds"),
   ("rush_yds", "player_rush_yds"), ("rush_tds", "player_rush_tds"),
   ("rec_yds", "player_reception_yds"), ("rec_tds", "player_reception_tds"),
   ("rec", "player_receptions"), ("pass_rush_yds", "player_pass_rush_yds")]

/-- The alternate-header table of `_normalize_columns`. -/
def headerAlts : List (String × List String) :=
  [("player", ["Player", "PLAYER", "name", "Name"]),
   ("team", ["Team", "TEAM"]),
   ("pos", ["position", "Position", "POS", "Pos"])]

/-- The `rename_map` of `_normalize_columns`: for each missing canonical
name, the first present alternate. -/
def renamePairs (cols : List String) : List (String × String) :=
  headerAlts.flatMap fun wa =>
    if cols.contains wa.1 then []
    else
      match wa.2.find? (fun a => cols.contains a) with
      | some a => [(a, wa.1)]
      | none => []

/-- `_normalize_columns` (cleaning.py). -/
def _normalize_columns (t : Table) : Table :=
  let rm := renamePairs t.cols
  if rm.isEmpty then t
  else
    { t with
      cols := t.cols.map fun c =>
        match rm.lookup c with
        | some w => w
        | none => c }

/-- Position-filter predicate: `df["pos"].astype(str).str.upper()` lies in
`_KEEP_POS`. -/
def keepPosRow (cols : List String) (row : List Val) : Bool :=
  _KEEP_POS.contains (strUpper (pyValStr (cellAt cols row "pos")))

/-- The position filter of `clean_projections`. -/
def filterPosTable (t : Table) : Table :=
  { t with rows := t.rows.filter (keepPosRow t.cols) }

/-- `df[names]`: select columns by label, in the given order. -/
def selectColsTable (t : Table) (names : List String) : Table :=
  { cols := names, rows := t.rows.map fun r => names.map (cellAt t.cols r) }

/-- `df.drop(columns=...)`: remove the labelled columns. -/
def dropColsTable (t : Table) (drop : List String) : Table :=
  selectColsTable t (t.cols.filter fun c => ¬drop.contains c)

/-- `df[name] = df.apply(f)`-style column append (new columns land at the
right end, as in pandas). -/
def addColumnBy (t : Table) (name : String) (f : List Val → Val) : Table :=
  { cols := t.cols ++ [name], rows := t.rows.map fun r => r ++ [f r] }

/-- `_add_market_columns` (cleaning.py): sequentially backfill each
`player_*` column (and its `_sd` companion) from its alias when the
canonical column is absent and the alias present. -/
def _add_market_columns (t0 : Table) : Table :=
  _MARKET_MAP.foldl
    (fun t am =>
      let t1 :=
        if ¬t.cols.contains am.2 ∧ t.cols.contains am.1 then
          addColumnBy t am.2 fun r => cellAt t.cols r am.1
        else t
      let a_sd := am.1 ++ "_sd"
      let m_sd := am.2 ++ "_sd"
      if ¬t1.cols.contains m_sd ∧ t1.cols.contains a_sd then
        addColumnBy t1 m_sd fun r => cellAt t1.cols r a_sd
      else t1)
    t0

/-- The NA tokens of `_coerce_numeric`. -/
def naTokens : List String := ["NA", "NaN", "None", "", "null", "Null", "NULL"]

/-- `df.replace(na_tokens, nan)` on one cell. -/
def replaceNaCell (v : Val) : Val :=
  match v with
  | .str s => if naTokens.contains s then .nan else v
  | _ => v

/-- `pd.to_numeric(x, errors="coerce")` on one cell. -/
def toNumericCell (v : Val) : Val :=
  match v with
  | .num q => .num q
  | .nan => .nan
  | .str s =>
    match pyParseFloat s with
    | some q => .num q
    | none => .nan

/-- Apply `f` to every cell of the labelled column. -/
def mapColumn (t : Table) (name : String) (f : Val → Val) : Table :=
  match t.cols.indexOf? name with
  | some i => { t with rows := t.rows.map fun r => r.set i (f (r.getD i Val.nan)) }
  | none => t

/-- `_coerce_numeric` (cleaning.py): token replacement over the whole table,
then numeric coercion of every present market / market-`_sd` column. -/
def _coerce_numeric (t : Table) : Table :=
  let t1 : Table := { t with rows := t.rows.map fun r => r.map replaceNaCell }
  let numericCols :=
    _MARKET_MAP.map (·.2) ++
      (_MARKET_MAP.map (·.2)).flatMap fun v =>
        if t1.cols.contains (v ++ "_sd") then [v ++ "_sd"] else []
  numericCols.foldl
    (fun acc c => if acc.cols.contains c then mapColumn acc c toNumericCell else acc)
    t1

/-- `fillna(0)`-then-`sum` component: NaN contributes 0.  (In
`clean_projections` the summed columns have just been numerically coerced,
so only numbers and NaN occur.) -/
def numOr0 : Val → ℚ
  | .num q => q
  | _ => 0

/-- `pow(2)`-then-`fillna(0)` component for the sd combinations. -/
def sqOr0 : Val → ℚ
  | .num q => q ^ 2
  | _ => 0

/-- A combination-market sum column (`df[comps].fillna(0).sum(axis=1)`),
created only when absent and at least one component column exists. -/
def addComboSum (t : Table) (combo : String) (comps : List String) : Table :=
  if t.cols.contains combo then t
  else
    let present := comps.filter fun c => t.cols.contains c
    if present.isEmpty then t
    else addColumnBy t combo fun r => .num (present.map fun c => numOr0 (cellAt t.cols r c)).sum

/-- A combination-market sd column
(`sqrt(df[sd_comps].pow(2).fillna(0).sum(axis=1))` with `sq` for
`numpy.sqrt`), created only when absent and at least one component `_sd`
column exists. -/
def addComboSd (sq : ℚ → ℚ) (t : Table) (combo_sd : String) (compsSd : List String) : Table :=
  if t.cols.contains combo_sd then t
  else
    let present := compsSd.filter fun c => t.cols.contains c
    if present.isEmpty then t
    else addColumnBy t combo_sd fun r => .num (sq (present.map fun c => sqOr0 (cellAt t.cols r c)).sum)

/-- `keep_base` of `clean_projections`. -/
def keepBaseList (cols : List String) : List String :=
  ["player", "team", "pos", "id", "avg_type", "season_year", "week"].filter fun c =>
    cols.contains c

/-- `list(dict.fromkeys(...))`: deduplicate keeping first occurrences;
`seen` accumulates the keys already emitted. -/
def dedupKeepFirstGo (seen : List String) : List String → List String
  | [] => []
  | a :: as =>
    if seen.contains a then dedupKeepFirstGo seen as
    else a :: dedupKeepFirstGo (a :: seen) as

/-- `list(dict.fromkeys(...))`: deduplicate keeping first occurrences. -/
def dedupKeepFirst (l : List String) : List String :=
  dedupKeepFirstGo [] l

/-- `keep_markets` of `clean_projections`: present canonical market columns
(in `_MARKET_MAP` order) followed by present combination columns,
deduplicated keeping first occurrences. -/
def keepMarketsList (cols : List String) : List String :=
  let base := (_MARKET_MAP.map (·.2)).filter fun c => cols.contains c
  let combos :=
    ["player_pass_rush_yds", "player_pass_rush_reception_yds"].filter fun c => cols.contains c
  dedupKeepFirst (base ++ combos)

/-- `keep_markets_sd` of `clean_projections`. -/
def keepMarketsSdList (cols : List String) (keepMs : List String) : List String :=
  keepMs.filterMap fun c => if cols.contains (c ++ "_sd") then some (c ++ "_sd") else none

/-- `preserved_others` of `clean_projections`. -/
def preservedOthers (cols : List String) (keeps : List String) : List String :=
  cols.filter fun c => ¬_DROP_COLS.contains c ∧ ¬keeps.contains c

/-- `final_cols` of `clean_projections`, as a function of the column list. -/
def finalColsOf (cols : List String) : List String :=
  let kb := keepBaseList cols
  let km := keepMarketsList cols
  let ks := keepMarketsSdList cols km
  kb ++ km ++ ks ++ preservedOthers cols (kb ++ km ++ ks)

/-- `df.dropna(axis=0, subset=keep_markets, how="all")`: keep rows with at
least one non-missing cell among `subset`. -/
def dropAllNaRows (t : Table) (subset : List String) : Table :=
  { t with rows := t.rows.filter fun r => subset.any fun c => cellAt t.cols r c ≠ Val.nan }

/-- `clean_projections` (cleaning.py); `sq` stands for `numpy.sqrt`.  Raises
(`KeyError`) exactly when no position column survives normalisation. -/
def clean_projections (sq : ℚ → ℚ) (df_in : Table) : Except String Table := do
  let df := _normalize_columns df_in
  if ¬df.cols.contains "pos" then
    throw "KeyError: Missing required pos (position) column after normalization."
  let df := filterPosTable df
  let dropPresent := _DROP_COLS.filter fun c => df.cols.contains c
  let df := if dropPresent.isEmpty then df else dropColsTable df _DROP_COLS
  let df := _add_market_columns df
  let df := _coerce_numeric df
  let df := addComboSum df "player_pass_rush_yds" ["player_pass_yds", "player_rush_yds"]
  let df := addComboSd sq df "player_pass_rush_yds_sd" ["player_pass_yds_sd", "player_rush_yds_sd"]
  let df := addComboSum df "player_pass_rush_reception_yds"
    ["player_pass_yds", "player_rush_yds", "player_reception_yds"]
  let df := addComboSd sq df "player_pass_rush_reception_yds_sd"
    ["player_pass_yds_sd", "player_rush_yds_sd", "player_reception_yds_sd"]
  let km := keepMarketsList df.cols
  let df := selectColsTable df (finalColsOf df.cols)
  let df := if km.isEmpty then df else dropAllNaRows df km
  return df

/-- `_fmt_pct` (alerts.py): `f"{x*100:.1f}%"` (fixed one decimal,
round-half-even). -/
def _fmt_pct (x : ℚ) : String :=
  let m := roundHalfEven (x * 100 * 10)
  let sign := if m < 0 then "-" else ""
  let a := m.natAbs
  sign ++ toString (a / 10) ++ "." ++ toString (a % 10) ++ "%"

/-- `_market_readable` (alerts.py). -/
def _market_readable (mkey : String) : String :=
  let m : List (String × String) :=
    [("player_pass_yds", "passing yards"), ("player_rush_yds", "rushing yards"),
     ("player_reception_yds", "receiving yards"), ("player_receptions", "receptions"),
     ("player_pass_tds", "pass TDs"), ("player_rush_tds", "rush TDs"),
     ("player_reception_tds", "rec TDs"), ("player_interceptions", "def INTs"),
     ("player_pass_interceptions", "pass INTs"),
     ("player_pass_completions", "pass completions"),
     ("player_pass_attempts", "pass attempts"),
     ("player_pass_longest_completion", "longest completion"),
     ("player_longest_reception", "longest reception"),
     ("player_reception_longest", "longest reception"),
     ("player_longest_rush", "longest rush"), ("player_rush_longest", "longest rush"),
     ("player_rush_attempts", "rush attempts"),
     ("player_pass_rush_reception_yds", "pass+rush+rec yards"),
     ("player_pass_rush_reception_tds", "pass+rush+rec TDs")]
  match m.lookup mkey with
  | some s => s
  | none => strReplace mkey "_" " "

/-- `format_advice` (alerts.py).  `none` models passing `df=None`. -/
def format_advice (df : Option (List EdgeRow)) (threshold : ℚ) : String :=
  match df with
  | none => "No edges found."
  | some rows =>
    if rows.isEmpty then "No edges found."
    else
      let lines := rows.filterMap fun r =>
        if r.ev_per_unit < threshold then none
        else
          some (r.player ++ " " ++ r.side ++ " " ++ pyFloatRepr r.book_line ++ " " ++
            _market_readable r.market_key ++ " — " ++ toString r.book_odds ++ " (" ++
            r.best_book ++ ") | EV " ++ _fmt_pct r.ev_per_unit ++ " | " ++
            pyFloatRepr r.stake_u ++ "u")
      if lines.isEmpty then "No edges ≥ threshold."
      else strIntercalate "\n" (lines.take 25)

/-- `_resolve_webhook` (alerts.py).  `env1`/`env2` are the values of
`SLACK_WEBHOOK_URL` / `SLACK_WEBHOOK` (absent = `none`). -/
def _resolve_webhook (candidate env1 env2 : Option String) : String :=
  let fromEnv :=
    let pickS : Option String → Option String := fun o =>
      o.bind fun s => if s = "" then none else some s
    strTrim ((pickS env1 <|> pickS env2).getD "")
  match candidate with
  | some c => if c ≠ "" ∧ strTrim c ≠ "" then strTrim c else fromEnv
  | none => fromEnv

/-- What one `requests.post` inside `alert_edges` did: raised, or returned a
status and body text. -/
inductive AttemptOutcome where
  | exc (msg : String)
  | resp (status : ℤ) (body : String)
deriving DecidableEq, Repr

/-- The error detail `alert_edges` records for a failed attempt. -/
def slackDetail : AttemptOutcome → String
  | .resp s body =>
    "HTTP " ++ toString s ++ (if strTrim body ≠ "" then ": " ++ strTrim body else "")
  | .exc m => "Exception: " ++ m

/-- The observable outcome of one `alert_edges` call: whether a post
succeeded, how many HTTP requests were made, and what (if anything) was
written to `artifacts/slack_failed.txt`. -/
structure AlertResult where
  posted : Bool
  requests_made : ℕ
  file_content : Option String
deriving DecidableEq, Repr

/-- The retry loop of `alert_edges`: `fuel` attempts remain, `made` were
made; returns (success, total requests, recorded error details). -/
def alertAttempts (attempts : ℕ → AttemptOutcome) :
    ℕ → ℕ → List String → Bool × ℕ × List String
  | 0, made, errs => (false, made, errs)
  | fuel + 1, made, errs =>
    match attempts made with
    | .resp s body =>
      if s < 400 then (true, made + 1, errs)
      else alertAttempts attempts fuel (made + 1) (errs ++ [slackDetail (.resp s body)])
    | .exc m => alertAttempts attempts fuel (made + 1) (errs ++ [slackDetail (.exc m)])

/-- `alert_edges` (alerts.py).  `attempts i` is what the `i`-th POST to the
webhook would do (only `i < 3` is ever consulted).  Every branch of the
source returns normally — no raising path exists once `requests.post`
exceptions are caught — which the total return type records. -/
def alert_edges (df : Option (List EdgeRow)) (threshold_ev : ℚ)
    (webhook env1 env2 : Option String) (attempts : ℕ → AttemptOutcome) :
    AlertResult :=
  let hook := _resolve_webhook webhook env1 env2
  let msg := "*NFL Edges*\n" ++ format_advice df threshold_ev
  if hook = "" then
    { posted := false, requests_made := 0,
      file_content := some ("No SLACK_WEBHOOK_URL configured.\n\n" ++ msg) }
  else
    let r := alertAttempts attempts 3 0 []
    if r.1 then { posted := true, requests_made := r.2.1, file_content := none }
    else
      { posted := false, requests_made := r.2.1,
        file_content := some
          ((if r.2.2.isEmpty then "" else strIntercalate "\n" r.2.2 ++ "\n\n") ++ msg) }

/-- Concrete odds payload used to exercise `best_offer_for_player`: a single
book quoting a 2.0-yard passing-yards line — absurd for a yardage market,
but non-negative. -/
def exPayloadC1 : List Bookmaker :=
  [{ key := "bk",
     markets := [{ key := "player_pass_yds",
                   outcomes := [{ description := some "joe smith",
                                  point := some (.num 2),
                                  price := some (.num (-110)) }] }] }]


/-- Look a key up in a successfully loaded configuration dict. -/
def cfgLookup (e : Except String YVal) (k : String) : Option YVal :=
  match e with
  | .ok (.dict kvs) => kvs.lookup k
  | _ => none

/-- Whether one `alert_edges` POST attempt counts as a failure for the
retry loop: an exception, or a status the code treats as bad
(`status_code < 400` is its success test). -/
def attemptFails : AttemptOutcome → Bool
  | .exc _ => true
  | .resp s _ => decide (400 ≤ s)


/-- A raw configuration with markets configured but no staking-band key. -/
def rawC5 : List (String × YVal) := [("markets", .list [.str "player_reception_yds"])]

/-- The configuration `load_config` produces from `rawC5`. -/
def cfgC5 : YVal :=
  match load_config true (some (.dict rawC5)) with
  | .ok c => c
  | .error _ => .null

/-- A one-player projections table. -/
def projC5 : Table :=
  { cols := ["player", "team", "pos", "player_reception_yds"],
    rows := [[.str "Player X", .str "Team A", .str "WR", .num 60]] }

/-- A one-book odds payload quoting Player X at 55.5 / +100. -/
def bmC5 : List Bookmaker :=
  [{ key := "bk",
     markets := [{ key := "player_reception_yds",
                   outcomes := [{ description := some "Player X",
                                  point := some (.num (111 / 2)),
                                  price := some (.num 100) }] }] }]

/-- A concrete full scan over `cfgC5` (no staking bands configured). -/
def runC5 : Except String (Table × List EdgeRow) :=
  scanEdges (fun _ => 1) (fun q => q) projC5 cfgC5 "" "0"
    [{ id := "E1", home_team := some "Team A", away_team := some "Team B" }]
    (fun _ _ => bmC5) "base" 1000

/-- The edge rows `runC5` produced. -/
def rowsC5 : List EdgeRow :=
  match runC5 with
  | .ok pr => pr.2
  | .error _ => []

/-- A projections table for the frame-property witness. -/
def projC10 : Table :=
  { cols := ["player", "team", "pos", "player_pass_yds"],
    rows := [[.str "A QB", .str "KC", .str "QB", .num 250]] }

/-- A concrete scan call for the frame-property witness (no events). -/
def runC10 : Except String (Table × List EdgeRow) :=
  scanEdges (fun _ => 0) (fun q => q) projC10 (.dict []) "" "0" [] (fun _ _ => []) "base" 1000

/-- The projections component `runC10` returned. -/
def fstC10 : Table :=
  match runC10 with
  | .ok pr => pr.1
  | .error _ => { cols := [], rows := [] }

/-- The edges component `runC10` returned. -/
def sndC10 : List EdgeRow :=
  match runC10 with
  | .ok pr => pr.2
  | .error _ => []


/-- The combination components of line 194 of cleaning.py. -/
def comboYdsComps : List String :=
  ["player_pass_yds", "player_rush_yds", "player_reception_yds"]

/-- The combination sd components of line 199 of cleaning.py. -/
def comboYdsSdComps : List String :=
  ["player_pass_yds_sd", "player_rush_yds_sd", "player_reception_yds_sd"]

/-- A projection row with passing yards only (no rushing / receiving). -/
def rowC2 : List Val := [.str "A QB", .str "QB", .num 100, .num 25]

/-- A projections table carrying only one of the three combination
components. -/
def tC2 : Table :=
  { cols := ["player", "pos", "player_pass_yds", "player_pass_yds_sd"],
    rows := [rowC2] }


/-- Every column name `_coerce_numeric` can ever touch: the canonical market
names and their `_sd` companions. -/
def numericCandidates : List String :=
  _MARKET_MAP.map (·.2) ++ (_MARKET_MAP.map (·.2)).map (· ++ "_sd")


/-- Every market column name `clean_projections` can ever keep in
`keep_markets`: the canonical market names plus the two combination names. -/
def marketCandidates : List String :=
  _MARKET_MAP.map (·.2) ++ ["player_pass_rush_yds", "player_pass_rush_reception_yds"]


/-- The drop-columns stage of `clean_projections` (lines 169-171 of
cleaning.py). -/
def dropStage (t : Table) : Table :=
  if (_DROP_COLS.filter fun c => t.cols.contains c).isEmpty then t
  else dropColsTable t _DROP_COLS

/-- The four combination-column steps of `clean_projections` (lines
179-201 of cleaning.py), in source order. -/
def combosStage (sq : ℚ → ℚ) (t : Table) : Table :=
  addComboSd sq
    (addComboSum
      (addComboSd sq
        (addComboSum t "player_pass_rush_yds" ["player_pass_yds", "player_rush_yds"])
        "player_pass_rush_yds_sd" ["player_pass_yds_sd", "player_rush_yds_sd"])
      "player_pass_rush_reception_yds"
      ["player_pass_yds", "player_rush_yds", "player_reception_yds"])
    "player_pass_rush_reception_yds_sd"
    ["player_pass_yds_sd", "player_rush_yds_sd", "player_reception_yds_sd"]

/-- The column-selection and drop-all-NA stage of `clean_projections`
(lines 203-234 of cleaning.py). -/
def selectStage (t : Table) : Table :=
  let km := keepMarketsList t.cols
  let df := selectColsTable t (finalColsOf t.cols)
  if km.isEmpty then df else dropAllNaRows df km

/-- `clean_projections` after the position-column check, as a composition
of its stages. -/
def cleanCore (sq : ℚ → ℚ) (t : Table) : Table :=
  selectStage (combosStage sq (_coerce_numeric (_add_market_columns (dropStage (filterPosTable t)))))


/-- The column-rename applied by `_normalize_columns`: `df.rename(columns=rename_map)`
on a single label. -/
def renameFun (cols : List String) (c : String) : String :=
  match (renamePairs cols).lookup c with
  | some w => w
  | none => c


/-- A small raw projections table for the idempotence witness. -/
def tC9 : Table :=
  { cols := ["player", "pos", "player_pass_yds"],
    rows := [[.str "A QB", .str "QB", .num 100]] }

/-- The cleaned form of `tC9`. -/
def uC9 : Table :=
  match clean_projections (fun q => q) tC9 with
  | .ok u => u
  | .error _ => { cols := [], rows := [] }

/-! ## Theorems -/

theorem betterOffer_cases (side : String) (b c : String × ℚ × ℤ) :
    betterOffer side b c = b ∨ betterOffer side b c = c := by
  unfold betterOffer
  split <;> split <;> simp

/-- The lexicographic "at least as good for OVER" preorder: lower line,
ties at higher price. -/
def overBetter (a x : String × ℚ × ℤ) : Prop :=
  a.2.1 ≤ x.2.1 ∧ (x.2.1 = a.2.1 → x.2.2 ≤ a.2.2)

/-- The mirrored preorder for UNDER: higher line, ties at higher price. -/
def underBetter (a x : String × ℚ × ℤ) : Prop :=
  x.2.1 ≤ a.2.1 ∧ (x.2.1 = a.2.1 → x.2.2 ≤ a.2.2)

theorem overBetter_rfl (a : String × ℚ × ℤ) : overBetter a a := ⟨le_refl _, fun _ => le_refl _⟩

theorem underBetter_rfl (a : String × ℚ × ℤ) : underBetter a a := ⟨le_refl _, fun _ => le_refl _⟩

theorem overBetter_trans {a b c : String × ℚ × ℤ} :
    overBetter a b → overBetter b c → overBetter a c := by
  rintro ⟨h1, h2⟩ ⟨h3, h4⟩
  refine ⟨le_trans h1 h3, fun he => ?_⟩
  have hba : b.2.1 ≤ a.2.1 := by rw [← he]; exact h3
  have hb : b.2.1 = a.2.1 := le_antisymm hba h1
  have hcb : c.2.1 = b.2.1 := by rw [he, hb]
  exact le_trans (h4 hcb) (h2 hb)

theorem underBetter_trans {a b c : String × ℚ × ℤ} :
    underBetter a b → underBetter b c → underBetter a c := by
  rintro ⟨h1, h2⟩ ⟨h3, h4⟩
  refine ⟨le_trans h3 h1, fun he => ?_⟩
  have hab : a.2.1 ≤ b.2.1 := by rw [← he]; exact h3
  have hb : b.2.1 = a.2.1 := le_antisymm h1 hab
  have hcb : c.2.1 = b.2.1 := by rw [he, hb]
  exact le_trans (h4 hcb) (h2 hb)

theorem betterOffer_over_left (b c : String × ℚ × ℤ) :
    overBetter (betterOffer "OVER" b c) b := by
  unfold betterOffer
  rw [if_pos rfl]
  by_cases h : c.2.1 < b.2.1 ∨ (c.2.1 = b.2.1 ∧ b.2.2 < c.2.2)
  · rw [if_pos h]
    rcases h with h | ⟨h1, h2⟩
    · exact ⟨le_of_lt h, fun he => absurd h (by rw [he]; exact lt_irrefl _)⟩
    · exact ⟨le_of_eq h1, fun _ => le_of_lt h2⟩
  · rw [if_neg h]
    exact overBetter_rfl b

theorem betterOffer_over_right (b c : String × ℚ × ℤ) :
    overBetter (betterOffer "OVER" b c) c := by
  unfold betterOffer
  rw [if_pos rfl]
  by_cases h : c.2.1 < b.2.1 ∨ (c.2.1 = b.2.1 ∧ b.2.2 < c.2.2)
  · rw [if_pos h]
    exact overBetter_rfl c
  · rw [if_neg h]
    push_neg at h
    exact ⟨h.1, fun he => h.2 he⟩

theorem betterOffer_under_left {side : String} (hs : side ≠ "OVER") (b c : String × ℚ × ℤ) :
    underBetter (betterOffer side b c) b := by
  unfold betterOffer
  rw [if_neg hs]
  by_cases h : b.2.1 < c.2.1 ∨ (c.2.1 = b.2.1 ∧ b.2.2 < c.2.2)
  · rw [if_pos h]
    rcases h with h | ⟨h1, h2⟩
    · exact ⟨le_of_lt h, fun he => absurd h (by rw [he]; exact lt_irrefl _)⟩
    · exact ⟨le_of_eq h1.symm, fun _ => le_of_lt h2⟩
  · rw [if_neg h]
    exact underBetter_rfl b

theorem betterOffer_under_right {side : String} (hs : side ≠ "OVER") (b c : String × ℚ × ℤ) :
    underBetter (betterOffer side b c) c := by
  unfold betterOffer
  rw [if_neg hs]
  by_cases h : b.2.1 < c.2.1 ∨ (c.2.1 = b.2.1 ∧ b.2.2 < c.2.2)
  · rw [if_pos h]
    exact underBetter_rfl c
  · rw [if_neg h]
    push_neg at h
    exact ⟨h.1, fun he => h.2 he⟩

/-- The option-free core of `searchBest` once a first candidate seeded the
accumulator. -/
def searchBest1 (side : String) (b : String × ℚ × ℤ) (l : List (String × ℚ × ℤ)) :
    String × ℚ × ℤ :=
  l.foldl (betterOffer side) b

theorem searchBest_nil (side : String) : searchBest side [] = none := rfl

theorem searchBest_cons (side : String) (x : String × ℚ × ℤ) (xs : List (String × ℚ × ℤ)) :
    searchBest side (x :: xs) = some (searchBest1 side x xs) := by
  show List.foldl _ (some x) xs = _
  unfold searchBest1
  induction xs generalizing x with
  | nil => rfl
  | cons y ys ih => exact ih (betterOffer side x y)

theorem searchBest1_mem (side : String) (b : String × ℚ × ℤ)
    (l : List (String × ℚ × ℤ)) : searchBest1 side b l ∈ b :: l := by
  induction l generalizing b with
  | nil => simp [searchBest1]
  | cons c cs ih =>
    have step : searchBest1 side b (c :: cs) = searchBest1 side (betterOffer side b c) cs := rfl
    rw [step]
    rcases List.mem_cons.1 (ih (betterOffer side b c)) with h2 | h2
    · rw [h2]
      rcases betterOffer_cases side b c with hbc | hbc <;> rw [hbc]
      · exact List.mem_cons_self _ _
      · exact List.mem_cons_of_mem _ (List.mem_cons_self _ _)
    · exact List.mem_cons_of_mem _ (List.mem_cons_of_mem _ h2)

theorem searchBest1_over (b : String × ℚ × ℤ) (l : List (String × ℚ × ℤ)) :
    ∀ x ∈ b :: l, overBetter (searchBest1 "OVER" b l) x := by
  induction l generalizing b with
  | nil =>
    intro x hx
    rcases List.mem_cons.1 hx with rfl | h
    · exact overBetter_rfl _
    · cases h
  | cons c cs ih =>
    intro x hx
    have step : searchBest1 "OVER" b (c :: cs) = searchBest1 "OVER" (betterOffer "OVER" b c) cs := rfl
    rw [step]
    have hHead := ih (betterOffer "OVER" b c) _ (List.mem_cons_self _ _)
    rcases List.mem_cons.1 hx with rfl | hx2
    · exact overBetter_trans hHead (betterOffer_over_left x c)
    · rcases List.mem_cons.1 hx2 with rfl | hx3
      · exact overBetter_trans hHead (betterOffer_over_right b x)
      · exact ih (betterOffer "OVER" b c) x (List.mem_cons_of_mem _ hx3)

theorem searchBest1_under {side : String} (hs : side ≠ "OVER") (b : String × ℚ × ℤ)
    (l : List (String × ℚ × ℤ)) : ∀ x ∈ b :: l, underBetter (searchBest1 side b l) x := by
  induction l generalizing b with
  | nil =>
    intro x hx
    rcases List.mem_cons.1 hx with rfl | h
    · exact underBetter_rfl _
    · cases h
  | cons c cs ih =>
    intro x hx
    have step : searchBest1 side b (c :: cs) = searchBest1 side (betterOffer side b c) cs := rfl
    rw [step]
    have hHead := ih (betterOffer side b c) _ (List.mem_cons_self _ _)
    rcases List.mem_cons.1 hx with rfl | hx2
    · exact underBetter_trans hHead (betterOffer_under_left hs x c)
    · rcases List.mem_cons.1 hx2 with rfl | hx3
      · exact underBetter_trans hHead (betterOffer_under_right hs b x)
      · exact ih (betterOffer side b c) x (List.mem_cons_of_mem _ hx3)

theorem searchBest_mem {side : String} {cands : List (String × ℚ × ℤ)}
    {c : String × ℚ × ℤ} (h : searchBest side cands = some c) : c ∈ cands := by
  cases cands with
  | nil => cases h
  | cons x xs =>
    rw [searchBest_cons] at h
    exact (Option.some_inj.1 h) ▸ searchBest1_mem side x xs

theorem searchBest_eq_none_iff (side : String) (cands : List (String × ℚ × ℤ)) :
    searchBest side cands = none ↔ cands = [] := by
  cases cands with
  | nil => simp [searchBest_nil]
  | cons x xs => simp [searchBest_cons]

/-- Every candidate passed `sanity_line_ok`. -/
theorem outcomeCand_sanity {pn mk bk : String} {o : OddsOutcome} {c : String × ℚ × ℤ}
    (h : outcomeCand pn mk bk o = some c) :
    sanity_line_ok mk (some (.num c.2.1)) = true := by
  unfold outcomeCand at h
  split at h
  · cases h
  · simp only [bind, Option.bind_eq_some] at h
    obtain ⟨pv, hp, prv, hq, line, hf, price, hi, hfin⟩ := h
    split at hfin
    · rename_i hS
      cases hfin
      simpa using hS
    · cases hfin

theorem mem_searchCandidates_sanity {ev : List Bookmaker} {pn mk : String}
    {allowed : Option (List String)} {c : String × ℚ × ℤ}
    (h : c ∈ searchCandidates ev pn mk allowed) :
    sanity_line_ok mk (some (.num c.2.1)) = true := by
  rcases List.mem_flatMap.1 h with ⟨bm, _, h2⟩
  split at h2
  · cases h2
  · rcases List.mem_flatMap.1 h2 with ⟨mkt, _, h4⟩
    split at h4
    · cases h4
    · rcases List.mem_filterMap.1 h4 with ⟨o, _, h6⟩
      exact outcomeCand_sanity h6

theorem mem_searchCandidates_nonneg {ev : List Bookmaker} {pn mk : String}
    {allowed : Option (List String)} {c : String × ℚ × ℤ}
    (h : c ∈ searchCandidates ev pn mk allowed) : 0 ≤ c.2.1 := by
  have := mem_searchCandidates_sanity h
  simpa [sanity_line_ok] using this

theorem searchBest_over_opt {cands : List (String × ℚ × ℤ)} {c : String × ℚ × ℤ}
    (h : searchBest "OVER" cands = some c) :
    c ∈ cands ∧ ∀ x ∈ cands, c.2.1 ≤ x.2.1 ∧ (x.2.1 = c.2.1 → x.2.2 ≤ c.2.2) := by
  cases cands with
  | nil => cases h
  | cons x xs =>
    rw [searchBest_cons] at h
    cases Option.some_inj.1 h
    exact ⟨searchBest1_mem _ x xs, fun y hy => searchBest1_over x xs y hy⟩

theorem searchBest_under_opt {side : String} (hs : side ≠ "OVER")
    {cands : List (String × ℚ × ℤ)} {c : String × ℚ × ℤ}
    (h : searchBest side cands = some c) :
    c ∈ cands ∧ ∀ x ∈ cands, x.2.1 ≤ c.2.1 ∧ (x.2.1 = c.2.1 → x.2.2 ≤ c.2.2) := by
  cases cands with
  | nil => cases h
  | cons x xs =>
    rw [searchBest_cons] at h
    cases Option.some_inj.1 h
    exact ⟨searchBest1_mem _ x xs, fun y hy => searchBest1_under hs x xs y hy⟩

/-- C1: the claim asserts `best_offer_for_player` only accepts offers
passing the stricter per-market sanity rule (yardage requires line ≥ 5.5,
etc.).  Counterexample: the code's `sanity_line_ok` only checks
non-negativity, so a 2.0-yard passing-yards line — rejected by the
per-market rule — is accepted and selected as the best offer. -/
theorem c1_counterexample :
    best_offer_for_player exPayloadC1 "Joe Smith" "player_pass_yds" "OVER" [] =
        some ("bk", 2, -110) ∧
      sanity_line_ok "player_pass_yds" (some (.num 2)) = true ∧
      specSanityLineOk "player_pass_yds" 2 = false := by
  refine ⟨by decide, by decide, by decide⟩

/-- C1 (amended): the line filter `best_offer_for_player` actually applies
is `sanity_line_ok`, which accepts exactly the non-negative lines for every
market; consequently every offer it returns has a non-negative line.  The
spec's per-market rule is not applied by this code. -/
theorem c1_amended :
    (∀ (mk : String) (line : ℚ),
      sanity_line_ok mk (some (.num line)) = decide (0 ≤ line)) ∧
    ∀ (ev : List Bookmaker) (player mkey side : String) (tb : List String)
      (off : String × ℚ × ℤ),
      best_offer_for_player ev player mkey side tb = some off → 0 ≤ off.2.1 := by
  refine ⟨fun _ _ => rfl, fun ev player mkey side tb off h => ?_⟩
  simp only [best_offer_for_player] at h
  split at h
  · rename_i b hs
    cases Option.some_inj.1 h
    exact mem_searchCandidates_nonneg (searchBest_mem hs)
  · split at h
    · cases h
    · exact mem_searchCandidates_nonneg (searchBest_mem h)

/-- Witness for C1 (amended), at the concrete payload `exPayloadC1`. -/
theorem c1_amended_witness :
    sanity_line_ok "player_pass_yds" (some (.num 2)) = decide ((0 : ℚ) ≤ 2) ∧
      (0 : ℚ) ≤ (("bk", (2 : ℚ), (-110 : ℤ)) : String × ℚ × ℤ).2.1 :=
  ⟨c1_amended.1 "player_pass_yds" 2,
   c1_amended.2 exPayloadC1 "Joe Smith" "player_pass_yds" "OVER" [] ("bk", 2, -110) (by decide)⟩

/-- C3: the claim gives `n × max(1,|ms|) × max(1,regions)` and asserts the
estimate is at least `n` for an empty market list.  Counterexample: the code
multiplies by the bare market count, so 5 events with no markets estimate 0,
not 5. -/
theorem c3_counterexample :
    estimate_credits 5 ([] : List YVal) (.str "us") = 0 ∧ (0 : ℕ) ≠ 5 :=
  ⟨by decide, by decide⟩

/-- C3 (amended): `estimate_credits` is `n × |ms| × (number of
comma-separated fields of rs)` — no `max(1, ·)` is applied to the market
count, so an empty market list always estimates 0. -/
theorem c3_amended (n : ℕ) (ms : List YVal) (rs : String) :
    estimate_credits n ms (.str rs) = n * ms.length * (splitComma rs).length ∧
      (ms = [] → estimate_credits n ms (.str rs) = 0) := by
  constructor
  · rfl
  · rintro rfl
    simp [estimate_credits]

/-- Witness for C3 (amended) at concrete inputs. -/
theorem c3_amended_witness :
    estimate_credits 3 ([] : List YVal) (.str "us,eu") =
        3 * ([] : List YVal).length * (splitComma "us,eu").length ∧
      estimate_credits 3 ([] : List YVal) (.str "us,eu") = 0 :=
  ⟨(c3_amended 3 [] "us,eu").1, (c3_amended 3 [] "us,eu").2 rfl⟩

/-- C7: per `(player, market, side)`, `best_offer_for_player` selects among
the name-matching sanity-passing candidates the lowest line for OVER and the
highest for UNDER, ties broken by the higher price, and — when the non-empty
target-book set yields nothing — repeats the search over all bookmakers. -/
theorem c7_best_offer (ev : List Bookmaker) (player mkey : String) (tb : List String) :
    (∀ (allowed : Option (List String)) (c : String × ℚ × ℤ),
      searchBest "OVER" (searchCandidates ev (normalize_name player) mkey allowed) = some c →
        c ∈ searchCandidates ev (normalize_name player) mkey allowed ∧
          ∀ x ∈ searchCandidates ev (normalize_name player) mkey allowed,
            c.2.1 ≤ x.2.1 ∧ (x.2.1 = c.2.1 → x.2.2 ≤ c.2.2)) ∧
    (∀ (allowed : Option (List String)) (c : String × ℚ × ℤ),
      searchBest "UNDER" (searchCandidates ev (normalize_name player) mkey allowed) = some c →
        c ∈ searchCandidates ev (normalize_name player) mkey allowed ∧
          ∀ x ∈ searchCandidates ev (normalize_name player) mkey allowed,
            x.2.1 ≤ c.2.1 ∧ (x.2.1 = c.2.1 → x.2.2 ≤ c.2.2)) ∧
    ∀ side : String, tb ≠ [] →
      searchBest side (searchCandidates ev (normalize_name player) mkey (some tb)) = none →
      best_offer_for_player ev player mkey side tb =
        searchBest side (searchCandidates ev (normalize_name player) mkey none) := by
  refine ⟨fun _ _ h => searchBest_over_opt h,
          fun _ _ h => searchBest_under_opt (by decide) h,
          fun side hne hnone => ?_⟩
  simp only [best_offer_for_player]
  have hni : tb.isEmpty = false := by
    cases tb with
    | nil => exact absurd rfl hne
    | cons a as => rfl
  rw [hni]
  simp only [Bool.false_eq_true, if_false]
  rw [hnone]

/-- Witness for C7 at a concrete payload: the configured target book is
absent, so the fallback search over all books returns the offer. -/
theorem c7_best_offer_witness :
    best_offer_for_player exPayloadC1 "Joe Smith" "player_pass_yds" "OVER" ["otherbook"] =
      some ("bk", 2, -110) := by
  have h := (c7_best_offer exPayloadC1 "Joe Smith" "player_pass_yds" ["otherbook"]).2.2
    "OVER" (by decide) (by decide)
  rw [h]
  decide

/-- C4: the claim asserts `load_config` substitutes `${VAR}` placeholders
from the environment.  Counterexample: a config whose `regions` value is the
literal `${ODDS_API_KEY}` placeholder is returned verbatim — which is
neither the empty string nor any environment value such as
`sk-test-value` (the function reads no environment at all). -/
theorem c4_counterexample :
    cfgLookup
        (load_config true (some (.dict [("regions", .str "$\x7bODDS_API_KEY\x7d")])))
        "regions" = some (.str "$\x7bODDS_API_KEY\x7d") ∧
      ("$\x7bODDS_API_KEY\x7d" : String) ≠ "" ∧
      ("$\x7bODDS_API_KEY\x7d" : String) ≠ "sk-test-value" :=
  ⟨rfl, by decide, by decide⟩

/-- C4 (amended): `load_config` performs no placeholder substitution
whatsoever — a string value (here shown for `regions`) is passed through to
the returned configuration exactly as parsed from the file. -/
theorem c4_amended (kvs : List (String × YVal)) (s : String)
    (h : kvs.lookup "regions" = some (.str s)) :
    cfgLookup (load_config true (some (.dict kvs))) "regions" = some (.str s) := by
  have hne : kvs ≠ [] := by
    intro he
    rw [he] at h
    cases h
  have htr : (YVal.dict kvs).pyTruthy = true := by
    cases kvs with
    | nil => exact absurd rfl hne
    | cons a as => rfl
  simp only [load_config, htr, if_true, yget, YVal.get?, Except.map, bind, Except.bind,
    Bool.not_true, Bool.false_eq_true, if_false, reduceCtorEq, ite_false, ite_true, h]
  rfl

/-- Witness for C4 (amended) at a concrete configuration. -/
theorem c4_amended_witness :
    cfgLookup (load_config true (some (.dict [("regions", .str "eu")]))) "regions" =
      some (.str "eu") :=
  c4_amended [("regions", .str "eu")] "eu" rfl

/-- C6: the claim says every non-2xx response is treated as a failure and
retried.  Counterexample: the code's success test is `status_code < 400`,
so a 302 — not a 2xx — is accepted on the first attempt: one request, no
retry, no failure artifact. -/
theorem c6_counterexample :
    alert_edges none (6 / 100) (some "https://hook.example") none none
        (fun _ => .resp 302 "") =
      { posted := true, requests_made := 1, file_content := none } ∧
    ¬(200 ≤ (302 : ℤ) ∧ (302 : ℤ) < 300) :=
  ⟨by decide, by decide⟩

/-- C6 (amended): with `status < 400` (2xx *or* 3xx) as success: when no
webhook URL resolves, the composed message is written to the failure
artifact and no request is made; when a webhook is configured, attempts
failing (exception or status ≥ 400) are retried up to 3 total requests, and
on exhaustion the error details plus the message are written; a first
success at attempt `k` stops after `k+1` requests with nothing written.
`alert_edges` is a total function — every branch returns normally. -/
theorem c6_amended (df : Option (List EdgeRow)) (th : ℚ) (wh e1 e2 : Option String)
    (att : ℕ → AttemptOutcome) :
    (_resolve_webhook wh e1 e2 = "" →
      alert_edges df th wh e1 e2 att =
        { posted := false, requests_made := 0,
          file_content := some
            ("No SLACK_WEBHOOK_URL configured.\n\n" ++
              ("*NFL Edges*\n" ++ format_advice df th)) }) ∧
    (_resolve_webhook wh e1 e2 ≠ "" →
      ((∀ i, i < 3 → attemptFails (att i) = true) →
        alert_edges df th wh e1 e2 att =
          { posted := false, requests_made := 3,
            file_content := some
              (strIntercalate "\n"
                  [slackDetail (att 0), slackDetail (att 1), slackDetail (att 2)] ++
                "\n\n" ++ ("*NFL Edges*\n" ++ format_advice df th)) }) ∧
      ∀ k, k < 3 → (∀ i, i < k → attemptFails (att i) = true) →
        attemptFails (att k) = false →
        alert_edges df th wh e1 e2 att =
          { posted := true, requests_made := k + 1, file_content := none }) := by
  constructor
  · intro h0
    unfold alert_edges
    rw [h0]
    rfl
  · intro hne
    have hbr : (_resolve_webhook wh e1 e2 = "") = False := by
      simp [hne]
    constructor
    · intro hfail
      have h0 := hfail 0 (by omega)
      have h1 := hfail 1 (by omega)
      have h2 := hfail 2 (by omega)
      unfold alert_edges
      simp only [hbr, if_false]
      cases ha0 : att 0 with
      | exc m0 =>
        cases ha1 : att 1 with
        | exc m1 =>
          cases ha2 : att 2 with
          | exc m2 => simp [alertAttempts, ha0, ha1, ha2]
          | resp s2 b2 =>
            rw [ha2] at h2
            simp only [attemptFails, decide_eq_true_eq] at h2
            simp [alertAttempts, ha0, ha1, ha2, not_lt.2 h2]
        | resp s1 b1 =>
          rw [ha1] at h1
          simp only [attemptFails, decide_eq_true_eq] at h1
          cases ha2 : att 2 with
          | exc m2 => simp [alertAttempts, ha0, ha1, ha2, not_lt.2 h1]
          | resp s2 b2 =>
            rw [ha2] at h2
            simp only [attemptFails, decide_eq_true_eq] at h2
            simp [alertAttempts, ha0, ha1, ha2, not_lt.2 h1, not_lt.2 h2]
      | resp s0 b0 =>
        rw [ha0] at h0
        simp only [attemptFails, decide_eq_true_eq] at h0
        cases ha1 : att 1 with
        | exc m1 =>
          cases ha2 : att 2 with
          | exc m2 => simp [alertAttempts, ha0, ha1, ha2, not_lt.2 h0]
          | resp s2 b2 =>
            rw [ha2] at h2
            simp only [attemptFails, decide_eq_true_eq] at h2
            simp [alertAttempts, ha0, ha1, ha2, not_lt.2 h0, not_lt.2 h2]
        | resp s1 b1 =>
          rw [ha1] at h1
          simp only [attemptFails, decide_eq_true_eq] at h1
          cases ha2 : att 2 with
          | exc m2 => simp [alertAttempts, ha0, ha1, ha2, not_lt.2 h0, not_lt.2 h1]
          | resp s2 b2 =>
            rw [ha2] at h2
            simp only [attemptFails, decide_eq_true_eq] at h2
            simp [alertAttempts, ha0, ha1, ha2, not_lt.2 h0, not_lt.2 h1, not_lt.2 h2]
    · intro k hk hprev hsucc
      unfold alert_edges
      simp only [hbr, if_false]
      interval_cases k
      · cases ha0 : att 0 with
        | exc m0 => rw [ha0] at hsucc; cases hsucc
        | resp s0 b0 =>
          rw [ha0] at hsucc
          simp only [attemptFails, decide_eq_false_iff_not, not_le] at hsucc
          simp [alertAttempts, ha0, hsucc]
      · have h0 := hprev 0 (by omega)
        cases ha0 : att 0 with
        | exc m0 =>
          cases ha1 : att 1 with
          | exc m1 => rw [ha1] at hsucc; cases hsucc
          | resp s1 b1 =>
            rw [ha1] at hsucc
            simp only [attemptFails, decide_eq_false_iff_not, not_le] at hsucc
            simp [alertAttempts, ha0, ha1, hsucc]
        | resp s0 b0 =>
          rw [ha0] at h0
          simp only [attemptFails, decide_eq_true_eq] at h0
          cases ha1 : att 1 with
          | exc m1 => rw [ha1] at hsucc; cases hsucc
          | resp s1 b1 =>
            rw [ha1] at hsucc
            simp only [attemptFails, decide_eq_false_iff_not, not_le] at hsucc
            simp [alertAttempts, ha0, ha1, not_lt.2 h0, hsucc]
      · have h0 := hprev 0 (by omega)
        have h1 := hprev 1 (by omega)
        cases ha2 : att 2 with
        | exc m2 => rw [ha2] at hsucc; cases hsucc
        | resp s2 b2 =>
          rw [ha2] at hsucc
          simp only [attemptFails, decide_eq_false_iff_not, not_le] at hsucc
          cases ha0 : att 0 with
          | exc m0 =>
            cases ha1 : att 1 with
            | exc m1 => simp [alertAttempts, ha0, ha1, ha2, hsucc]
            | resp s1 b1 =>
              rw [ha1] at h1
              simp only [attemptFails, decide_eq_true_eq] at h1
              simp [alertAttempts, ha0, ha1, ha2, not_lt.2 h1, hsucc]
          | resp s0 b0 =>
            rw [ha0] at h0
            simp only [attemptFails, decide_eq_true_eq] at h0
            cases ha1 : att 1 with
            | exc m1 => simp [alertAttempts, ha0, ha1, ha2, not_lt.2 h0, hsucc]
            | resp s1 b1 =>
              rw [ha1] at h1
              simp only [attemptFails, decide_eq_true_eq] at h1
              simp [alertAttempts, ha0, ha1, ha2, not_lt.2 h0, not_lt.2 h1, hsucc]

/-- Witness for C6 (amended): all three branches applied at concrete
oracles. -/
theorem c6_amended_witness :
    alert_edges none (6 / 100) none none none (fun _ => .resp 200 "") =
      { posted := false, requests_made := 0,
        file_content := some
          ("No SLACK_WEBHOOK_URL configured.\n\n" ++
            ("*NFL Edges*\n" ++ format_advice none (6 / 100))) } ∧
    alert_edges none (6 / 100) (some "https://h") none none (fun _ => .resp 500 "boom") =
      { posted := false, requests_made := 3,
        file_content := some
          (strIntercalate "\n"
              [slackDetail (.resp 500 "boom"), slackDetail (.resp 500 "boom"),
               slackDetail (.resp 500 "boom")] ++
            "\n\n" ++ ("*NFL Edges*\n" ++ format_advice none (6 / 100))) } ∧
    alert_edges none (6 / 100) (some "https://h") none none (fun _ => .resp 200 "") =
      { posted := true, requests_made := 0 + 1, file_content := none } :=
  ⟨(c6_amended none (6 / 100) none none none (fun _ => .resp 200 "")).1 rfl,
   ((c6_amended none (6 / 100) (some "https://h") none none (fun _ => .resp 500 "boom")).2
       (by decide)).1 (by intro i _; decide),
   ((c6_amended none (6 / 100) (some "https://h") none none (fun _ => .resp 200 "")).2
       (by decide)).2 0 (by omega) (by omega) (by decide)⟩

theorem insertSorted_perm (le : α → α → Bool) (x : α) (l : List α) :
    (insertSorted le x l).Perm (x :: l) := by
  induction l with
  | nil => exact List.Perm.refl _
  | cons y ys ih =>
    unfold insertSorted
    by_cases h : le x y
    · rw [if_pos h]
    · rw [if_neg h]
      exact (ih.cons y).trans (List.Perm.swap x y ys)

theorem sortedBy_perm (le : α → α → Bool) (l : List α) : (sortedBy le l).Perm l := by
  induction l with
  | nil => exact List.Perm.refl _
  | cons a t ih =>
    have : sortedBy le (a :: t) = insertSorted le a (sortedBy le t) := rfl
    rw [this]
    exact (insertSorted_perm le a (sortedBy le t)).trans (ih.cons a)

theorem insertSorted_pairwise (le : α → α → Bool)
    (htot : ∀ a b, le a b = true ∨ le b a = true)
    (htrans : ∀ a b c, le a b = true → le b c = true → le a c = true)
    (x : α) (l : List α) (hl : l.Pairwise fun a b => le a b = true) :
    (insertSorted le x l).Pairwise fun a b => le a b = true := by
  induction l with
  | nil => simp [insertSorted]
  | cons y ys ih =>
    unfold insertSorted
    by_cases h : le x y
    · rw [if_pos h]
      refine List.Pairwise.cons (fun z hz => ?_) hl
      rcases List.mem_cons.1 hz with rfl | hz2
      · exact h
      · exact htrans x y z h (List.rel_of_pairwise_cons hl hz2)
    · rw [if_neg h]
      have hyx : le y x = true := by
        rcases htot x y with h1 | h1
        · exact absurd h1 h
        · exact h1
      refine List.Pairwise.cons (fun z hz => ?_) (ih hl.tail)
      have hz2 : z ∈ x :: ys := (insertSorted_perm le x ys).mem_iff.1 hz
      rcases List.mem_cons.1 hz2 with rfl | hz3
      · exact hyx
      · exact List.rel_of_pairwise_cons hl hz3

theorem sortedBy_pairwise (le : α → α → Bool)
    (htot : ∀ a b, le a b = true ∨ le b a = true)
    (htrans : ∀ a b c, le a b = true → le b c = true → le a c = true)
    (l : List α) : (sortedBy le l).Pairwise fun a b => le a b = true := by
  induction l with
  | nil => simp [sortedBy]
  | cons a t ih => exact insertSorted_pairwise le htot htrans a (sortedBy le t) ih

theorem find_sorted_none {l : List (ℚ × YVal)} {ev : ℚ}
    (h : l.find? (fun p => decide (p.1 ≤ ev)) = none) : ∀ p ∈ l, ev < p.1 := by
  intro p hp
  have := List.find?_eq_none.1 h p hp
  simpa using this

theorem find_sorted_some {l : List (ℚ × YVal)}
    (hl : l.Pairwise fun a b => b.1 ≤ a.1) {ev : ℚ} {p : ℚ × YVal}
    (h : l.find? (fun q => decide (q.1 ≤ ev)) = some p) :
    p ∈ l ∧ p.1 ≤ ev ∧ ∀ q ∈ l, q.1 ≤ ev → q.1 ≤ p.1 := by
  induction l with
  | nil => cases h
  | cons a t ih =>
    rw [List.find?] at h
    cases hfa : decide (a.1 ≤ ev) with
    | true =>
      rw [hfa] at h
      cases Option.some_inj.1 h
      refine ⟨List.mem_cons_self _ _, of_decide_eq_true hfa, fun q hq hqe => ?_⟩
      rcases List.mem_cons.1 hq with rfl | hq2
      · exact le_refl _
      · exact List.rel_of_pairwise_cons hl hq2
    | false =>
      rw [hfa] at h
      obtain ⟨hmem, hle, hall⟩ := ih hl.tail h
      refine ⟨List.mem_cons_of_mem _ hmem, hle, fun q hq hqe => ?_⟩
      rcases List.mem_cons.1 hq with rfl | hq2
      · exact absurd hqe (by simpa using hfa)
      · exact hall q hq2 hqe

theorem exMapM_bandKey (bs : List (ℚ × ℚ)) :
    exMapM bandKeyFn (bs.map bandDict) = .ok (bs.map fun b => (b.1, bandDict b)) := by
  induction bs with
  | nil => rfl
  | cons b t ih =>
    simp only [List.map_cons, exMapM, ih]
    rfl

theorem stakeForBands_mkBands_eq (bs : List (ℚ × ℚ)) (ev : ℚ) :
    stakeForBands (mkBands bs) ev =
      match
        (sortedBy (fun a b : ℚ × YVal => decide (b.1 ≤ a.1))
            (bs.map fun b => (b.1, bandDict b))).find? (fun p => decide (p.1 ≤ ev)) with
      | none => .ok 0
      | some p => (yindex p.2 "stake_u") >>= yNum := by
  unfold stakeForBands mkBands
  simp only [yIter, bind, Except.bind, exMapM_bandKey]
  rfl

/-- Characterisation of the staking-band selection on well-formed bands:
either no band's `min_ev` is met and the stake is 0, or the stake is the
`stake_u` of a band whose `min_ev` is met and is maximal among all met
thresholds. -/
theorem stakeForBands_spec (bs : List (ℚ × ℚ)) (ev : ℚ) :
    ∃ r, stakeForBands (mkBands bs) ev = .ok r ∧
      ((r = 0 ∧ ∀ b ∈ bs, ev < b.1) ∨
        ∃ b ∈ bs, r = b.2 ∧ b.1 ≤ ev ∧ ∀ c ∈ bs, c.1 ≤ ev → c.1 ≤ b.1) := by
  rw [stakeForBands_mkBands_eq]
  set keyed := bs.map fun b => (b.1, bandDict b) with hkeyed
  set srt := sortedBy (fun a b : ℚ × YVal => decide (b.1 ≤ a.1)) keyed with hsrt
  have hperm : srt.Perm keyed := sortedBy_perm _ _
  have hpw : srt.Pairwise fun a b : ℚ × YVal => b.1 ≤ a.1 := by
    have := sortedBy_pairwise (fun a b : ℚ × YVal => decide (b.1 ≤ a.1))
      (fun a b => by rcases le_total b.1 a.1 with h | h <;> simp [h])
      (fun a b c h1 h2 => by
        simp only [decide_eq_true_eq] at h1 h2 ⊢
        exact le_trans h2 h1)
      keyed
    exact this.imp fun h => of_decide_eq_true h
  cases hf : srt.find? (fun p => decide (p.1 ≤ ev)) with
  | none =>
    refine ⟨0, rfl, Or.inl ⟨rfl, fun b hb => ?_⟩⟩
    have hmem : (b.1, bandDict b) ∈ srt :=
      hperm.mem_iff.2 (List.mem_map.2 ⟨b, hb, rfl⟩)
    exact find_sorted_none hf _ hmem
  | some p =>
    obtain ⟨hmem, hle, hall⟩ := find_sorted_some hpw hf
    obtain ⟨b, hb, hpb⟩ := List.mem_map.1 (hperm.mem_iff.1 hmem)
    refine ⟨b.2, ?_, Or.inr ⟨b, hb, rfl, ?_, fun c hc hce => ?_⟩⟩
    · rw [← hpb]
      rfl
    · rw [← hpb] at hle
      exact hle
    · have hcm : (c.1, bandDict c) ∈ srt :=
        hperm.mem_iff.2 (List.mem_map.2 ⟨c, hc, rfl⟩)
      have := hall _ hcm hce
      rw [← hpb] at this
      exact this

theorem exBind_ok {α β : Type} {x : Except String α} {f : α → Except String β} {b : β}
    (h : x >>= f = .ok b) : ∃ a, x = .ok a ∧ f a = .ok b := by
  cases x with
  | error e =>
    rw [show (Except.error e >>= f) = Except.error e from rfl] at h
    cases h
  | ok a =>
    rw [show (Except.ok a >>= f) = f a from rfl] at h
    exact ⟨a, rfl, h⟩

theorem exMap_ok {α β : Type} {g : α → β} {x : Except String α} {b : β}
    (h : (g <$> x) = .ok b) : ∃ a, x = .ok a ∧ g a = b := by
  cases x with
  | error e => cases h
  | ok a =>
    refine ⟨a, rfl, ?_⟩
    have : (Except.ok (g a) : Except String β) = .ok b := h
    exact Except.ok.inj this

theorem concatMapM_mem {α β : Type} {f : α → Except String (List β)} {as : List α}
    {bs : List β} (h : concatMapM f as = .ok bs) {b : β} (hb : b ∈ bs) :
    ∃ a ∈ as, ∃ l, f a = .ok l ∧ b ∈ l := by
  induction as generalizing bs with
  | nil =>
    unfold concatMapM at h
    cases Except.ok.inj h
    cases hb
  | cons a t ih =>
    unfold concatMapM at h
    obtain ⟨l1, h1, h⟩ := exBind_ok h
    obtain ⟨l2, h2, h⟩ := exBind_ok h
    cases Except.ok.inj h
    rcases List.mem_append.1 hb with hm | hm
    · exact ⟨a, List.mem_cons_self _ _, l1, h1, hm⟩
    · obtain ⟨a', ha', l', hl', hm'⟩ := ih h2 hm
      exact ⟨a', List.mem_cons_of_mem _ ha', l', hl', hm'⟩

theorem buildEdgeRow_stake {ctx : ScanCtx} {playerStr : String} {team pos : Option Val}
    {mkey side : String} {mu sd : ℚ} {eid hm aw : String} {off : String × ℚ × ℤ}
    {row : EdgeRow}
    (h : buildEdgeRow ctx playerStr team pos mkey side mu sd eid hm aw off = .ok row) :
    ∃ ev, stakeForBands ctx.stake_bands ev = .ok row.stake_u ∧
      row.ev_per_unit = roundTo 4 ev := by
  simp only [buildEdgeRow] at h
  obtain ⟨st, hst, hp⟩ := exBind_ok h
  cases Except.ok.inj hp
  exact ⟨_, hst, rfl⟩

theorem sideRow_stake {ctx : ScanCtx} {ev_json : List Bookmaker} {playerStr : String}
    {team pos : Option Val} {mkey : String} {mu sd : ℚ} {eid hm aw side : String}
    {row : EdgeRow}
    (h : sideRow ctx ev_json playerStr team pos mkey mu sd eid hm aw side = .ok (some row)) :
    ∃ ev, stakeForBands ctx.stake_bands ev = .ok row.stake_u ∧
      row.ev_per_unit = roundTo 4 ev := by
  unfold sideRow at h
  split at h
  · cases Except.ok.inj h
  · split at h
    · cases Except.ok.inj h
    · obtain ⟨r, hr, he⟩ := exMap_ok h
      cases he
      exact buildEdgeRow_stake hr

theorem marketRows_stake {ctx : ScanCtx} {ev_json : List Bookmaker} {playerStr : String}
    {team pos : Option Val} {r : List Val} {eid hm aw mkey : String} {lst : List EdgeRow}
    (h : marketRows ctx ev_json playerStr team pos r eid hm aw mkey = .ok lst)
    {row : EdgeRow} (hrow : row ∈ lst) :
    ∃ ev, stakeForBands ctx.stake_bands ev = .ok row.stake_u ∧
      row.ev_per_unit = roundTo 4 ev := by
  unfold marketRows at h
  split at h
  · cases Except.ok.inj h
    cases hrow
  · split at h
    · cases Except.ok.inj h
      cases hrow
    · split at h
      · cases Except.ok.inj h
        cases hrow
      · obtain ⟨sd, hsd, h⟩ := exBind_ok h
        obtain ⟨o?, ho, h⟩ := exBind_ok h
        obtain ⟨u?, hu, h⟩ := exBind_ok h
        cases Except.ok.inj h
        rcases List.mem_append.1 hrow with hm | hm
        · have : o? = some row := by
            cases o? with
            | none => cases hm
            | some x =>
              cases List.mem_singleton.1 hm
              rfl
          rw [this] at ho
          exact sideRow_stake ho
        · have : u? = some row := by
            cases u? with
            | none => cases hm
            | some x =>
              cases List.mem_singleton.1 hm
              rfl
          rw [this] at hu
          exact sideRow_stake hu

theorem projRowRows_stake {ctx : ScanCtx} {ev_json : List Bookmaker}
    {markets : List String} {eid hm aw : String} {r : List Val} {lst : List EdgeRow}
    (h : projRowRows ctx ev_json markets eid hm aw r = .ok lst)
    {row : EdgeRow} (hrow : row ∈ lst) :
    ∃ ev, stakeForBands ctx.stake_bands ev = .ok row.stake_u ∧
      row.ev_per_unit = roundTo 4 ev := by
  simp only [projRowRows] at h
  split at h
  · cases Except.ok.inj h
    cases hrow
  · split at h
    · obtain ⟨ps, hps, h⟩ := exBind_ok h
      obtain ⟨mk', hmk, l', hl', hm'⟩ := concatMapM_mem h hrow
      exact marketRows_stake hl' hm'
    · obtain ⟨ps, hps, h⟩ := exBind_ok h
      cases hps

theorem eventRows_stake {ctx : ScanCtx} {projections : Table} {markets_list : List YVal}
    {oddsOf : String → String → List Bookmaker} {use_all : Bool} {e : OddsEvent}
    {lst : List EdgeRow}
    (h : eventRows ctx projections markets_list oddsOf use_all e = .ok lst)
    {row : EdgeRow} (hrow : row ∈ lst) :
    ∃ ev, stakeForBands ctx.stake_bands ev = .ok row.stake_u ∧
      row.ev_per_unit = roundTo 4 ev := by
  simp only [eventRows] at h
  obtain ⟨csv, hcsv, h⟩ := exBind_ok h
  split at h
  · cases Except.ok.inj h
    cases hrow
  · split at h
    · obtain ⟨y, hy, h⟩ := exBind_ok h
      obtain ⟨ms, hms, h⟩ := exBind_ok h
      obtain ⟨r', hr', l', hl', hm'⟩ := concatMapM_mem h hrow
      exact projRowRows_stake hl' hm'
    · split at h
      · obtain ⟨flags, hflags, h⟩ := exBind_ok h
        obtain ⟨y, hy, h⟩ := exBind_ok h
        obtain ⟨ms, hms, h⟩ := exBind_ok h
        obtain ⟨r', hr', l', hl', hm'⟩ := concatMapM_mem h hrow
        exact projRowRows_stake hl' hm'
      · obtain ⟨y, hy, h⟩ := exBind_ok h
        obtain ⟨ms, hms, h⟩ := exBind_ok h
        obtain ⟨r', hr', l', hl', hm'⟩ := concatMapM_mem h hrow
        exact projRowRows_stake hl' hm'

theorem collectRows_stake {ctx : ScanCtx} {projections : Table}
    {markets_list : List YVal} {oddsOf : String → String → List Bookmaker}
    {use_all : Bool} {events : List OddsEvent} {lst : List EdgeRow}
    (h : collectRows ctx projections markets_list oddsOf use_all events = .ok lst)
    {row : EdgeRow} (hrow : row ∈ lst) :
    ∃ ev, stakeForBands ctx.stake_bands ev = .ok row.stake_u ∧
      row.ev_per_unit = roundTo 4 ev := by
  unfold collectRows at h
  split at h
  · cases Except.ok.inj h
    cases hrow
  · obtain ⟨e', he', l', hl', hm'⟩ := concatMapM_mem h hrow
    exact eventRows_stake hl' hm'

/-- Every Edge Row emitted by `scanEdges` got its `stake_u` from
`stakeForBands` applied to the configured (or default) bands and the row's
unrounded EV; the row stores that EV rounded to 4 places. -/
theorem scanEdges_stake {erfs sq : ℚ → ℚ} {proj : Table} {cfg : YVal}
    {regionsEnv ntf : String} {events : List OddsEvent}
    {oddsOf : String → String → List Bookmaker} {profile : String} {mc : ℕ}
    {p : Table} {rows : List EdgeRow}
    (h : scanEdges erfs sq proj cfg regionsEnv ntf events oddsOf profile mc = .ok (p, rows))
    {row : EdgeRow} (hrow : row ∈ rows) :
    ∃ bands, yget cfg "stake_bands" defaultBands = .ok bands ∧
      ∃ ev, stakeForBands bands ev = .ok row.stake_u ∧
        row.ev_per_unit = roundTo 4 ev := by
  simp only [scanEdges] at h
  obtain ⟨regions, _, h⟩ := exBind_ok h
  obtain ⟨tby, _, h⟩ := exBind_ok h
  obtain ⟨tbi, _, h⟩ := exBind_ok h
  obtain ⟨sig, _, h⟩ := exBind_ok h
  obtain ⟨bl, _, h⟩ := exBind_ok h
  obtain ⟨alpha, _, h⟩ := exBind_ok h
  obtain ⟨md, _, h⟩ := exBind_ok h
  obtain ⟨bd, _, h⟩ := exBind_ok h
  obtain ⟨mp, _, h⟩ := exBind_ok h
  obtain ⟨ml0, _, h⟩ := exBind_ok h
  obtain ⟨bkr0, _, h⟩ := exBind_ok h
  obtain ⟨bankroll, _, h⟩ := exBind_ok h
  obtain ⟨up0, _, h⟩ := exBind_ok h
  obtain ⟨unit_pct, _, h⟩ := exBind_ok h
  obtain ⟨bands, hbands, h⟩ := exBind_ok h
  obtain ⟨olc, _, h⟩ := exBind_ok h
  obtain ⟨lvls, _, h⟩ := exBind_ok h
  obtain ⟨mj, _, h⟩ := exBind_ok h
  obtain ⟨tn, _, h⟩ := exBind_ok h
  obtain ⟨ofmt, _, h⟩ := exBind_ok h
  obtain ⟨rows0, hrows0, h⟩ := exBind_ok h
  refine ⟨bands, hbands, ?_⟩
  have hpair := Except.ok.inj h
  injection hpair with h1 h2
  subst h2
  have hrows : row ∈ sortedBy edgeLe rows0 := by
    by_cases htop : (0 : ℤ) < (match yInt tn with | .ok z => z | .error _ => 0)
    · rw [if_pos htop] at hrow
      exact List.take_subset _ _ hrow
    · rw [if_neg htop] at hrow
      exact hrow
  have hmem0 : row ∈ rows0 := (sortedBy_perm edgeLe rows0).mem_iff.1 hrows
  have := collectRows_stake hrows0 hmem0
  simpa using this

/-- C8: the stake assigned to an edge is the `stake_u` of the first band,
in decreasing `min_ev` order, whose threshold the computed EV meets or
exceeds — 0 when none does; each emitted row's `stake_u` comes from
`stakeForBands` at the row's unrounded EV; with the default bands, EV 0.04
yields 0.5 units and EV 0.039999 yields 0.3 units. -/
theorem c8_stake_bands :
    (∀ (bs : List (ℚ × ℚ)) (ev r : ℚ),
      stakeForBands (mkBands bs) ev = .ok r →
        ((r = 0 ∧ ∀ b ∈ bs, ev < b.1) ∨
          ∃ b ∈ bs, r = b.2 ∧ b.1 ≤ ev ∧ ∀ c ∈ bs, c.1 ≤ ev → c.1 ≤ b.1)) ∧
    (∀ (erfs sq : ℚ → ℚ) (proj : Table) (cfg : YVal) (regionsEnv ntf : String)
      (events : List OddsEvent) (oddsOf : String → String → List Bookmaker)
      (profile : String) (mc : ℕ) (p : Table) (rows : List EdgeRow) (row : EdgeRow),
      scanEdges erfs sq proj cfg regionsEnv ntf events oddsOf profile mc = .ok (p, rows) →
        row ∈ rows →
        ∃ bands, yget cfg "stake_bands" defaultBands = .ok bands ∧
          ∃ ev, stakeForBands bands ev = .ok row.stake_u ∧
            row.ev_per_unit = roundTo 4 ev) ∧
    stakeForBands defaultBands (4 / 100) = .ok (1 / 2) ∧
    stakeForBands defaultBands (39999 / 1000000) = .ok (3 / 10) := by
  refine ⟨fun bs ev r h => ?_, fun _ _ _ _ _ _ _ _ _ _ _ _ _ h hrow => scanEdges_stake h hrow,
    by rfl, by rfl⟩
  obtain ⟨r', hr', hchar⟩ := stakeForBands_spec bs ev
  rw [hr'] at h
  cases Except.ok.inj h
  exact hchar

/-- Witness for C8: the band characterisation applied at the default bands
with EV exactly 0.04. -/
theorem c8_stake_bands_witness :
    (((1 : ℚ) / 2 = 0 ∧
        ∀ b ∈ [((8 : ℚ) / 100, (1 : ℚ)), (4 / 100, 1 / 2), (2 / 100, 3 / 10)],
          (4 : ℚ) / 100 < b.1) ∨
      ∃ b ∈ [((8 : ℚ) / 100, (1 : ℚ)), (4 / 100, 1 / 2), (2 / 100, 3 / 10)],
        (1 : ℚ) / 2 = b.2 ∧ b.1 ≤ 4 / 100 ∧
          ∀ c ∈ [((8 : ℚ) / 100, (1 : ℚ)), (4 / 100, 1 / 2), (2 / 100, 3 / 10)],
            c.1 ≤ 4 / 100 → c.1 ≤ b.1) :=
  c8_stake_bands.1 [(8 / 100, 1), (4 / 100, 1 / 2), (2 / 100, 3 / 10)] (4 / 100) (1 / 2) (by rfl)

theorem load_config_stake_bands (kvs : List (String × YVal))
    (h1 : kvs.lookup "ev_bands" = none) (h2 : kvs.lookup "stake_bands" = none)
    {cfg : YVal} (h : load_config true (some (.dict kvs)) = .ok cfg) :
    yget cfg "stake_bands" defaultBands = .ok (.list []) := by
  by_cases htr : (YVal.dict kvs).pyTruthy
  · simp only [load_config, htr, if_true, yget, YVal.get?, Except.map, bind, Except.bind,
      Bool.not_true, Bool.false_eq_true, if_false, reduceCtorEq, ite_false, ite_true] at h
    rw [h1, h2] at h
    cases Except.ok.inj h
    rfl
  · have hfalse : (YVal.dict kvs).pyTruthy = false := by
      cases hb : (YVal.dict kvs).pyTruthy
      · rfl
      · exact absurd hb htr
    simp only [load_config, hfalse, if_true, yget, YVal.get?, Except.map, bind, Except.bind,
      Bool.not_true, Bool.false_eq_true, if_false, reduceCtorEq, ite_false, ite_true] at h
    cases Except.ok.inj h
    rfl

/-- C5 (code bug): `load_config` always materialises a `stake_bands` key —
`[]` when neither `ev_bands` nor `stake_bands` is configured — so
`scan_edges`'s built-in default bands (which apply only when the key is
absent) never fire through this path, and every emitted edge row gets
`stake_u = 0` instead of the documented default-band sizing. -/
theorem c5_bug (erfs sq : ℚ → ℚ) (proj : Table) (kvs : List (String × YVal))
    (regionsEnv ntf : String) (events : List OddsEvent)
    (oddsOf : String → String → List Bookmaker) (profile : String) (mc : ℕ)
    (cfg : YVal) (p : Table) (rows : List EdgeRow)
    (h1 : kvs.lookup "ev_bands" = none) (h2 : kvs.lookup "stake_bands" = none)
    (hc : load_config true (some (.dict kvs)) = .ok cfg)
    (hs : scanEdges erfs sq proj cfg regionsEnv ntf events oddsOf profile mc = .ok (p, rows)) :
    ∀ row ∈ rows, row.stake_u = 0 := by
  intro row hrow
  obtain ⟨bands, hb, ev, hst, _⟩ := scanEdges_stake hs hrow
  have hb0 : yget cfg "stake_bands" defaultBands = .ok (YVal.list []) :=
    load_config_stake_bands kvs h1 h2 hc
  rw [hb0] at hb
  cases Except.ok.inj hb
  have hz : stakeForBands (.list []) ev = .ok 0 := rfl
  rw [hz] at hst
  exact (Except.ok.inj hst).symm

/-- Witness for C5: a concrete scan through `load_config` output with no
bands configured emits a row whose EV exceeds the top default band
(EV ≥ 0.08 → 1.0u) yet is staked 0 units. -/
theorem c5_bug_witness :
    rowsC5.all (fun r => r.stake_u == 0) = true ∧
      rowsC5.any (fun r => decide ((8 : ℚ) / 100 ≤ r.ev_per_unit)) = true := by
  constructor
  · rw [List.all_eq_true]
    intro x hx
    have h := c5_bug (fun _ => 1) (fun q => q) projC5 rawC5 "" "0"
      [{ id := "E1", home_team := some "Team A", away_team := some "Team B" }]
      (fun _ _ => bmC5) "base" 1000 cfgC5 projC5 rowsC5 rfl rfl rfl (by rfl)
    exact beq_iff_eq.2 (h x hx)
  · decide

/-- C10: `scan_edges` never mutates the projections table: every pandas
operation the source applies to it is a read (the boolean-mask selection
allocates a new frame; the in-place sort targets the freshly built edges
frame), so the table threaded through the model is returned exactly as
received. -/
theorem c10_scan_no_mutation (erfs sq : ℚ → ℚ) (proj : Table) (cfg : YVal)
    (regionsEnv ntf : String) (events : List OddsEvent)
    (oddsOf : String → String → List Bookmaker) (profile : String) (mc : ℕ)
    (p : Table) (rows : List EdgeRow)
    (h : scanEdges erfs sq proj cfg regionsEnv ntf events oddsOf profile mc = .ok (p, rows)) :
    p = proj := by
  simp only [scanEdges] at h
  obtain ⟨regions, _, h⟩ := exBind_ok h
  obtain ⟨tby, _, h⟩ := exBind_ok h
  obtain ⟨tbi, _, h⟩ := exBind_ok h
  obtain ⟨sig, _, h⟩ := exBind_ok h
  obtain ⟨bl, _, h⟩ := exBind_ok h
  obtain ⟨alpha, _, h⟩ := exBind_ok h
  obtain ⟨md, _, h⟩ := exBind_ok h
  obtain ⟨bd, _, h⟩ := exBind_ok h
  obtain ⟨mp, _, h⟩ := exBind_ok h
  obtain ⟨ml0, _, h⟩ := exBind_ok h
  obtain ⟨bkr0, _, h⟩ := exBind_ok h
  obtain ⟨bankroll, _, h⟩ := exBind_ok h
  obtain ⟨up0, _, h⟩ := exBind_ok h
  obtain ⟨unit_pct, _, h⟩ := exBind_ok h
  obtain ⟨bands, _, h⟩ := exBind_ok h
  obtain ⟨olc, _, h⟩ := exBind_ok h
  obtain ⟨lvls, _, h⟩ := exBind_ok h
  obtain ⟨mj, _, h⟩ := exBind_ok h
  obtain ⟨tn, _, h⟩ := exBind_ok h
  obtain ⟨ofmt, _, h⟩ := exBind_ok h
  obtain ⟨rows0, _, h⟩ := exBind_ok h
  have hpair := Except.ok.inj h
  injection hpair with hfst _
  exact hfst.symm

/-- Witness for C10 at a concrete scan call. -/
theorem c10_scan_no_mutation_witness : fstC10 = projC10 :=
  c10_scan_no_mutation (fun _ => 0) (fun q => q) projC10 (.dict []) "" "0" [] (fun _ _ => [])
    "base" 1000 fstC10 sndC10 (by rfl)

theorem indexOf?_none_of_not_contains (cols : List String) (c : String)
    (h : cols.contains c = false) : cols.indexOf? c = none :=
  List.indexOf?_eq_none_iff.2 fun x hx hb =>
    (by simpa using h : c ∉ cols) (eq_of_beq hb ▸ hx)

theorem cellAt_not_mem (cols : List String) (r : List Val) (c : String)
    (h : cols.contains c = false) : cellAt cols r c = .nan := by
  rw [cellAt, indexOf?_none_of_not_contains cols c h]

theorem cellAt_append_self (cols : List String) (r : List Val) (c : String) (v : Val)
    (h : cols.contains c = false) (hlen : r.length = cols.length) :
    cellAt (cols ++ [c]) (r ++ [v]) c = v := by
  have hnone : cols.indexOf? c = none := indexOf?_none_of_not_contains cols c h
  have hidx : (cols ++ [c]).indexOf? c = some cols.length := by
    rw [List.indexOf?, List.findIdx?_append]
    rw [show List.findIdx? (fun x => x == c) cols = none from hnone]
    simp [List.findIdx?_cons]
  rw [cellAt, hidx]
  show (r ++ [v]).getD cols.length Val.nan = v
  have : (r ++ [v]).getD cols.length Val.nan = [v].getD (cols.length - r.length) Val.nan :=
    List.getD_append_right r [v] Val.nan cols.length (le_of_eq hlen)
  rw [this, hlen, Nat.sub_self]
  rfl

theorem sum_filter_cellAt (cols : List String) (r : List Val) (g : Val → ℚ) (hg : g .nan = 0)
    (comps : List String) :
    ((comps.filter fun c => cols.contains c).map fun c => g (cellAt cols r c)).sum =
      (comps.map fun c => g (cellAt cols r c)).sum := by
  induction comps with
  | nil => rfl
  | cons a as ih =>
    by_cases hmem : cols.contains a = true
    · rw [List.filter_cons_of_pos (by simpa using hmem)]
      simp only [List.map_cons, List.sum_cons, ih]
    · have hfalse : cols.contains a = false := by
        cases hb : cols.contains a
        · rfl
        · exact absurd hb hmem
      rw [List.filter_cons_of_neg (by simpa using hfalse)]
      rw [List.map_cons, List.sum_cons, cellAt_not_mem cols r a hfalse, hg, zero_add, ih]

/-- C2: the spec says the three-way combination column is created exactly
when all three base columns are present; the code creates it when ANY is.
Counterexample: a table with only passing yards still gets
`player_pass_rush_reception_yds` after cleaning. -/
theorem c2_counterexample :
    (clean_projections (fun q => q) tC2).map
        (fun u => u.cols.contains "player_pass_rush_reception_yds") = .ok true ∧
      tC2.cols.contains "player_rush_yds" = false ∧
      tC2.cols.contains "player_reception_yds" = false ∧
      (clean_projections (fun q => q) tC2).map
        (fun u => u.cols.contains "player_rush_yds") = .ok false ∧
      (clean_projections (fun q => q) tC2).map
        (fun u => u.cols.contains "player_reception_yds") = .ok false := by
  refine ⟨by rfl, by rfl, by rfl, by rfl, by rfl⟩

/-- C2 (amended): `player_pass_rush_reception_yds` is created exactly when
it is absent and at least ONE of the three base columns is present (any
subset, not the full set); when created, each row's value is the sum of the
three component cells with missing values (NaN cells and absent columns
alike) contributing 0, and the companion `_sd` column (created under the
same any-subset rule over the `_sd` components) is `sqrt` of the sum of
squares of the component `_sd` cells, missing components contributing 0. -/
theorem c2_amended (sq : ℚ → ℚ) (t : Table)
    (hlen : ∀ r ∈ t.rows, r.length = t.cols.length) :
    (((addComboSum t "player_pass_rush_reception_yds" comboYdsComps).cols.contains
          "player_pass_rush_reception_yds" = true) ↔
        (t.cols.contains "player_pass_rush_reception_yds" = true ∨
          t.cols.contains "player_pass_yds" = true ∨
          t.cols.contains "player_rush_yds" = true ∨
          t.cols.contains "player_reception_yds" = true)) ∧
      (t.cols.contains "player_pass_rush_reception_yds" = false →
        (t.cols.contains "player_pass_yds" = true ∨
          t.cols.contains "player_rush_yds" = true ∨
          t.cols.contains "player_reception_yds" = true) →
        ∀ r ∈ t.rows,
          (r ++ [.num ((comboYdsComps.map fun c => numOr0 (cellAt t.cols r c)).sum)]) ∈
              (addComboSum t "player_pass_rush_reception_yds" comboYdsComps).rows ∧
            cellAt (addComboSum t "player_pass_rush_reception_yds" comboYdsComps).cols
                (r ++ [.num ((comboYdsComps.map fun c => numOr0 (cellAt t.cols r c)).sum)])
                "player_pass_rush_reception_yds" =
              .num ((comboYdsComps.map fun c => numOr0 (cellAt t.cols r c)).sum)) ∧
      (((addComboSd sq t "player_pass_rush_reception_yds_sd" comboYdsSdComps).cols.contains
          "player_pass_rush_reception_yds_sd" = true) ↔
        (t.cols.contains "player_pass_rush_reception_yds_sd" = true ∨
          t.cols.contains "player_pass_yds_sd" = true ∨
          t.cols.contains "player_rush_yds_sd" = true ∨
          t.cols.contains "player_reception_yds_sd" = true)) ∧
      (t.cols.contains "player_pass_rush_reception_yds_sd" = false →
        (t.cols.contains "player_pass_yds_sd" = true ∨
          t.cols.contains "player_rush_yds_sd" = true ∨
          t.cols.contains "player_reception_yds_sd" = true) →
        ∀ r ∈ t.rows,
          (r ++ [.num (sq ((comboYdsSdComps.map fun c => sqOr0 (cellAt t.cols r c)).sum))]) ∈
              (addComboSd sq t "player_pass_rush_reception_yds_sd" comboYdsSdComps).rows ∧
            cellAt (addComboSd sq t "player_pass_rush_reception_yds_sd" comboYdsSdComps).cols
                (r ++ [.num (sq ((comboYdsSdComps.map fun c => sqOr0 (cellAt t.cols r c)).sum))])
                "player_pass_rush_reception_yds_sd" =
              .num (sq ((comboYdsSdComps.map fun c => sqOr0 (cellAt t.cols r c)).sum))) := by
  refine ⟨?_, ?_, ?_, ?_⟩
  · by_cases hc : "player_pass_rush_reception_yds" ∈ t.cols
    · simp [addComboSum, hc]
    · by_cases hp : "player_pass_yds" ∈ t.cols <;>
        by_cases hr : "player_rush_yds" ∈ t.cols <;>
          by_cases hre : "player_reception_yds" ∈ t.cols <;>
            simp [addComboSum, comboYdsComps, hc, hp, hr, hre, addColumnBy]
  · intro habs hany r hr
    have hlenr := hlen r hr
    have hpe : (comboYdsComps.filter fun c => t.cols.contains c) ≠ [] := by
      rcases hany with h | h | h
      · exact List.ne_nil_of_mem (List.mem_filter.2 ⟨by simp [comboYdsComps], h⟩)
      · exact List.ne_nil_of_mem (List.mem_filter.2 ⟨by simp [comboYdsComps], h⟩)
      · exact List.ne_nil_of_mem (List.mem_filter.2 ⟨by simp [comboYdsComps], h⟩)
    have hred : addComboSum t "player_pass_rush_reception_yds" comboYdsComps =
        addColumnBy t "player_pass_rush_reception_yds" fun r =>
          .num (((comboYdsComps.filter fun c => t.cols.contains c).map
            fun c => numOr0 (cellAt t.cols r c)).sum) := by
      rw [addComboSum, if_neg (by simpa using habs)]
      rw [if_neg (by simpa [List.isEmpty_iff] using hpe)]
    rw [hred]
    have hsum : (((comboYdsComps.filter fun c => t.cols.contains c).map
        fun c => numOr0 (cellAt t.cols r c)).sum) =
          ((comboYdsComps.map fun c => numOr0 (cellAt t.cols r c)).sum) :=
      sum_filter_cellAt t.cols r numOr0 rfl comboYdsComps
    constructor
    · rw [addColumnBy]
      exact List.mem_map.2 ⟨r, hr, by rw [hsum]⟩
    · rw [addColumnBy]
      exact cellAt_append_self t.cols r "player_pass_rush_reception_yds" _ habs hlenr
  · by_cases hc : "player_pass_rush_reception_yds_sd" ∈ t.cols
    · simp [addComboSd, hc]
    · by_cases hp : "player_pass_yds_sd" ∈ t.cols <;>
        by_cases hr : "player_rush_yds_sd" ∈ t.cols <;>
          by_cases hre : "player_reception_yds_sd" ∈ t.cols <;>
            simp [addComboSd, comboYdsSdComps, hc, hp, hr, hre, addColumnBy]
  · intro habs hany r hr
    have hlenr := hlen r hr
    have hpe : (comboYdsSdComps.filter fun c => t.cols.contains c) ≠ [] := by
      rcases hany with h | h | h
      · exact List.ne_nil_of_mem (List.mem_filter.2 ⟨by simp [comboYdsSdComps], h⟩)
      · exact List.ne_nil_of_mem (List.mem_filter.2 ⟨by simp [comboYdsSdComps], h⟩)
      · exact List.ne_nil_of_mem (List.mem_filter.2 ⟨by simp [comboYdsSdComps], h⟩)
    have hred : addComboSd sq t "player_pass_rush_reception_yds_sd" comboYdsSdComps =
        addColumnBy t "player_pass_rush_reception_yds_sd" fun r =>
          .num (sq (((comboYdsSdComps.filter fun c => t.cols.contains c).map
            fun c => sqOr0 (cellAt t.cols r c)).sum)) := by
      rw [addComboSd, if_neg (by simpa using habs)]
      rw [if_neg (by simpa [List.isEmpty_iff] using hpe)]
    rw [hred]
    have hsum : (((comboYdsSdComps.filter fun c => t.cols.contains c).map
        fun c => sqOr0 (cellAt t.cols r c)).sum) =
          ((comboYdsSdComps.map fun c => sqOr0 (cellAt t.cols r c)).sum) :=
      sum_filter_cellAt t.cols r sqOr0 rfl comboYdsSdComps
    constructor
    · rw [addColumnBy]
      exact List.mem_map.2 ⟨r, hr, by rw [hsum]⟩
    · rw [addColumnBy]
      exact cellAt_append_self t.cols r "player_pass_rush_reception_yds_sd" _ habs hlenr

/-- Witness for C2 (amended) at the one-component table `tC2`. -/
theorem c2_amended_witness :
    (addComboSum tC2 "player_pass_rush_reception_yds" comboYdsComps).cols.contains
        "player_pass_rush_reception_yds" = true ∧
      (rowC2 ++ [.num ((comboYdsComps.map fun c => numOr0 (cellAt tC2.cols rowC2 c)).sum)]) ∈
          (addComboSum tC2 "player_pass_rush_reception_yds" comboYdsComps).rows ∧
        cellAt (addComboSum tC2 "player_pass_rush_reception_yds" comboYdsComps).cols
            (rowC2 ++ [.num ((comboYdsComps.map fun c => numOr0 (cellAt tC2.cols rowC2 c)).sum)])
            "player_pass_rush_reception_yds" =
          .num ((comboYdsComps.map fun c => numOr0 (cellAt tC2.cols rowC2 c)).sum) := by
  have h := c2_amended (fun q => q) tC2 (by decide)
  refine ⟨h.1.2 (Or.inr (Or.inl (by decide))), ?_, ?_⟩
  · exact (h.2.1 (by decide) (Or.inl (by decide)) rowC2 (by decide)).1
  · exact (h.2.1 (by decide) (Or.inl (by decide)) rowC2 (by decide)).2

theorem set_getD_self (l : List Val) (i : ℕ) (h : i < l.length) :
    l.set i (l.getD i Val.nan) = l := by
  apply List.ext_getElem (by simp)
  intro n h1 h2
  by_cases hn : i = n
  · subst hn
    rw [List.getElem_set_self, List.getD_eq_getElem l Val.nan h]
  · rw [List.getElem_set_ne hn]

theorem lookup_mem {l : List (String × String)} {a b : String}
    (h : l.lookup a = some b) : (a, b) ∈ l := by
  induction l with
  | nil => cases h
  | cons p es ih =>
    obtain ⟨k, v⟩ := p
    by_cases hk : a = k
    · subst hk
      have hbeq : (a == a) = true := by simp
      rw [show List.lookup a ((a, v) :: es) = some v by rw [List.lookup, hbeq]] at h
      cases Option.some_inj.1 h
      exact List.mem_cons_self _ _
    · have hbeq : (a == k) = false := by simp [hk]
      rw [show List.lookup a ((k, v) :: es) = List.lookup a es by
        rw [List.lookup, hbeq]] at h
      exact List.mem_cons_of_mem _ (ih h)

theorem indexOf?_some_spec {cols : List String} {c : String} {i : ℕ}
    (h : cols.indexOf? c = some i) : i < cols.length ∧ cols.getD i "" = c := by
  rw [List.indexOf?] at h
  obtain ⟨hlt, hidx⟩ := List.findIdx?_eq_some_iff_findIdx_eq.1 h
  refine ⟨hlt, ?_⟩
  have hw : List.findIdx (fun x => x == c) cols < cols.length := by
    rw [hidx]
    exact hlt
  have hp := @List.findIdx_getElem String (fun x => x == c) cols hw
  have hg : cols.getD i "" = cols.getD (List.findIdx (fun x => x == c) cols) "" := by
    rw [hidx]
  rw [hg, List.getD_eq_getElem cols "" hw]
  exact eq_of_beq hp

theorem cellAt_cons_self (c : String) (cs : List String) (v : Val) (vs : List Val) :
    cellAt (c :: cs) (v :: vs) c = v := by
  simp [cellAt, List.indexOf?, List.findIdx?_cons]

theorem cellAt_cons_ne (c x : String) (cs : List String) (v : Val) (vs : List Val)
    (h : x ≠ c) : cellAt (c :: cs) (v :: vs) x = cellAt cs vs x := by
  rw [cellAt, cellAt, List.indexOf?, List.indexOf?, List.findIdx?_cons]
  have hbeq : (c == x) = false := by
    simp [Ne.symm h]
  rw [hbeq, if_neg (by decide), List.findIdx?_succ]
  cases hf : List.findIdx? (fun b => b == x) cs with
  | none => simp [hf]
  | some j => simp [hf, List.getD_cons_succ]

theorem map_cellAt_self (cols : List String) (r : List Val)
    (hnd : cols.Nodup) (hlen : r.length = cols.length) :
    cols.map (cellAt cols r) = r := by
  induction cols generalizing r with
  | nil =>
    cases r with
    | nil => rfl
    | cons v vs => simp at hlen
  | cons c cs ih =>
    cases r with
    | nil => simp at hlen
    | cons v vs =>
      rw [List.map_cons]
      have hnd' := List.nodup_cons.1 hnd
      have htail : cs.map (cellAt (c :: cs) (v :: vs)) = cs.map (cellAt cs vs) :=
        List.map_congr_left fun x hx =>
          cellAt_cons_ne c x cs v vs fun he => hnd'.1 (he ▸ hx)
      rw [cellAt_cons_self, htail, ih vs hnd'.2 (by simpa using hlen)]

theorem cellAt_select (cols : List String) (r : List Val) (names : List String) (c : String)
    (h : c ∈ names) : cellAt names (names.map (cellAt cols r)) c = cellAt cols r c := by
  induction names with
  | nil => cases h
  | cons a as ih =>
    rw [List.map_cons]
    by_cases hac : c = a
    · subst hac
      exact cellAt_cons_self c as _ _
    · rw [cellAt_cons_ne a c as _ _ hac]
      exact ih (by
        cases List.mem_cons.1 h with
        | inl h0 => exact absurd h0 hac
        | inr h0 => exact h0)

theorem indexOf?_append_left {cols : List String} {c : String} (ext : List String)
    (h : c ∈ cols) : (cols ++ ext).indexOf? c = cols.indexOf? c := by
  rw [List.indexOf?, List.indexOf?, List.findIdx?_append]
  cases hf : List.findIdx? (fun x => x == c) cols with
  | none =>
    have hc := List.findIdx?_eq_none_iff.1 hf c h
    simp at hc
  | some i => simp

theorem cellAt_append_left (cols : List String) (r : List Val) (ext : List String)
    (ev : List Val) (c : String) (h : c ∈ cols) (hlen : r.length = cols.length) :
    cellAt (cols ++ ext) (r ++ ev) c = cellAt cols r c := by
  rw [cellAt, cellAt, indexOf?_append_left ext h]
  cases hf : cols.indexOf? c with
  | none => rfl
  | some i =>
    have hi : i < cols.length := (indexOf?_some_spec hf).1
    exact List.getD_append r ev Val.nan i (by rw [hlen]; exact hi)

theorem mem_dedupKeepFirstGo (seen l : List String) (x : String) :
    x ∈ dedupKeepFirstGo seen l ↔ x ∈ l ∧ x ∉ seen := by
  induction l generalizing seen with
  | nil => simp [dedupKeepFirstGo]
  | cons a as ih =>
    rw [dedupKeepFirstGo]
    by_cases ha : seen.contains a
    · rw [if_pos ha, ih]
      constructor
      · exact fun ⟨h1, h2⟩ => ⟨List.mem_cons_of_mem _ h1, h2⟩
      · rintro ⟨h1, h2⟩
        cases List.mem_cons.1 h1 with
        | inl h0 =>
          subst h0
          exact absurd (by simpa using ha) h2
        | inr h0 => exact ⟨h0, h2⟩
    · rw [if_neg ha, List.mem_cons, ih]
      constructor
      · rintro (h0 | ⟨h1, h2⟩)
        · subst h0
          exact ⟨List.mem_cons_self _ _, by simpa using ha⟩
        · refine ⟨List.mem_cons_of_mem _ h1, fun hx => h2 ?_⟩
          exact List.mem_cons_of_mem _ hx
      · rintro ⟨h1, h2⟩
        cases List.mem_cons.1 h1 with
        | inl h0 => exact Or.inl h0
        | inr h0 =>
          by_cases hxa : x = a
          · exact Or.inl hxa
          · exact Or.inr ⟨h0, fun hx => by
              cases List.mem_cons.1 hx with
              | inl h3 => exact hxa h3
              | inr h3 => exact h2 h3⟩

theorem mem_dedupKeepFirst (l : List String) (x : String) :
    x ∈ dedupKeepFirst l ↔ x ∈ l := by
  rw [dedupKeepFirst, mem_dedupKeepFirstGo]
  simp

theorem nodup_dedupKeepFirstGo (seen l : List String) :
    (dedupKeepFirstGo seen l).Nodup := by
  induction l generalizing seen with
  | nil => exact List.nodup_nil
  | cons a as ih =>
    rw [dedupKeepFirstGo]
    by_cases ha : seen.contains a
    · rw [if_pos ha]
      exact ih seen
    · rw [if_neg ha]
      refine List.nodup_cons.2 ⟨fun hmem => ?_, ih (a :: seen)⟩
      exact ((mem_dedupKeepFirstGo (a :: seen) as a).1 hmem).2 (List.mem_cons_self _ _)

theorem nodup_dedupKeepFirst (l : List String) : (dedupKeepFirst l).Nodup :=
  nodup_dedupKeepFirstGo [] l

theorem map_eq_self_of_fix {α : Type} {r : List α} {f : α → α}
    (h : ∀ v ∈ r, f v = v) : r.map f = r := by
  induction r with
  | nil => rfl
  | cons v vs ih =>
    rw [List.map_cons, h v (List.mem_cons_self _ _),
      ih fun w hw => h w (List.mem_cons_of_mem _ hw)]

theorem normalize_id (t : Table) (h : renamePairs t.cols = []) :
    _normalize_columns t = t := by
  rw [_normalize_columns]
  simp [h]

theorem filterPos_id (t : Table) (h : ∀ r ∈ t.rows, keepPosRow t.cols r = true) :
    filterPosTable t = t := by
  rw [filterPosTable]
  cases t with
  | mk cols rows =>
    simp only [Table.mk.injEq, true_and]
    exact List.filter_eq_self.2 h

theorem foldl_fixed' {α : Type} (f : Table → α → Table) (l : List α) (t : Table)
    (h : ∀ a ∈ l, f t a = t) : l.foldl f t = t := by
  induction l with
  | nil => rfl
  | cons a as ih =>
    rw [List.foldl_cons, h a (List.mem_cons_self _ _)]
    exact ih fun b hb => h b (List.mem_cons_of_mem _ hb)

theorem add_market_id (t : Table)
    (h : ∀ am ∈ _MARKET_MAP,
      (t.cols.contains am.2 = true ∨ t.cols.contains am.1 = false) ∧
        (t.cols.contains (am.2 ++ "_sd") = true ∨
          t.cols.contains (am.1 ++ "_sd") = false)) :
    _add_market_columns t = t := by
  rw [_add_market_columns]
  apply foldl_fixed'
  intro am ham
  obtain ⟨h1, h2⟩ := h am ham
  have hc1 : ¬(¬t.cols.contains am.2 ∧ t.cols.contains am.1) := by
    rcases h1 with h1 | h1
    · exact fun hc => hc.1 h1
    · exact fun hc => by rw [h1] at hc; exact Bool.false_ne_true hc.2
  have hc2 : ¬(¬t.cols.contains (am.2 ++ "_sd") ∧ t.cols.contains (am.1 ++ "_sd")) := by
    rcases h2 with h2 | h2
    · exact fun hc => hc.1 h2
    · exact fun hc => by rw [h2] at hc; exact Bool.false_ne_true hc.2
  simp only [if_neg hc1, if_neg hc2]

theorem mapColumn_id (t : Table) (c : String) (f : Val → Val)
    (hwf : ∀ r ∈ t.rows, r.length = t.cols.length)
    (hfix : ∀ r ∈ t.rows, f (cellAt t.cols r c) = cellAt t.cols r c) :
    mapColumn t c f = t := by
  rw [mapColumn]
  cases hidx : t.cols.indexOf? c with
  | none => rfl
  | some i =>
    have hi : i < t.cols.length := (indexOf?_some_spec hidx).1
    have hrows : t.rows.map (fun r => r.set i (f (r.getD i Val.nan))) = t.rows := by
      apply map_eq_self_of_fix
      intro r hr
      have hcell : cellAt t.cols r c = r.getD i Val.nan := by
        rw [cellAt, hidx]
      have := hfix r hr
      rw [hcell] at this
      rw [this]
      exact set_getD_self r i (by rw [hwf r hr]; exact hi)
    cases t with
    | mk cols rows => simpa using hrows

theorem coerce_id (t : Table)
    (hwf : ∀ r ∈ t.rows, r.length = t.cols.length)
    (hrep : ∀ r ∈ t.rows, ∀ v ∈ r, replaceNaCell v = v)
    (hnum : ∀ c ∈ numericCandidates, ∀ r ∈ t.rows,
      toNumericCell (cellAt t.cols r c) = cellAt t.cols r c) :
    _coerce_numeric t = t := by
  rw [_coerce_numeric]
  have ht1 : t.rows.map (fun r => r.map replaceNaCell) = t.rows :=
    map_eq_self_of_fix fun r hr => map_eq_self_of_fix fun v hv => hrep r hr v hv
  have ht1' : ({ t with rows := t.rows.map fun r => r.map replaceNaCell } : Table) = t := by
    cases t with
    | mk cols rows => simpa using ht1
  rw [ht1']
  apply foldl_fixed'
  intro c hc
  have hcand : c ∈ numericCandidates := by
    rcases List.mem_append.1 hc with hm | hm
    · exact List.mem_append.2 (Or.inl hm)
    · obtain ⟨v, hv, hin⟩ := List.mem_flatMap.1 hm
      by_cases hsd : t.cols.contains (v ++ "_sd") = true
      · rw [if_pos hsd] at hin
        cases List.mem_singleton.1 hin
        exact List.mem_append.2 (Or.inr (List.mem_map.2 ⟨v, hv, rfl⟩))
      · rw [if_neg hsd] at hin
        cases hin
  by_cases hpres : t.cols.contains c = true
  · rw [if_pos hpres]
    exact mapColumn_id t c toNumericCell hwf (hnum c hcand)
  · rw [if_neg hpres]

theorem addComboSum_id (t : Table) (combo : String) (comps : List String)
    (h : t.cols.contains combo = true ∨ ∀ cc ∈ comps, t.cols.contains cc = false) :
    addComboSum t combo comps = t := by
  rcases h with h | h
  · rw [addComboSum, if_pos h]
  · rw [addComboSum]
    by_cases hcc : t.cols.contains combo = true
    · rw [if_pos hcc]
    · rw [if_neg hcc, if_pos]
      rw [List.filter_eq_nil_iff.2 fun cc hcc0 => by rw [h cc hcc0]; exact Bool.false_ne_true]
      rfl

theorem addComboSd_id (sq : ℚ → ℚ) (t : Table) (combo_sd : String) (compsSd : List String)
    (h : t.cols.contains combo_sd = true ∨ ∀ cc ∈ compsSd, t.cols.contains cc = false) :
    addComboSd sq t combo_sd compsSd = t := by
  rcases h with h | h
  · rw [addComboSd, if_pos h]
  · rw [addComboSd]
    by_cases hcc : t.cols.contains combo_sd = true
    · rw [if_pos hcc]
    · rw [if_neg hcc, if_pos]
      rw [List.filter_eq_nil_iff.2 fun cc hcc0 => by rw [h cc hcc0]; exact Bool.false_ne_true]
      rfl

theorem selectCols_id (t : Table) (hnd : t.cols.Nodup)
    (hwf : ∀ r ∈ t.rows, r.length = t.cols.length) :
    selectColsTable t t.cols = t := by
  rw [selectColsTable]
  cases t with
  | mk cols rows =>
    simp only [Table.mk.injEq, true_and]
    exact map_eq_self_of_fix fun r hr => map_cellAt_self cols r hnd (hwf r hr)

theorem dropAllNa_id (t : Table) (subset : List String)
    (h : ∀ r ∈ t.rows, (subset.any fun c => cellAt t.cols r c ≠ Val.nan) = true) :
    dropAllNaRows t subset = t := by
  rw [dropAllNaRows]
  cases t with
  | mk cols rows =>
    simp only [Table.mk.injEq, true_and]
    exact List.filter_eq_self.2 h

theorem contains_congr {l1 l2 : List String} {a : String} (h : a ∈ l1 ↔ a ∈ l2) :
    l1.contains a = l2.contains a := by
  cases h1 : l1.contains a <;> cases h2 : l2.contains a <;> first | rfl | (exfalso; simp_all)

theorem mem_keepBaseList (cols : List String) (c : String) :
    c ∈ keepBaseList cols ↔
      c ∈ (["player", "team", "pos", "id", "avg_type", "season_year", "week"] :
          List String) ∧ c ∈ cols := by
  rw [keepBaseList, List.mem_filter]
  simp

theorem mem_keepMarketsList (cols : List String) (c : String) :
    c ∈ keepMarketsList cols ↔ c ∈ marketCandidates ∧ c ∈ cols := by
  simp only [keepMarketsList, marketCandidates]
  rw [mem_dedupKeepFirst, List.mem_append, List.mem_filter, List.mem_filter, List.mem_append]
  constructor
  · rintro (⟨h1, h2⟩ | ⟨h1, h2⟩)
    · exact ⟨Or.inl h1, by simpa using h2⟩
    · exact ⟨Or.inr h1, by simpa using h2⟩
  · rintro ⟨h1 | h1, h2⟩
    · exact Or.inl ⟨h1, by simpa using h2⟩
    · exact Or.inr ⟨h1, by simpa using h2⟩

theorem mem_keepMarketsSdList (cols km : List String) (c : String) :
    c ∈ keepMarketsSdList cols km ↔ ∃ m ∈ km, c = m ++ "_sd" ∧ c ∈ cols := by
  rw [keepMarketsSdList, List.mem_filterMap]
  constructor
  · rintro ⟨m, hm, hf⟩
    by_cases hc : cols.contains (m ++ "_sd") = true
    · rw [if_pos hc] at hf
      cases Option.some_inj.1 hf
      exact ⟨m, hm, rfl, by simpa using hc⟩
    · rw [if_neg hc] at hf
      cases hf
  · rintro ⟨m, hm, rfl, hc⟩
    exact ⟨m, hm, by rw [if_pos (by simpa using hc)]⟩

theorem mem_preservedOthers (cols keeps : List String) (c : String) :
    c ∈ preservedOthers cols keeps ↔ c ∈ cols ∧ c ∉ _DROP_COLS ∧ c ∉ keeps := by
  rw [preservedOthers, List.mem_filter]
  simp

theorem mem_finalColsOf (cols : List String) (c : String) :
    c ∈ finalColsOf cols ↔ c ∈ cols ∧ c ∉ _DROP_COLS := by
  have hbase : ∀ x ∈ (["player", "team", "pos", "id", "avg_type", "season_year", "week"] :
      List String), x ∉ _DROP_COLS := by decide
  have hmk : ∀ x ∈ marketCandidates, x ∉ _DROP_COLS := by decide
  have hsd : ∀ x ∈ marketCandidates, x ++ "_sd" ∉ _DROP_COLS := by decide
  simp only [finalColsOf]
  simp only [List.mem_append]
  constructor
  · rintro (((hk | hk) | hk) | hk)
    · obtain ⟨h1, h2⟩ := (mem_keepBaseList cols c).1 hk
      exact ⟨h2, hbase c h1⟩
    · obtain ⟨h1, h2⟩ := (mem_keepMarketsList cols c).1 hk
      exact ⟨h2, hmk c h1⟩
    · obtain ⟨m, hm, heq, hc⟩ := (mem_keepMarketsSdList cols _ c).1 hk
      obtain ⟨h1, _⟩ := (mem_keepMarketsList cols m).1 hm
      exact ⟨hc, heq ▸ hsd m h1⟩
    · obtain ⟨h1, h2, _⟩ := (mem_preservedOthers cols _ c).1 hk
      exact ⟨h1, h2⟩
  · rintro ⟨hc, hnd⟩
    by_cases hk : c ∈ keepBaseList cols ++ keepMarketsList cols ++
        keepMarketsSdList cols (keepMarketsList cols)
    · rcases List.mem_append.1 hk with hk' | hk'
      · rcases List.mem_append.1 hk' with hk'' | hk''
        · exact Or.inl (Or.inl (Or.inl hk''))
        · exact Or.inl (Or.inl (Or.inr hk''))
      · exact Or.inl (Or.inr hk')
    · exact Or.inr ((mem_preservedOthers cols _ c).2 ⟨hc, hnd, hk⟩)

theorem keepBaseList_congr {cols1 cols2 : List String}
    (h : ∀ x, x ∉ _DROP_COLS → (x ∈ cols1 ↔ x ∈ cols2)) :
    keepBaseList cols1 = keepBaseList cols2 := by
  rw [keepBaseList, keepBaseList]
  apply List.filter_congr
  intro x hx
  refine contains_congr (h x ?_)
  revert hx
  revert x
  decide

theorem keepMarketsList_congr {cols1 cols2 : List String}
    (h : ∀ x, x ∉ _DROP_COLS → (x ∈ cols1 ↔ x ∈ cols2)) :
    keepMarketsList cols1 = keepMarketsList cols2 := by
  have hmk : ∀ x ∈ marketCandidates, x ∉ _DROP_COLS := by decide
  simp only [keepMarketsList]
  have hb : (_MARKET_MAP.map (·.2)).filter (fun c => cols1.contains c) =
      (_MARKET_MAP.map (·.2)).filter (fun c => cols2.contains c) := by
    apply List.filter_congr
    intro x hx
    exact contains_congr (h x (hmk x (List.mem_append.2 (Or.inl hx))))
  have hcb : (["player_pass_rush_yds", "player_pass_rush_reception_yds"] :
      List String).filter (fun c => cols1.contains c) =
        (["player_pass_rush_yds", "player_pass_rush_reception_yds"] :
          List String).filter (fun c => cols2.contains c) := by
    apply List.filter_congr
    intro x hx
    refine contains_congr (h x ?_)
    revert hx
    revert x
    decide
  rw [hb, hcb]

theorem keepMarketsSdList_congr {cols1 cols2 : List String} (km : List String)
    (hkm : ∀ m ∈ km, m ∈ marketCandidates)
    (h : ∀ x, x ∉ _DROP_COLS → (x ∈ cols1 ↔ x ∈ cols2)) :
    keepMarketsSdList cols1 km = keepMarketsSdList cols2 km := by
  have hsd : ∀ x ∈ marketCandidates, x ++ "_sd" ∉ _DROP_COLS := by decide
  rw [keepMarketsSdList, keepMarketsSdList]
  apply List.filterMap_congr
  intro m hm
  rw [contains_congr (h (m ++ "_sd") (hsd m (hkm m hm)))]

theorem keepMarketsList_subset (cols : List String) :
    ∀ m ∈ keepMarketsList cols, m ∈ marketCandidates :=
  fun m hm => ((mem_keepMarketsList cols m).1 hm).1

theorem finalColsOf_idem (cols : List String) :
    finalColsOf (finalColsOf cols) = finalColsOf cols := by
  have hmem : ∀ x, x ∉ _DROP_COLS → (x ∈ finalColsOf cols ↔ x ∈ cols) := fun x hx => by
    rw [mem_finalColsOf]
    exact ⟨fun h => h.1, fun h => ⟨h, hx⟩⟩
  have hkb := keepBaseList_congr hmem
  have hkm := keepMarketsList_congr hmem
  have hks : keepMarketsSdList (finalColsOf cols) (keepMarketsList (finalColsOf cols)) =
      keepMarketsSdList cols (keepMarketsList cols) := by
    rw [hkm]
    exact keepMarketsSdList_congr _ (keepMarketsList_subset cols) hmem
  conv_lhs => rw [finalColsOf]
  rw [hkb, hks, hkm]
  have hpres : preservedOthers (finalColsOf cols)
      (keepBaseList cols ++ keepMarketsList cols ++
        keepMarketsSdList cols (keepMarketsList cols)) =
      preservedOthers cols
        (keepBaseList cols ++ keepMarketsList cols ++
          keepMarketsSdList cols (keepMarketsList cols)) := by
    rw [preservedOthers, preservedOthers]
    conv_lhs => rw [finalColsOf]
    rw [List.filter_append, List.filter_append, List.filter_append]
    have hnil : ∀ part : List String,
        part ⊆ keepBaseList cols ++ keepMarketsList cols ++
          keepMarketsSdList cols (keepMarketsList cols) →
        part.filter (fun c => ¬_DROP_COLS.contains c ∧
          ¬(keepBaseList cols ++ keepMarketsList cols ++
            keepMarketsSdList cols (keepMarketsList cols)).contains c) = [] := by
      intro part hsub
      apply List.filter_eq_nil_iff.2
      intro a ha
      have hk := hsub ha
      intro hp
      rw [decide_eq_true_eq] at hp
      exact hp.2 (by simpa using hk)
    rw [hnil _ (fun a ha => List.mem_append.2 (Or.inl (List.mem_append.2 (Or.inl ha)))),
      hnil _ (fun a ha => List.mem_append.2 (Or.inl (List.mem_append.2 (Or.inr ha)))),
      hnil _ (fun a ha => List.mem_append.2 (Or.inr ha))]
    simp only [List.nil_append]
    apply List.filter_eq_self.2
    intro a ha
    obtain ⟨_, h2, h3⟩ := (mem_preservedOthers cols _ a).1 ha
    simp only [decide_eq_true_eq]
    exact ⟨by simpa using h2, by simpa using h3⟩
  rw [hpres]
  rw [finalColsOf]

theorem sd_append_injective {a b : String} (h : a ++ "_sd" = b ++ "_sd") : a = b := by
  rw [String.ext_iff] at h ⊢
  rw [String.data_append, String.data_append] at h
  exact List.append_cancel_right h

theorem nodup_keepMarketsSdList (cols : List String) :
    (keepMarketsSdList cols (keepMarketsList cols)).Nodup := by
  have hkm : (keepMarketsList cols).Nodup := by
    simp only [keepMarketsList]
    exact nodup_dedupKeepFirst _
  rw [keepMarketsSdList]
  refine List.Nodup.filterMap ?_ hkm
  intro a a' b hb hb'
  by_cases hca : cols.contains (a ++ "_sd") = true
  · rw [if_pos hca] at hb
    by_cases hca' : cols.contains (a' ++ "_sd") = true
    · rw [if_pos hca'] at hb'
      have h1 : a ++ "_sd" = b := by simpa using hb
      have h2 : a' ++ "_sd" = b := by simpa using hb'
      exact sd_append_injective (h1.trans h2.symm)
    · rw [if_neg hca'] at hb'
      cases hb'
  · rw [if_neg hca] at hb
    cases hb

theorem nodup_finalColsOf (cols : List String) (hnd : cols.Nodup) :
    (finalColsOf cols).Nodup := by
  have hkb : (keepBaseList cols).Nodup := by
    rw [keepBaseList]
    exact List.Nodup.filter _ (by decide)
  have hkm : (keepMarketsList cols).Nodup := by
    simp only [keepMarketsList]
    exact nodup_dedupKeepFirst _
  have hks := nodup_keepMarketsSdList cols
  have hd1 : (keepBaseList cols).Disjoint (keepMarketsList cols) := by
    intro a ha hm
    have h1 := ((mem_keepBaseList cols a).1 ha).1
    have h2 := ((mem_keepMarketsList cols a).1 hm).1
    have hx : ∀ x ∈ (["player", "team", "pos", "id", "avg_type", "season_year", "week"] :
        List String), x ∉ marketCandidates := by decide
    exact hx a h1 h2
  have hd2 : (keepBaseList cols).Disjoint (keepMarketsSdList cols (keepMarketsList cols)) := by
    intro a ha hm
    have h1 := ((mem_keepBaseList cols a).1 ha).1
    obtain ⟨m, hmk, heq, _⟩ := (mem_keepMarketsSdList cols _ a).1 hm
    have h2 := ((mem_keepMarketsList cols m).1 hmk).1
    have : ∀ x ∈ (["player", "team", "pos", "id", "avg_type", "season_year", "week"] :
        List String), ∀ y ∈ marketCandidates, x ≠ y ++ "_sd" := by decide
    exact this a h1 m h2 heq
  have hd3 : (keepMarketsList cols).Disjoint (keepMarketsSdList cols (keepMarketsList cols)) := by
    intro a ha hm
    have h1 := ((mem_keepMarketsList cols a).1 ha).1
    obtain ⟨m, hmk, heq, _⟩ := (mem_keepMarketsSdList cols _ a).1 hm
    have h2 := ((mem_keepMarketsList cols m).1 hmk).1
    have : ∀ x ∈ marketCandidates, ∀ y ∈ marketCandidates, x ≠ y ++ "_sd" := by decide
    exact this a h1 m h2 heq
  have hpres : (preservedOthers cols
      (keepBaseList cols ++ keepMarketsList cols ++
        keepMarketsSdList cols (keepMarketsList cols))).Nodup := by
    rw [preservedOthers]
    exact List.Nodup.filter _ hnd
  have hdpres : (keepBaseList cols ++ keepMarketsList cols ++
      keepMarketsSdList cols (keepMarketsList cols)).Disjoint
        (preservedOthers cols
          (keepBaseList cols ++ keepMarketsList cols ++
            keepMarketsSdList cols (keepMarketsList cols))) := by
    intro a ha hm
    exact ((mem_preservedOthers cols _ a).1 hm).2.2 ha
  rw [finalColsOf]
  refine List.Nodup.append (List.Nodup.append (List.Nodup.append hkb hkm hd1) hks ?_) hpres hdpres
  rw [List.disjoint_append_left]
  exact ⟨hd2, hd3⟩

theorem clean_fixes (sq : ℚ → ℚ) (u : Table)
    (hnd : u.cols.Nodup)
    (hwf : ∀ r ∈ u.rows, r.length = u.cols.length)
    (hren : renamePairs u.cols = [])
    (hpos : u.cols.contains "pos" = true)
    (hkeep : ∀ r ∈ u.rows, keepPosRow u.cols r = true)
    (hdrop : ∀ c ∈ _DROP_COLS, u.cols.contains c = false)
    (hmkt : ∀ am ∈ _MARKET_MAP,
      (u.cols.contains am.2 = true ∨ u.cols.contains am.1 = false) ∧
        (u.cols.contains (am.2 ++ "_sd") = true ∨ u.cols.contains (am.1 ++ "_sd") = false))
    (hrep : ∀ r ∈ u.rows, ∀ v ∈ r, replaceNaCell v = v)
    (hnum : ∀ c ∈ numericCandidates, ∀ r ∈ u.rows,
      toNumericCell (cellAt u.cols r c) = cellAt u.cols r c)
    (hc1 : u.cols.contains "player_pass_rush_yds" = true ∨
      ∀ cc ∈ (["player_pass_yds", "player_rush_yds"] : List String),
        u.cols.contains cc = false)
    (hc2 : u.cols.contains "player_pass_rush_yds_sd" = true ∨
      ∀ cc ∈ (["player_pass_yds_sd", "player_rush_yds_sd"] : List String),
        u.cols.contains cc = false)
    (hc3 : u.cols.contains "player_pass_rush_reception_yds" = true ∨
      ∀ cc ∈ (["player_pass_yds", "player_rush_yds", "player_reception_yds"] : List String),
        u.cols.contains cc = false)
    (hc4 : u.cols.contains "player_pass_rush_reception_yds_sd" = true ∨
      ∀ cc ∈ (["player_pass_yds_sd", "player_rush_yds_sd", "player_reception_yds_sd"] :
          List String), u.cols.contains cc = false)
    (hfin : finalColsOf u.cols = u.cols)
    (hna : keepMarketsList u.cols ≠ [] →
      ∀ r ∈ u.rows,
        ((keepMarketsList u.cols).any fun c => cellAt u.cols r c ≠ Val.nan) = true) :
    clean_projections sq u = .ok u := by
  simp only [clean_projections]
  rw [normalize_id u hren]
  rw [if_neg (by simpa using hpos)]
  rw [filterPos_id u hkeep]
  rw [show (_DROP_COLS.filter fun c => u.cols.contains c) = [] from
    List.filter_eq_nil_iff.2 fun c hc => by rw [hdrop c hc]; exact Bool.false_ne_true]
  simp only [List.isEmpty_nil, ite_true]
  rw [add_market_id u hmkt]
  rw [coerce_id u hwf hrep hnum]
  rw [addComboSum_id u _ _ hc1]
  rw [addComboSd_id sq u _ _ hc2]
  rw [addComboSum_id u _ _ hc3]
  rw [addComboSd_id sq u _ _ hc4]
  rw [hfin, selectCols_id u hnd hwf]
  by_cases hkme : keepMarketsList u.cols = []
  · rw [hkme]
    rfl
  · rw [if_neg (by simpa [List.isEmpty_iff] using hkme)]
    rw [dropAllNa_id u _ (hna hkme)]
    rfl

theorem cellAt_map {cols : List String} {r : List Val} {c : String} {f : Val → Val}
    (hf : f Val.nan = Val.nan) : cellAt cols (r.map f) c = f (cellAt cols r c) := by
  rw [cellAt, cellAt]
  cases hidx : cols.indexOf? c with
  | none => exact hf.symm
  | some i =>
    show (r.map f).getD i Val.nan = f (r.getD i Val.nan)
    conv_lhs => rw [show Val.nan = f Val.nan from hf.symm]
    exact List.getD_map r Val.nan f

theorem getD_set_ne {r : List Val} {i j : ℕ} {x d : Val} (h : i ≠ j) :
    (r.set i x).getD j d = r.getD j d := by
  by_cases hj : j < r.length
  · rw [List.getD_eq_getElem _ d (by rw [List.length_set]; exact hj),
      List.getD_eq_getElem _ d hj]
    exact List.getElem_set_ne h _
  · rw [List.getD_eq_default _ d (by rw [List.length_set]; omega),
      List.getD_eq_default _ d (by omega)]

theorem cellAt_set_ne {cols : List String} {r : List Val} {c cx : String} {i : ℕ} {x : Val}
    (hidx : cols.indexOf? cx = some i) (hne : c ≠ cx) :
    cellAt cols (r.set i x) c = cellAt cols r c := by
  rw [cellAt, cellAt]
  cases hc : cols.indexOf? c with
  | none => rfl
  | some j =>
    have hij : i ≠ j := by
      intro he
      subst he
      have s1 := (indexOf?_some_spec hidx).2
      have s2 := (indexOf?_some_spec hc).2
      exact hne (s2.symm.trans s1)
    exact getD_set_ne hij

theorem addColumnBy_wf (t : Table) (n : String) (f : List Val → Val)
    (hnd : t.cols.Nodup) (hwf : ∀ r ∈ t.rows, r.length = t.cols.length)
    (habs : n ∉ t.cols) :
    (addColumnBy t n f).cols.Nodup ∧
      ∀ r ∈ (addColumnBy t n f).rows, r.length = (addColumnBy t n f).cols.length := by
  constructor
  · rw [addColumnBy]
    rw [List.nodup_append]
    exact ⟨hnd, List.nodup_singleton n, fun a ha hb => habs ((List.mem_singleton.1 hb) ▸ ha)⟩
  · intro r hr
    rw [addColumnBy] at hr ⊢
    obtain ⟨r0, hr0, rfl⟩ := List.mem_map.1 hr
    simp [hwf r0 hr0]

theorem selectColsTable_wf (t : Table) (names : List String) (hnd : names.Nodup) :
    (selectColsTable t names).cols.Nodup ∧
      ∀ r ∈ (selectColsTable t names).rows,
        r.length = (selectColsTable t names).cols.length := by
  refine ⟨hnd, fun r hr => ?_⟩
  rw [selectColsTable] at hr
  obtain ⟨r0, _, rfl⟩ := List.mem_map.1 hr
  simp [selectColsTable]

theorem clean_projections_eq (sq : ℚ → ℚ) (t : Table) :
    clean_projections sq t =
      if (_normalize_columns t).cols.contains "pos"
      then .ok (cleanCore sq (_normalize_columns t))
      else .error "KeyError: Missing required pos (position) column after normalization." := by
  by_cases hp : (_normalize_columns t).cols.contains "pos"
  · rw [if_pos hp]
    simp only [clean_projections, cleanCore, selectStage, combosStage, dropStage]
    rw [if_neg (by simpa using hp)]
    rfl
  · rw [if_neg hp]
    simp only [clean_projections]
    rw [if_pos (by simpa using hp)]
    rfl

theorem normalize_rows_eq (t : Table) : (_normalize_columns t).rows = t.rows := by
  rw [_normalize_columns]
  split <;> rfl

theorem normalize_cols_eq (t : Table) :
    (_normalize_columns t).cols = t.cols.map (renameFun t.cols) := by
  rw [_normalize_columns]
  by_cases he : (renamePairs t.cols).isEmpty
  · rw [if_pos he]
    have hnil : renamePairs t.cols = [] := by simpa [List.isEmpty_iff] using he
    have : t.cols.map (renameFun t.cols) = t.cols.map id :=
      List.map_congr_left fun c _ => by rw [renameFun, hnil]; rfl
    rw [this, List.map_id]
  · rw [if_neg he]
    show t.cols.map _ = t.cols.map (renameFun t.cols)
    exact List.map_congr_left fun c _ => by rw [renameFun]

theorem renamePairs_mem {cols : List String} {a w : String}
    (h : (a, w) ∈ renamePairs cols) :
    ∃ wa ∈ headerAlts, wa.1 = w ∧ cols.contains wa.1 = false ∧
      wa.2.find? (fun al => cols.contains al) = some a := by
  rw [renamePairs] at h
  obtain ⟨wa, hwa, hmem⟩ := List.mem_flatMap.1 h
  by_cases hc : cols.contains wa.1 = true
  · rw [if_pos hc] at hmem
    cases hmem
  · rw [if_neg hc] at hmem
    have hcf : cols.contains wa.1 = false := by
      cases hb : cols.contains wa.1
      · rfl
      · exact absurd hb hc
    cases hf : wa.2.find? (fun al => cols.contains al) with
    | none =>
      rw [hf] at hmem
      cases hmem
    | some a0 =>
      rw [hf] at hmem
      have := List.mem_singleton.1 hmem
      have ha : a = a0 := congrArg Prod.fst this
      have hw : w = wa.1 := congrArg Prod.snd this
      exact ⟨wa, hwa, hw.symm, hcf, ha ▸ hf⟩

theorem rp_w_not_mem {cols : List String} {a w : String}
    (h : (a, w) ∈ renamePairs cols) : w ∉ cols := by
  obtain ⟨wa, _, hw, hcf, _⟩ := renamePairs_mem h
  rw [← hw]
  simpa using hcf

theorem rp_a_mem {cols : List String} {a w : String}
    (h : (a, w) ∈ renamePairs cols) : a ∈ cols := by
  obtain ⟨wa, _, _, _, hf⟩ := renamePairs_mem h
  simpa using List.find?_some hf

theorem rp_semkeys {cols : List String} :
    ∀ p ∈ renamePairs cols, ∀ q ∈ renamePairs cols, p.1 = q.1 → p = q := by
  intro p hp q hq hk
  obtain ⟨e1, he1, hw1, _, hf1⟩ := renamePairs_mem (show (p.1, p.2) ∈ renamePairs cols from hp)
  obtain ⟨e2, he2, hw2, _, hf2⟩ := renamePairs_mem (show (q.1, q.2) ∈ renamePairs cols from hq)
  have ha1 : p.1 ∈ e1.2 := List.mem_of_find?_eq_some hf1
  have ha2 : q.1 ∈ e2.2 := List.mem_of_find?_eq_some hf2
  have hdisj : ∀ x ∈ headerAlts, ∀ y ∈ headerAlts, ∀ al : String,
      al ∈ x.2 → al ∈ y.2 → x = y := by decide
  have he : e1 = e2 := hdisj e1 he1 e2 he2 p.1 ha1 (hk ▸ ha2)
  have : p.2 = q.2 := by rw [← hw1, ← hw2, he]
  exact Prod.ext hk this

theorem lookup_of_mem_semkeys {l : List (String × String)} {a w : String}
    (hsem : ∀ p ∈ l, ∀ q ∈ l, p.1 = q.1 → p = q)
    (h : (a, w) ∈ l) : l.lookup a = some w := by
  induction l with
  | nil => cases h
  | cons p es ih =>
    obtain ⟨k, v⟩ := p
    by_cases hk : a = k
    · subst hk
      have hbeq : (a == a) = true := by simp
      rw [show List.lookup a ((a, v) :: es) = some v by rw [List.lookup, hbeq]]
      rcases List.mem_cons.1 h with he | hmem
      · exact congrArg (fun p : String × String => some p.2) he.symm
      · exact congrArg (fun p : String × String => some p.2)
          (hsem (a, v) (List.mem_cons_self _ _) (a, w) (List.mem_cons_of_mem _ hmem) rfl)
    · have hbeq : (a == k) = false := by simp [hk]
      rw [show List.lookup a ((k, v) :: es) = List.lookup a es by rw [List.lookup, hbeq]]
      rcases List.mem_cons.1 h with he | hmem
      · exact absurd (congrArg Prod.fst he) hk
      · exact ih (fun p hp q hq => hsem p (List.mem_cons_of_mem _ hp) q
          (List.mem_cons_of_mem _ hq)) hmem

theorem rp_lookup_of_mem {cols : List String} {a w : String}
    (h : (a, w) ∈ renamePairs cols) : (renamePairs cols).lookup a = some w :=
  lookup_of_mem_semkeys rp_semkeys h

theorem normalize_nodup (t : Table) (hnd : t.cols.Nodup) :
    (_normalize_columns t).cols.Nodup := by
  rw [normalize_cols_eq]
  refine List.Nodup.map_on ?_ hnd
  intro x hx y hy hxy
  rw [renameFun, renameFun] at hxy
  cases hlx : (renamePairs t.cols).lookup x with
  | none =>
    cases hly : (renamePairs t.cols).lookup y with
    | none =>
      rw [hlx, hly] at hxy
      exact hxy
    | some wy =>
      rw [hlx, hly] at hxy
      have hxy' : x = wy := hxy
      exact absurd (hxy' ▸ hx) (rp_w_not_mem (lookup_mem hly))
  | some wx =>
    cases hly : (renamePairs t.cols).lookup y with
    | none =>
      rw [hlx, hly] at hxy
      have hxy' : wx = y := hxy
      exact absurd (hxy' ▸ hy) (rp_w_not_mem (lookup_mem hlx))
    | some wy =>
      rw [hlx, hly] at hxy
      have hxy' : wx = wy := hxy
      obtain ⟨e1, he1, hw1, _, hf1⟩ := renamePairs_mem (lookup_mem hlx)
      obtain ⟨e2, he2, hw2, _, hf2⟩ := renamePairs_mem (lookup_mem hly)
      have hwants : ∀ x ∈ headerAlts, ∀ y ∈ headerAlts, x.1 = y.1 → x = y := by decide
      have he : e1 = e2 := hwants e1 he1 e2 he2 (by rw [hw1, hw2, hxy'])
      have hsome : some x = some y := by rw [← hf1, ← hf2, he]
      exact Option.some_inj.1 hsome

theorem normalize_want_stable {t : Table} {wa : String × List String}
    (hwa : wa ∈ headerAlts) (hin : wa.1 ∈ t.cols) :
    wa.1 ∈ (_normalize_columns t).cols := by
  rw [normalize_cols_eq]
  have hlk : (renamePairs t.cols).lookup wa.1 = none := by
    cases hl : (renamePairs t.cols).lookup wa.1 with
    | none => rfl
    | some w' =>
      obtain ⟨e, he, _, _, hf⟩ := renamePairs_mem (lookup_mem hl)
      have halt : wa.1 ∈ e.2 := List.mem_of_find?_eq_some hf
      have hnw : ∀ x ∈ headerAlts, ∀ al ∈ x.2, ∀ y ∈ headerAlts, al ≠ y.1 := by decide
      exact absurd rfl (hnw e he wa.1 halt wa hwa)
  exact List.mem_map.2 ⟨wa.1, hin, by rw [renameFun, hlk]⟩

theorem normalize_B (t : Table) :
    ∀ wa ∈ headerAlts, wa.1 ∈ (_normalize_columns t).cols ∨
      ∀ al ∈ wa.2, al ∉ (_normalize_columns t).cols := by
  intro wa hwa
  by_cases hw : wa.1 ∈ (_normalize_columns t).cols
  · exact Or.inl hw
  · refine Or.inr fun al hal hmem => ?_
    have hwc : wa.1 ∉ t.cols := fun hin => hw (normalize_want_stable hwa hin)
    rw [normalize_cols_eq] at hmem
    obtain ⟨c0, hc0, hren⟩ := List.mem_map.1 hmem
    rw [renameFun] at hren
    cases hl : (renamePairs t.cols).lookup c0 with
    | some w' =>
      rw [hl] at hren
      have hren' : w' = al := hren
      obtain ⟨e, he, hw1, _, _⟩ := renamePairs_mem (lookup_mem hl)
      have hnw : ∀ x ∈ headerAlts, ∀ alz ∈ x.2, ∀ y ∈ headerAlts, alz ≠ y.1 := by decide
      exact hnw wa hwa al hal e he (by rw [← hren', ← hw1])
    | none =>
      rw [hl] at hren
      have hren' : c0 = al := hren
      subst hren'
      have hfind : wa.2.find? (fun a => t.cols.contains a) ≠ none := by
        intro hnone
        exact absurd (by simpa using hc0) (by simpa using List.find?_eq_none.1 hnone c0 hal)
      cases hf : wa.2.find? (fun a => t.cols.contains a) with
      | none => exact hfind hf
      | some a0 =>
        have hpair : (a0, wa.1) ∈ renamePairs t.cols := by
          rw [renamePairs]
          refine List.mem_flatMap.2 ⟨wa, hwa, ?_⟩
          rw [if_neg (by simpa using hwc), hf]
          exact List.mem_singleton.2 rfl
        have ha0 : a0 ∈ t.cols := rp_a_mem hpair
        have : wa.1 ∈ (_normalize_columns t).cols := by
          rw [normalize_cols_eq]
          exact List.mem_map.2 ⟨a0, ha0, by rw [renameFun, rp_lookup_of_mem hpair]⟩
        exact hw this

theorem addColumnBy_cols (t : Table) (n : String) (f : List Val → Val) :
    (addColumnBy t n f).cols = t.cols ++ [n] := rfl

theorem add_market_step_props (t : Table) (am : String × String)
    (hnd : t.cols.Nodup) (hwf : ∀ r ∈ t.rows, r.length = t.cols.length)
    (ham1sd : am.1 ≠ am.2 ++ "_sd") :
    ∃ ext,
      ((fun t (am : String × String) =>
          let t1 :=
            if ¬t.cols.contains am.2 ∧ t.cols.contains am.1 then
              addColumnBy t am.2 fun r => cellAt t.cols r am.1
            else t
          let a_sd := am.1 ++ "_sd"
          let m_sd := am.2 ++ "_sd"
          if ¬t1.cols.contains m_sd ∧ t1.cols.contains a_sd then
            addColumnBy t1 m_sd fun r => cellAt t1.cols r a_sd
          else t1) t am).cols = t.cols ++ ext ∧
        (∀ c ∈ ext, c = am.2 ∨ c = am.2 ++ "_sd") ∧
        ((fun t (am : String × String) =>
          let t1 :=
            if ¬t.cols.contains am.2 ∧ t.cols.contains am.1 then
              addColumnBy t am.2 fun r => cellAt t.cols r am.1
            else t
          let a_sd := am.1 ++ "_sd"
          let m_sd := am.2 ++ "_sd"
          if ¬t1.cols.contains m_sd ∧ t1.cols.contains a_sd then
            addColumnBy t1 m_sd fun r => cellAt t1.cols r a_sd
          else t1) t am).cols.Nodup ∧
        (∀ r ∈ ((fun t (am : String × String) =>
          let t1 :=
            if ¬t.cols.contains am.2 ∧ t.cols.contains am.1 then
              addColumnBy t am.2 fun r => cellAt t.cols r am.1
            else t
          let a_sd := am.1 ++ "_sd"
          let m_sd := am.2 ++ "_sd"
          if ¬t1.cols.contains m_sd ∧ t1.cols.contains a_sd then
            addColumnBy t1 m_sd fun r => cellAt t1.cols r a_sd
          else t1) t am).rows, r.length = (t.cols ++ ext).length) ∧
        (∀ r' ∈ ((fun t (am : String × String) =>
          let t1 :=
            if ¬t.cols.contains am.2 ∧ t.cols.contains am.1 then
              addColumnBy t am.2 fun r => cellAt t.cols r am.1
            else t
          let a_sd := am.1 ++ "_sd"
          let m_sd := am.2 ++ "_sd"
          if ¬t1.cols.contains m_sd ∧ t1.cols.contains a_sd then
            addColumnBy t1 m_sd fun r => cellAt t1.cols r a_sd
          else t1) t am).rows, ∃ r ∈ t.rows,
            ∀ c ∈ t.cols, cellAt (t.cols ++ ext) r' c = cellAt t.cols r c) ∧
        ((t.cols ++ ext).contains am.2 = true ∨ (t.cols ++ ext).contains am.1 = false) ∧
        ((t.cols ++ ext).contains (am.2 ++ "_sd") = true ∨
          (t.cols ++ ext).contains (am.1 ++ "_sd") = false) := by
  simp only []
  by_cases h1 : ¬t.cols.contains am.2 ∧ t.cols.contains am.1
  · rw [if_pos h1]
    have habs1 : am.2 ∉ t.cols := by simpa using h1.1
    obtain ⟨hnd1, hwf1⟩ := addColumnBy_wf t am.2 _ hnd hwf habs1
    by_cases h2 : ¬(addColumnBy t am.2 fun r => cellAt t.cols r am.1).cols.contains
        (am.2 ++ "_sd") ∧
        (addColumnBy t am.2 fun r => cellAt t.cols r am.1).cols.contains (am.1 ++ "_sd")
    · rw [if_pos h2]
      have habs2 : (am.2 ++ "_sd") ∉ (addColumnBy t am.2 fun r =>
          cellAt t.cols r am.1).cols := by simpa using h2.1
      obtain ⟨hnd2, hwf2⟩ := addColumnBy_wf _ (am.2 ++ "_sd")
        (fun r => cellAt (addColumnBy t am.2 fun r => cellAt t.cols r am.1).cols r
          (am.1 ++ "_sd")) hnd1 hwf1 habs2
      refine ⟨[am.2, am.2 ++ "_sd"], ?_, ?_, ?_, ?_, ?_, ?_, ?_⟩
      · rw [addColumnBy_cols, addColumnBy_cols, List.append_assoc]
        rfl
      · intro c hc
        rcases List.mem_cons.1 hc with h | h
        · exact Or.inl h
        · exact Or.inr (List.mem_singleton.1 h)
      · exact hnd2
      · intro r hr
        have := hwf2 r hr
        rw [addColumnBy_cols, addColumnBy_cols] at this
        rw [this, List.append_assoc]
        rfl
      · intro r' hr'
        rw [addColumnBy] at hr'
        obtain ⟨r1, hr1, rfl⟩ := List.mem_map.1 hr'
        rw [addColumnBy] at hr1
        obtain ⟨r0, hr0, rfl⟩ := List.mem_map.1 hr1
        refine ⟨r0, hr0, fun c hc => ?_⟩
        have e1 : (t.cols ++ [am.2, am.2 ++ "_sd"]) =
            (t.cols ++ [am.2]) ++ [am.2 ++ "_sd"] := by
          rw [List.append_assoc]
          rfl
        rw [e1]
        rw [cellAt_append_left (t.cols ++ [am.2]) (r0 ++ [cellAt t.cols r0 am.1]) _ _ c
          (List.mem_append.2 (Or.inl hc)) (by simp [hwf r0 hr0])]
        exact cellAt_append_left t.cols r0 _ _ c hc (hwf r0 hr0)
      · refine Or.inl ?_
        simp
      · refine Or.inl ?_
        simp
    · rw [if_neg h2]
      refine ⟨[am.2], ?_, ?_, ?_, ?_, ?_, ?_, ?_⟩
      · rw [addColumnBy_cols]
      · intro c hc
        exact Or.inl (List.mem_singleton.1 hc)
      · exact hnd1
      · intro r hr
        have := hwf1 r hr
        rw [addColumnBy_cols] at this
        exact this
      · intro r' hr'
        rw [addColumnBy] at hr'
        obtain ⟨r0, hr0, rfl⟩ := List.mem_map.1 hr'
        exact ⟨r0, hr0, fun c hc =>
          cellAt_append_left t.cols r0 _ _ c hc (hwf r0 hr0)⟩
      · refine Or.inl ?_
        simp
      · rcases not_and_or.1 h2 with h | h
        · refine Or.inl ?_
          rw [not_not] at h
          rw [addColumnBy_cols] at h
          exact h
        · refine Or.inr ?_
          rw [addColumnBy_cols] at h
          cases hb : (t.cols ++ [am.2]).contains (am.1 ++ "_sd")
          · rfl
          · exact absurd hb h
  · rw [if_neg h1]
    by_cases h2 : ¬t.cols.contains (am.2 ++ "_sd") ∧ t.cols.contains (am.1 ++ "_sd")
    · rw [if_pos h2]
      have habs2 : (am.2 ++ "_sd") ∉ t.cols := by simpa using h2.1
      obtain ⟨hnd2, hwf2⟩ := addColumnBy_wf t (am.2 ++ "_sd")
        (fun r => cellAt t.cols r (am.1 ++ "_sd")) hnd hwf habs2
      refine ⟨[am.2 ++ "_sd"], ?_, ?_, ?_, ?_, ?_, ?_, ?_⟩
      · rw [addColumnBy_cols]
      · intro c hc
        exact Or.inr (List.mem_singleton.1 hc)
      · exact hnd2
      · intro r hr
        have := hwf2 r hr
        rw [addColumnBy_cols] at this
        exact this
      · intro r' hr'
        rw [addColumnBy] at hr'
        obtain ⟨r0, hr0, rfl⟩ := List.mem_map.1 hr'
        exact ⟨r0, hr0, fun c hc =>
          cellAt_append_left t.cols r0 _ _ c hc (hwf r0 hr0)⟩
      · rcases not_and_or.1 h1 with h | h
        · refine Or.inl ?_
          rw [not_not] at h
          have hmm : am.2 ∈ t.cols := by simpa using h
          simp [hmm]
        · refine Or.inr ?_
          cases hb : (t.cols ++ [am.2 ++ "_sd"]).contains am.1
          · rfl
          · exfalso
            have hmem : am.1 ∈ t.cols ++ [am.2 ++ "_sd"] := by simpa using hb
            rcases List.mem_append.1 hmem with hmm | hmm
            · exact h (by simpa using hmm)
            · exact ham1sd (List.mem_singleton.1 hmm)
      · refine Or.inl ?_
        simp
    · rw [if_neg h2]
      refine ⟨[], by rw [List.append_nil],
        fun c hc => absurd hc (List.not_mem_nil c), ?_, ?_, ?_, ?_, ?_⟩
      · exact hnd
      · intro r hr
        rw [List.append_nil]
        exact hwf r hr
      · intro r' hr'
        rw [List.append_nil]
        exact ⟨r', hr', fun c _ => rfl⟩
      · rw [List.append_nil]
        rcases not_and_or.1 h1 with h | h
        · rw [not_not] at h
          exact Or.inl h
        · refine Or.inr ?_
          cases hb : t.cols.contains am.1
          · rfl
          · exact absurd hb h
      · rw [List.append_nil]
        rcases not_and_or.1 h2 with h | h
        · rw [not_not] at h
          exact Or.inl h
        · refine Or.inr ?_
          cases hb : t.cols.contains (am.1 ++ "_sd")
          · rfl
          · exact absurd hb h

theorem add_market_go (l : List (String × String)) (hsub : ∀ x ∈ l, x ∈ _MARKET_MAP) :
    ∀ t : Table, t.cols.Nodup → (∀ r ∈ t.rows, r.length = t.cols.length) →
      (∃ ext, (l.foldl
          (fun t am =>
            let t1 :=
              if ¬t.cols.contains am.2 ∧ t.cols.contains am.1 then
                addColumnBy t am.2 fun r => cellAt t.cols r am.1
              else t
            let a_sd := am.1 ++ "_sd"
            let m_sd := am.2 ++ "_sd"
            if ¬t1.cols.contains m_sd ∧ t1.cols.contains a_sd then
              addColumnBy t1 m_sd fun r => cellAt t1.cols r a_sd
            else t1) t).cols = t.cols ++ ext ∧
          ∀ c ∈ ext, ∃ am ∈ l, c = am.2 ∨ c = am.2 ++ "_sd") ∧
        (l.foldl
          (fun t am =>
            let t1 :=
              if ¬t.cols.contains am.2 ∧ t.cols.contains am.1 then
                addColumnBy t am.2 fun r => cellAt t.cols r am.1
              else t
            let a_sd := am.1 ++ "_sd"
            let m_sd := am.2 ++ "_sd"
            if ¬t1.cols.contains m_sd ∧ t1.cols.contains a_sd then
              addColumnBy t1 m_sd fun r => cellAt t1.cols r a_sd
            else t1) t).cols.Nodup ∧
        (∀ r ∈ (l.foldl
          (fun t am =>
            let t1 :=
              if ¬t.cols.contains am.2 ∧ t.cols.contains am.1 then
                addColumnBy t am.2 fun r => cellAt t.cols r am.1
              else t
            let a_sd := am.1 ++ "_sd"
            let m_sd := am.2 ++ "_sd"
            if ¬t1.cols.contains m_sd ∧ t1.cols.contains a_sd then
              addColumnBy t1 m_sd fun r => cellAt t1.cols r a_sd
            else t1) t).rows, r.length = (l.foldl
          (fun t am =>
            let t1 :=
              if ¬t.cols.contains am.2 ∧ t.cols.contains am.1 then
                addColumnBy t am.2 fun r => cellAt t.cols r am.1
              else t
            let a_sd := am.1 ++ "_sd"
            let m_sd := am.2 ++ "_sd"
            if ¬t1.cols.contains m_sd ∧ t1.cols.contains a_sd then
              addColumnBy t1 m_sd fun r => cellAt t1.cols r a_sd
            else t1) t).cols.length) ∧
        (∀ rr ∈ (l.foldl
          (fun t am =>
            let t1 :=
              if ¬t.cols.contains am.2 ∧ t.cols.contains am.1 then
                addColumnBy t am.2 fun r => cellAt t.cols r am.1
              else t
            let a_sd := am.1 ++ "_sd"
            let m_sd := am.2 ++ "_sd"
            if ¬t1.cols.contains m_sd ∧ t1.cols.contains a_sd then
              addColumnBy t1 m_sd fun r => cellAt t1.cols r a_sd
            else t1) t).rows, ∃ r ∈ t.rows,
          ∀ c ∈ t.cols, cellAt (l.foldl
            (fun t am =>
              let t1 :=
                if ¬t.cols.contains am.2 ∧ t.cols.contains am.1 then
                  addColumnBy t am.2 fun r => cellAt t.cols r am.1
                else t
              let a_sd := am.1 ++ "_sd"
              let m_sd := am.2 ++ "_sd"
              if ¬t1.cols.contains m_sd ∧ t1.cols.contains a_sd then
                addColumnBy t1 m_sd fun r => cellAt t1.cols r a_sd
              else t1) t).cols rr c = cellAt t.cols r c) ∧
        (∀ am ∈ l,
          ((l.foldl
            (fun t am =>
              let t1 :=
                if ¬t.cols.contains am.2 ∧ t.cols.contains am.1 then
                  addColumnBy t am.2 fun r => cellAt t.cols r am.1
                else t
              let a_sd := am.1 ++ "_sd"
              let m_sd := am.2 ++ "_sd"
              if ¬t1.cols.contains m_sd ∧ t1.cols.contains a_sd then
                addColumnBy t1 m_sd fun r => cellAt t1.cols r a_sd
              else t1) t).cols.contains am.2 = true ∨
            (l.foldl
            (fun t am =>
              let t1 :=
                if ¬t.cols.contains am.2 ∧ t.cols.contains am.1 then
                  addColumnBy t am.2 fun r => cellAt t.cols r am.1
                else t
              let a_sd := am.1 ++ "_sd"
              let m_sd := am.2 ++ "_sd"
              if ¬t1.cols.contains m_sd ∧ t1.cols.contains a_sd then
                addColumnBy t1 m_sd fun r => cellAt t1.cols r a_sd
              else t1) t).cols.contains am.1 = false) ∧
          ((l.foldl
            (fun t am =>
              let t1 :=
                if ¬t.cols.contains am.2 ∧ t.cols.contains am.1 then
                  addColumnBy t am.2 fun r => cellAt t.cols r am.1
                else t
              let a_sd := am.1 ++ "_sd"
              let m_sd := am.2 ++ "_sd"
              if ¬t1.cols.contains m_sd ∧ t1.cols.contains a_sd then
                addColumnBy t1 m_sd fun r => cellAt t1.cols r a_sd
              else t1) t).cols.contains (am.2 ++ "_sd") = true ∨
            (l.foldl
            (fun t am =>
              let t1 :=
                if ¬t.cols.contains am.2 ∧ t.cols.contains am.1 then
                  addColumnBy t am.2 fun r => cellAt t.cols r am.1
                else t
              let a_sd := am.1 ++ "_sd"
              let m_sd := am.2 ++ "_sd"
              if ¬t1.cols.contains m_sd ∧ t1.cols.contains a_sd then
                addColumnBy t1 m_sd fun r => cellAt t1.cols r a_sd
              else t1) t).cols.contains (am.1 ++ "_sd") = false)) := by
  induction l with
  | nil =>
    intro t hnd hwf
    exact ⟨⟨[], (List.append_nil t.cols).symm, fun c hc => absurd hc (List.not_mem_nil c)⟩,
      hnd, hwf, fun rr hrr => ⟨rr, hrr, fun c _ => rfl⟩,
      fun am ham => absurd ham (List.not_mem_nil am)⟩
  | cons am tl ih =>
    intro t hnd hwf
    have hamm : am ∈ _MARKET_MAP := hsub am (List.mem_cons_self _ _)
    have hself : ∀ x ∈ _MARKET_MAP, x.1 ≠ x.2 ++ "_sd" := by decide
    have hcross : ∀ a ∈ _MARKET_MAP, ∀ b ∈ _MARKET_MAP,
        a.1 ≠ b.2 ∧ a.1 ≠ b.2 ++ "_sd" ∧ a.1 ++ "_sd" ≠ b.2 ∧
          a.1 ++ "_sd" ≠ b.2 ++ "_sd" := by decide
    obtain ⟨e, hcolse, heme, hnde, hwfe, hcellse, hpost1e, hpost2e⟩ :=
      add_market_step_props t am hnd hwf (hself am hamm)
    rw [List.foldl_cons]
    have hwfe' : ∀ r ∈ ((fun t (am : String × String) =>
        let t1 :=
          if ¬t.cols.contains am.2 ∧ t.cols.contains am.1 then
            addColumnBy t am.2 fun r => cellAt t.cols r am.1
          else t
        let a_sd := am.1 ++ "_sd"
        let m_sd := am.2 ++ "_sd"
        if ¬t1.cols.contains m_sd ∧ t1.cols.contains a_sd then
          addColumnBy t1 m_sd fun r => cellAt t1.cols r a_sd
        else t1) t am).rows, r.length = ((fun t (am : String × String) =>
        let t1 :=
          if ¬t.cols.contains am.2 ∧ t.cols.contains am.1 then
            addColumnBy t am.2 fun r => cellAt t.cols r am.1
          else t
        let a_sd := am.1 ++ "_sd"
        let m_sd := am.2 ++ "_sd"
        if ¬t1.cols.contains m_sd ∧ t1.cols.contains a_sd then
          addColumnBy t1 m_sd fun r => cellAt t1.cols r a_sd
        else t1) t am).cols.length := by
      intro r hr
      rw [hcolse]
      exact hwfe r hr
    have hnde' : ((fun t (am : String × String) =>
        let t1 :=
          if ¬t.cols.contains am.2 ∧ t.cols.contains am.1 then
            addColumnBy t am.2 fun r => cellAt t.cols r am.1
          else t
        let a_sd := am.1 ++ "_sd"
        let m_sd := am.2 ++ "_sd"
        if ¬t1.cols.contains m_sd ∧ t1.cols.contains a_sd then
          addColumnBy t1 m_sd fun r => cellAt t1.cols r a_sd
        else t1) t am).cols.Nodup := hnde
    obtain ⟨⟨e2, hcols2, hmem2⟩, hnd2, hwf2, hcells2, hpost2⟩ :=
      ih (fun x hx => hsub x (List.mem_cons_of_mem _ hx)) _ hnde' hwfe'
    refine ⟨⟨e ++ e2, ?_, ?_⟩, hnd2, hwf2, ?_, ?_⟩
    · rw [hcols2, hcolse, List.append_assoc]
    · intro c hc
      rcases List.mem_append.1 hc with h | h
      · rcases heme c h with hcv | hcv
        · exact ⟨am, List.mem_cons_self _ _, Or.inl hcv⟩
        · exact ⟨am, List.mem_cons_self _ _, Or.inr hcv⟩
      · obtain ⟨am', ham', hcv⟩ := hmem2 c h
        exact ⟨am', List.mem_cons_of_mem _ ham', hcv⟩
    · intro rr hrr
      obtain ⟨r1, hr1, hc1⟩ := hcells2 rr hrr
      obtain ⟨r0, hr0, hc0⟩ := hcellse r1 hr1
      refine ⟨r0, hr0, fun c hc => ?_⟩
      have hcin : c ∈ ((fun t (am : String × String) =>
          let t1 :=
            if ¬t.cols.contains am.2 ∧ t.cols.contains am.1 then
              addColumnBy t am.2 fun r => cellAt t.cols r am.1
            else t
          let a_sd := am.1 ++ "_sd"
          let m_sd := am.2 ++ "_sd"
          if ¬t1.cols.contains m_sd ∧ t1.cols.contains a_sd then
            addColumnBy t1 m_sd fun r => cellAt t1.cols r a_sd
          else t1) t am).cols := by
        rw [hcolse]
        exact List.mem_append.2 (Or.inl hc)
      rw [hc1 c hcin]
      have := hc0 c hc
      rw [← hcolse] at this
      exact this
    · intro am0 ham0
      rcases List.mem_cons.1 ham0 with he0 | ht0
      · subst he0
        constructor
        · rw [hcols2, hcolse]
          rcases hpost1e with h | h
          · refine Or.inl ?_
            have hm : am0.2 ∈ t.cols ++ e := by simpa using h
            have : am0.2 ∈ t.cols ++ e ++ e2 := List.mem_append.2 (Or.inl hm)
            simpa using this
          · refine Or.inr ?_
            cases hb : (t.cols ++ e ++ e2).contains am0.1
            · rfl
            · exfalso
              have hm : am0.1 ∈ t.cols ++ e ++ e2 := by simpa using hb
              rcases List.mem_append.1 hm with hm1 | hm1
              · exact absurd (by simpa using hm1 : am0.1 ∈ t.cols ++ e) (by simpa using h)
              · obtain ⟨am', ham', hcv⟩ := hmem2 _ hm1
                have hc := hcross am0 hamm am' (hsub am' (List.mem_cons_of_mem _ ham'))
                rcases hcv with hcv | hcv
                · exact hc.1 hcv
                · exact hc.2.1 hcv
        · rw [hcols2, hcolse]
          rcases hpost2e with h | h
          · refine Or.inl ?_
            have hm : am0.2 ++ "_sd" ∈ t.cols ++ e := by simpa using h
            have : am0.2 ++ "_sd" ∈ t.cols ++ e ++ e2 := List.mem_append.2 (Or.inl hm)
            simpa using this
          · refine Or.inr ?_
            cases hb : (t.cols ++ e ++ e2).contains (am0.1 ++ "_sd")
            · rfl
            · exfalso
              have hm : am0.1 ++ "_sd" ∈ t.cols ++ e ++ e2 := by simpa using hb
              rcases List.mem_append.1 hm with hm1 | hm1
              · exact absurd (by simpa using hm1 : am0.1 ++ "_sd" ∈ t.cols ++ e)
                  (by simpa using h)
              · obtain ⟨am', ham', hcv⟩ := hmem2 _ hm1
                have hc := hcross am0 hamm am' (hsub am' (List.mem_cons_of_mem _ ham'))
                rcases hcv with hcv | hcv
                · exact hc.2.2.1 hcv
                · exact hc.2.2.2 hcv
      · exact hpost2 am0 ht0

theorem add_market_props (t : Table) (hnd : t.cols.Nodup)
    (hwf : ∀ r ∈ t.rows, r.length = t.cols.length) :
    (∃ ext, (_add_market_columns t).cols = t.cols ++ ext ∧
        ∀ c ∈ ext, ∃ am ∈ _MARKET_MAP, c = am.2 ∨ c = am.2 ++ "_sd") ∧
      (_add_market_columns t).cols.Nodup ∧
      (∀ r ∈ (_add_market_columns t).rows, r.length = (_add_market_columns t).cols.length) ∧
      (∀ rr ∈ (_add_market_columns t).rows, ∃ r ∈ t.rows,
        ∀ c ∈ t.cols, cellAt (_add_market_columns t).cols rr c = cellAt t.cols r c) ∧
      (∀ am ∈ _MARKET_MAP, ((_add_market_columns t).cols.contains am.2 = true ∨
          (_add_market_columns t).cols.contains am.1 = false) ∧
        ((_add_market_columns t).cols.contains (am.2 ++ "_sd") = true ∨
          (_add_market_columns t).cols.contains (am.1 ++ "_sd") = false)) := by
  have h := add_market_go _MARKET_MAP (fun x hx => hx) t hnd hwf
  simpa only [_add_market_columns] using h

theorem toNumeric_idem (v : Val) : toNumericCell (toNumericCell v) = toNumericCell v := by
  cases v with
  | num q => rfl
  | nan => rfl
  | str s =>
    rw [toNumericCell]
    cases pyParseFloat s with
    | none => rfl
    | some q => rfl

theorem replace_idem (v : Val) : replaceNaCell (replaceNaCell v) = replaceNaCell v := by
  cases v with
  | num q => rfl
  | nan => rfl
  | str s =>
    rw [replaceNaCell]
    by_cases h : naTokens.contains s
    · rw [if_pos h]
      rfl
    · rw [if_neg h]
      rw [replaceNaCell, if_neg h]

theorem replace_toNumeric (v : Val) : replaceNaCell (toNumericCell v) = toNumericCell v := by
  cases v with
  | num q => rfl
  | nan => rfl
  | str s =>
    rw [toNumericCell]
    cases pyParseFloat s with
    | none => rfl
    | some q => rfl

theorem mapColumn_cols (t : Table) (c : String) (f : Val → Val) :
    (mapColumn t c f).cols = t.cols := by
  rw [mapColumn]
  cases t.cols.indexOf? c <;> rfl

theorem getD_set_self {r : List Val} {i : ℕ} {x d : Val} (h : i < r.length) :
    (r.set i x).getD i d = x := by
  rw [List.getD_eq_getElem _ d (by rw [List.length_set]; exact h)]
  exact List.getElem_set_self _

theorem coerce_step_props (t : Table) (c0 : String)
    (hwf : ∀ r ∈ t.rows, r.length = t.cols.length) :
    (((if t.cols.contains c0 then mapColumn t c0 toNumericCell else t)).cols = t.cols) ∧
      (∀ r ∈ (if t.cols.contains c0 then mapColumn t c0 toNumericCell else t).rows,
        r.length = t.cols.length) ∧
      (∀ r ∈ (if t.cols.contains c0 then mapColumn t c0 toNumericCell else t).rows,
        toNumericCell (cellAt t.cols r c0) = cellAt t.cols r c0) ∧
      (∀ c, c ≠ c0 →
        ∀ rr ∈ (if t.cols.contains c0 then mapColumn t c0 toNumericCell else t).rows,
          ∃ r ∈ t.rows, cellAt t.cols rr c = cellAt t.cols r c) ∧
      (∀ P : Val → Prop, (∀ v, P (toNumericCell v)) → (∀ r ∈ t.rows, ∀ v ∈ r, P v) →
        ∀ r ∈ (if t.cols.contains c0 then mapColumn t c0 toNumericCell else t).rows,
          ∀ v ∈ r, P v) := by
  by_cases hc : t.cols.contains c0
  · rw [if_pos hc]
    rw [mapColumn]
    cases hidx : t.cols.indexOf? c0 with
    | none =>
      exfalso
      rw [List.indexOf?] at hidx
      have := List.findIdx?_eq_none_iff.1 hidx c0 (by simpa using hc)
      simp at this
    | some i =>
      have hi : i < t.cols.length := (indexOf?_some_spec hidx).1
      refine ⟨rfl, ?_, ?_, ?_, ?_⟩
      · intro r hr
        obtain ⟨r0, hr0, rfl⟩ := List.mem_map.1 hr
        rw [List.length_set]
        exact hwf r0 hr0
      · intro r hr
        obtain ⟨r0, hr0, rfl⟩ := List.mem_map.1 hr
        have hred : cellAt t.cols (r0.set i (toNumericCell (r0.getD i Val.nan))) c0 =
            (r0.set i (toNumericCell (r0.getD i Val.nan))).getD i Val.nan := by
          rw [cellAt, hidx]
        rw [hred, getD_set_self (by rw [hwf r0 hr0]; exact hi)]
        exact toNumeric_idem _
      · intro c hne rr hrr
        obtain ⟨r0, hr0, rfl⟩ := List.mem_map.1 hrr
        exact ⟨r0, hr0, cellAt_set_ne hidx hne⟩
      · intro P hPn hP r hr
        obtain ⟨r0, hr0, rfl⟩ := List.mem_map.1 hr
        intro v hv
        rcases List.mem_or_eq_of_mem_set hv with h | h
        · exact hP r0 hr0 v h
        · rw [h]
          exact hPn _
  · rw [if_neg hc]
    have habs : t.cols.contains c0 = false := by
      cases hb : t.cols.contains c0
      · rfl
      · exact absurd hb hc
    refine ⟨rfl, hwf, ?_, ?_, ?_⟩
    · intro r _
      rw [cellAt_not_mem t.cols r c0 habs]
      rfl
    · intro c _ rr hrr
      exact ⟨rr, hrr, rfl⟩
    · intro P _ hP r hr v hv
      exact hP r hr v hv

theorem coerce_fold_props (L : List String) : ∀ t : Table,
    (∀ r ∈ t.rows, r.length = t.cols.length) →
      ((L.foldl (fun acc c => if acc.cols.contains c then mapColumn acc c toNumericCell
          else acc) t).cols = t.cols) ∧
      (∀ r ∈ (L.foldl (fun acc c => if acc.cols.contains c then mapColumn acc c toNumericCell
          else acc) t).rows, r.length = t.cols.length) ∧
      (∀ c ∈ L, ∀ r ∈ (L.foldl (fun acc c => if acc.cols.contains c then
          mapColumn acc c toNumericCell else acc) t).rows,
        toNumericCell (cellAt t.cols r c) = cellAt t.cols r c) ∧
      (∀ c, (∀ r ∈ t.rows, toNumericCell (cellAt t.cols r c) = cellAt t.cols r c) →
        ∀ r ∈ (L.foldl (fun acc c => if acc.cols.contains c then
            mapColumn acc c toNumericCell else acc) t).rows,
          toNumericCell (cellAt t.cols r c) = cellAt t.cols r c) ∧
      (∀ c, c ∉ L → ∀ rr ∈ (L.foldl (fun acc c => if acc.cols.contains c then
          mapColumn acc c toNumericCell else acc) t).rows,
        ∃ r ∈ t.rows, cellAt t.cols rr c = cellAt t.cols r c) ∧
      (∀ P : Val → Prop, (∀ v, P (toNumericCell v)) → (∀ r ∈ t.rows, ∀ v ∈ r, P v) →
        ∀ r ∈ (L.foldl (fun acc c => if acc.cols.contains c then
            mapColumn acc c toNumericCell else acc) t).rows, ∀ v ∈ r, P v) := by
  induction L with
  | nil =>
    intro t hwf
    exact ⟨rfl, hwf, fun c hc => absurd hc (List.not_mem_nil c),
      fun c hfix => hfix, fun c _ rr hrr => ⟨rr, hrr, rfl⟩,
      fun P _ hP => hP⟩
  | cons c0 L' ih =>
    intro t hwf
    obtain ⟨hcols1, hwf1, hfix0, hprov1, hP1⟩ := coerce_step_props t c0 hwf
    rw [List.foldl_cons]
    have hwf1' : ∀ r ∈ (if t.cols.contains c0 then mapColumn t c0 toNumericCell else t).rows,
        r.length = (if t.cols.contains c0 then mapColumn t c0 toNumericCell else t).cols.length := by
      intro r hr
      rw [hcols1]
      exact hwf1 r hr
    obtain ⟨hcols2, hwf2, hest2, hpres2, hprov2, hP2⟩ := ih _ hwf1'
    simp only [hcols1] at hcols2 hwf2 hest2 hpres2 hprov2 hP2
    refine ⟨hcols2, hwf2, ?_, ?_, ?_, ?_⟩
    · intro c hc
      rcases List.mem_cons.1 hc with he | ht
      · subst he
        exact hpres2 c hfix0
      · exact hest2 c ht
    · intro c hfix
      refine hpres2 c ?_
      intro r hr
      by_cases hcc : c = c0
      · subst hcc
        exact hfix0 r hr
      · obtain ⟨r1, hr1, hcell⟩ := hprov1 c hcc r hr
        rw [hcell]
        exact hfix r1 hr1
    · intro c hc rr hrr
      have hcc : c ≠ c0 := fun he => hc (he ▸ List.mem_cons_self _ _)
      have hcl : c ∉ L' := fun he => hc (List.mem_cons_of_mem _ he)
      obtain ⟨r1, hr1, hcell1⟩ := hprov2 c hcl rr hrr
      obtain ⟨r0, hr0, hcell0⟩ := hprov1 c hcc r1 hr1
      exact ⟨r0, hr0, hcell1.trans hcell0⟩
    · intro P hPn hP
      exact hP2 P hPn (hP1 P hPn hP)

theorem coerce_props (t : Table) (hnd : t.cols.Nodup)
    (hwf : ∀ r ∈ t.rows, r.length = t.cols.length) :
    (_coerce_numeric t).cols = t.cols ∧
      (_coerce_numeric t).cols.Nodup ∧
      (∀ r ∈ (_coerce_numeric t).rows, r.length = t.cols.length) ∧
      (∀ c ∈ numericCandidates, ∀ r ∈ (_coerce_numeric t).rows,
        toNumericCell (cellAt t.cols r c) = cellAt t.cols r c) ∧
      (∀ r ∈ (_coerce_numeric t).rows, ∀ v ∈ r, replaceNaCell v = v) ∧
      (∀ c, c ∉ numericCandidates → ∀ rr ∈ (_coerce_numeric t).rows,
        ∃ r ∈ t.rows, cellAt t.cols rr c = replaceNaCell (cellAt t.cols r c)) := by
  have ht1cols : ({ t with rows := t.rows.map fun r => r.map replaceNaCell } : Table).cols
      = t.cols := rfl
  have ht1wf : ∀ r ∈ ({ t with rows := t.rows.map fun r => r.map replaceNaCell } : Table).rows,
      r.length = ({ t with rows := t.rows.map fun r => r.map replaceNaCell } : Table).cols.length := by
    intro r hr
    obtain ⟨r0, hr0, rfl⟩ := List.mem_map.1 hr
    rw [List.length_map]
    exact hwf r0 hr0
  obtain ⟨hcols, hwfF, hest, hpres, hprov, hP⟩ :=
    coerce_fold_props
      (_MARKET_MAP.map (·.2) ++
        (_MARKET_MAP.map (·.2)).flatMap fun v =>
          if ({ t with rows := t.rows.map fun r => r.map replaceNaCell } : Table).cols.contains
              (v ++ "_sd") then [v ++ "_sd"] else [])
      ({ t with rows := t.rows.map fun r => r.map replaceNaCell } : Table) ht1wf
  have hLsub : ∀ c ∈ (_MARKET_MAP.map (·.2) ++
      (_MARKET_MAP.map (·.2)).flatMap fun v =>
        if ({ t with rows := t.rows.map fun r => r.map replaceNaCell } : Table).cols.contains
            (v ++ "_sd") then [v ++ "_sd"] else []), c ∈ numericCandidates := by
    intro c hc
    rcases List.mem_append.1 hc with h | h
    · exact List.mem_append.2 (Or.inl h)
    · obtain ⟨v, hv, hin⟩ := List.mem_flatMap.1 h
      by_cases hsd : ({ t with rows := t.rows.map fun r => r.map replaceNaCell } :
          Table).cols.contains (v ++ "_sd") = true
      · rw [if_pos hsd] at hin
        cases List.mem_singleton.1 hin
        exact List.mem_append.2 (Or.inr (List.mem_map.2 ⟨v, hv, rfl⟩))
      · rw [if_neg hsd] at hin
        cases hin
  have hgoal : _coerce_numeric t =
      (_MARKET_MAP.map (·.2) ++
        (_MARKET_MAP.map (·.2)).flatMap fun v =>
          if ({ t with rows := t.rows.map fun r => r.map replaceNaCell } : Table).cols.contains
              (v ++ "_sd") then [v ++ "_sd"] else []).foldl
        (fun acc c => if acc.cols.contains c then mapColumn acc c toNumericCell else acc)
        ({ t with rows := t.rows.map fun r => r.map replaceNaCell } : Table) := by
    rw [_coerce_numeric]
  rw [hgoal]
  refine ⟨hcols, by rw [hcols]; exact hnd, hwfF, ?_, ?_, ?_⟩
  · intro c hcand r hr
    rcases List.mem_append.1 hcand with h | h
    · exact hest c (List.mem_append.2 (Or.inl h)) r hr
    · obtain ⟨v, hv, rfl⟩ := List.mem_map.1 h
      by_cases hsd : ({ t with rows := t.rows.map fun r => r.map replaceNaCell } :
          Table).cols.contains (v ++ "_sd") = true
      · refine hest _ (List.mem_append.2 (Or.inr ?_)) r hr
        exact List.mem_flatMap.2 ⟨v, hv, by rw [if_pos hsd]; exact List.mem_singleton.2 rfl⟩
      · have habs : t.cols.contains (v ++ "_sd") = false := by
          cases hb : t.cols.contains (v ++ "_sd")
          · rfl
          · exact absurd hb hsd
        rw [cellAt_not_mem t.cols r _ habs]
        rfl
  · refine hP (fun v => replaceNaCell v = v) replace_toNumeric ?_
    intro r hr v hv
    obtain ⟨r0, _, rfl⟩ := List.mem_map.1 hr
    obtain ⟨v0, _, rfl⟩ := List.mem_map.1 hv
    exact replace_idem v0
  · intro c hcand rr hrr
    obtain ⟨r1, hr1, hcell⟩ := hprov c (fun hin => hcand (hLsub c hin)) rr hrr
    obtain ⟨r0, hr0, rfl⟩ := List.mem_map.1 hr1
    refine ⟨r0, hr0, ?_⟩
    rw [hcell]
    exact cellAt_map rfl

theorem addCombo_shape_sum (t : Table) (combo : String) (comps : List String) :
    addComboSum t combo comps = t ∨
      (t.cols.contains combo = false ∧ ∃ g : List Val → Val,
        (∀ r, ∃ q : ℚ, g r = Val.num q) ∧ addComboSum t combo comps = addColumnBy t combo g) := by
  rw [addComboSum]
  by_cases hc : t.cols.contains combo = true
  · rw [if_pos hc]
    exact Or.inl rfl
  · have hcf : t.cols.contains combo = false := by
      cases hb : t.cols.contains combo
      · rfl
      · exact absurd hb hc
    rw [if_neg hc]
    by_cases he : (comps.filter fun c => t.cols.contains c).isEmpty = true
    · rw [if_pos he]
      exact Or.inl rfl
    · rw [if_neg he]
      exact Or.inr ⟨hcf, _, fun r => ⟨_, rfl⟩, rfl⟩

theorem addCombo_shape_sd (sq : ℚ → ℚ) (t : Table) (combo_sd : String) (compsSd : List String) :
    addComboSd sq t combo_sd compsSd = t ∨
      (t.cols.contains combo_sd = false ∧ ∃ g : List Val → Val,
        (∀ r, ∃ q : ℚ, g r = Val.num q) ∧
          addComboSd sq t combo_sd compsSd = addColumnBy t combo_sd g) := by
  rw [addComboSd]
  by_cases hc : t.cols.contains combo_sd = true
  · rw [if_pos hc]
    exact Or.inl rfl
  · have hcf : t.cols.contains combo_sd = false := by
      cases hb : t.cols.contains combo_sd
      · rfl
      · exact absurd hb hc
    rw [if_neg hc]
    by_cases he : (compsSd.filter fun c => t.cols.contains c).isEmpty = true
    · rw [if_pos he]
      exact Or.inl rfl
    · rw [if_neg he]
      exact Or.inr ⟨hcf, _, fun r => ⟨_, rfl⟩, rfl⟩

theorem addCombo_post_sum (t : Table) (combo : String) (comps : List String) :
    (addComboSum t combo comps).cols.contains combo = true ∨
      ∀ cc ∈ comps, (addComboSum t combo comps).cols.contains cc = false := by
  rw [addComboSum]
  by_cases hc : t.cols.contains combo = true
  · rw [if_pos hc]
    exact Or.inl hc
  · rw [if_neg hc]
    by_cases he : (comps.filter fun c => t.cols.contains c).isEmpty = true
    · rw [if_pos he]
      refine Or.inr fun cc hcc => ?_
      have hnil := List.isEmpty_iff.1 he
      have := List.filter_eq_nil_iff.1 hnil cc hcc
      cases hb : t.cols.contains cc
      · rfl
      · exact absurd hb this
    · rw [if_neg he]
      refine Or.inl ?_
      rw [addColumnBy_cols]
      have : combo ∈ t.cols ++ [combo] := List.mem_append.2 (Or.inr (List.mem_singleton.2 rfl))
      simpa using this

theorem addCombo_post_sd (sq : ℚ → ℚ) (t : Table) (combo_sd : String) (compsSd : List String) :
    (addComboSd sq t combo_sd compsSd).cols.contains combo_sd = true ∨
      ∀ cc ∈ compsSd, (addComboSd sq t combo_sd compsSd).cols.contains cc = false := by
  rw [addComboSd]
  by_cases hc : t.cols.contains combo_sd = true
  · rw [if_pos hc]
    exact Or.inl hc
  · rw [if_neg hc]
    by_cases he : (compsSd.filter fun c => t.cols.contains c).isEmpty = true
    · rw [if_pos he]
      refine Or.inr fun cc hcc => ?_
      have hnil := List.isEmpty_iff.1 he
      have := List.filter_eq_nil_iff.1 hnil cc hcc
      cases hb : t.cols.contains cc
      · rfl
      · exact absurd hb this
    · rw [if_neg he]
      refine Or.inl ?_
      rw [addColumnBy_cols]
      have : combo_sd ∈ t.cols ++ [combo_sd] :=
        List.mem_append.2 (Or.inr (List.mem_singleton.2 rfl))
      simpa using this

theorem combo_step_props {t X : Table} {combo : String}
    (hX : X = t ∨ (t.cols.contains combo = false ∧ ∃ g : List Val → Val,
      (∀ r, ∃ q : ℚ, g r = Val.num q) ∧ X = addColumnBy t combo g))
    (hnd : t.cols.Nodup) (hwf : ∀ r ∈ t.rows, r.length = t.cols.length) :
    X.cols.Nodup ∧ (∀ r ∈ X.rows, r.length = X.cols.length) ∧
      (∀ c, c ∈ t.cols → c ∈ X.cols) ∧
      (∀ c, c ∈ X.cols → c ∈ t.cols ∨ c = combo) ∧
      (∀ rr ∈ X.rows, ∃ r ∈ t.rows, ∀ c ∈ t.cols, cellAt X.cols rr c = cellAt t.cols r c) ∧
      (∀ P : Val → Prop, (∀ q : ℚ, P (.num q)) → (∀ r ∈ t.rows, ∀ v ∈ r, P v) →
        ∀ rr ∈ X.rows, ∀ v ∈ rr, P v) ∧
      (∀ c, (∀ r ∈ t.rows, toNumericCell (cellAt t.cols r c) = cellAt t.cols r c) →
        ∀ rr ∈ X.rows, toNumericCell (cellAt X.cols rr c) = cellAt X.cols rr c) := by
  rcases hX with rfl | ⟨hcf, g, hg, rfl⟩
  · exact ⟨hnd, hwf, fun c hc => hc, fun c hc => Or.inl hc,
      fun rr hrr => ⟨rr, hrr, fun c _ => rfl⟩,
      fun P _ hP => hP, fun c hfix => hfix⟩
  · have habs : combo ∉ t.cols := by simpa using hcf
    obtain ⟨hnd', hwf'⟩ := addColumnBy_wf t combo g hnd hwf habs
    refine ⟨hnd', hwf', ?_, ?_, ?_, ?_, ?_⟩
    · intro c hc
      rw [addColumnBy_cols]
      exact List.mem_append.2 (Or.inl hc)
    · intro c hc
      rw [addColumnBy_cols] at hc
      rcases List.mem_append.1 hc with h | h
      · exact Or.inl h
      · exact Or.inr (List.mem_singleton.1 h)
    · intro rr hrr
      rw [addColumnBy] at hrr
      obtain ⟨r0, hr0, rfl⟩ := List.mem_map.1 hrr
      exact ⟨r0, hr0, fun c hc =>
        cellAt_append_left t.cols r0 _ _ c hc (hwf r0 hr0)⟩
    · intro P hPn hP rr hrr
      rw [addColumnBy] at hrr
      obtain ⟨r0, hr0, rfl⟩ := List.mem_map.1 hrr
      intro v hv
      rcases List.mem_append.1 hv with h | h
      · exact hP r0 hr0 v h
      · obtain ⟨q, hq⟩ := hg r0
        rw [List.mem_singleton.1 h, hq]
        exact hPn q
    · intro c hfix rr hrr
      rw [addColumnBy] at hrr
      obtain ⟨r0, hr0, rfl⟩ := List.mem_map.1 hrr
      by_cases hcc : c = combo
      · subst hcc
        rw [addColumnBy_cols,
          cellAt_append_self t.cols r0 c (g r0) hcf (hwf r0 hr0)]
        obtain ⟨q, hq⟩ := hg r0
        rw [hq]
        rfl
      · by_cases hin : c ∈ t.cols
        · rw [addColumnBy_cols,
            cellAt_append_left t.cols r0 _ _ c hin (hwf r0 hr0)]
          exact hfix r0 hr0
        · have hnm : (t.cols ++ [combo]).contains c = false := by
            cases hb : (t.cols ++ [combo]).contains c
            · rfl
            · exfalso
              have : c ∈ t.cols ++ [combo] := by simpa using hb
              rcases List.mem_append.1 this with h | h
              · exact hin h
              · exact hcc (List.mem_singleton.1 h)
          rw [addColumnBy_cols, cellAt_not_mem _ _ _ hnm]
          rfl

theorem combos_props (sq : ℚ → ℚ) (t : Table) (hnd : t.cols.Nodup)
    (hwf : ∀ r ∈ t.rows, r.length = t.cols.length) :
    (combosStage sq t).cols.Nodup ∧
      (∀ r ∈ (combosStage sq t).rows, r.length = (combosStage sq t).cols.length) ∧
      (∀ c, c ∈ t.cols → c ∈ (combosStage sq t).cols) ∧
      (∀ c, c ∈ (combosStage sq t).cols → c ∈ t.cols ∨
        c ∈ (["player_pass_rush_yds", "player_pass_rush_yds_sd",
          "player_pass_rush_reception_yds", "player_pass_rush_reception_yds_sd"] :
            List String)) ∧
      (∀ rr ∈ (combosStage sq t).rows, ∃ r ∈ t.rows,
        ∀ c ∈ t.cols, cellAt (combosStage sq t).cols rr c = cellAt t.cols r c) ∧
      (∀ P : Val → Prop, (∀ q : ℚ, P (.num q)) → (∀ r ∈ t.rows, ∀ v ∈ r, P v) →
        ∀ rr ∈ (combosStage sq t).rows, ∀ v ∈ rr, P v) ∧
      (∀ c, (∀ r ∈ t.rows, toNumericCell (cellAt t.cols r c) = cellAt t.cols r c) →
        ∀ rr ∈ (combosStage sq t).rows,
          toNumericCell (cellAt (combosStage sq t).cols rr c) =
            cellAt (combosStage sq t).cols rr c) ∧
      ((combosStage sq t).cols.contains "player_pass_rush_yds" = true ∨
        ∀ cc ∈ (["player_pass_yds", "player_rush_yds"] : List String),
          (combosStage sq t).cols.contains cc = false) ∧
      ((combosStage sq t).cols.contains "player_pass_rush_yds_sd" = true ∨
        ∀ cc ∈ (["player_pass_yds_sd", "player_rush_yds_sd"] : List String),
          (combosStage sq t).cols.contains cc = false) ∧
      ((combosStage sq t).cols.contains "player_pass_rush_reception_yds" = true ∨
        ∀ cc ∈ (["player_pass_yds", "player_rush_yds", "player_reception_yds"] : List String),
          (combosStage sq t).cols.contains cc = false) ∧
      ((combosStage sq t).cols.contains "player_pass_rush_reception_yds_sd" = true ∨
        ∀ cc ∈ (["player_pass_yds_sd", "player_rush_yds_sd", "player_reception_yds_sd"] :
            List String),
          (combosStage sq t).cols.contains cc = false) := by
  obtain ⟨hnd5, hwf5, hf5, hb5, hcell5, hP5, hfix5⟩ :=
    combo_step_props (addCombo_shape_sum t "player_pass_rush_yds"
      ["player_pass_yds", "player_rush_yds"]) hnd hwf
  obtain ⟨hnd6, hwf6, hf6, hb6, hcell6, hP6, hfix6⟩ :=
    combo_step_props (addCombo_shape_sd sq _ "player_pass_rush_yds_sd"
      ["player_pass_yds_sd", "player_rush_yds_sd"]) hnd5 hwf5
  obtain ⟨hnd7, hwf7, hf7, hb7, hcell7, hP7, hfix7⟩ :=
    combo_step_props (addCombo_shape_sum _ "player_pass_rush_reception_yds"
      ["player_pass_yds", "player_rush_yds", "player_reception_yds"]) hnd6 hwf6
  obtain ⟨hnd8, hwf8, hf8, hb8, hcell8, hP8, hfix8⟩ :=
    combo_step_props (addCombo_shape_sd sq _ "player_pass_rush_reception_yds_sd"
      ["player_pass_yds_sd", "player_rush_yds_sd", "player_reception_yds_sd"]) hnd7 hwf7
  have hfwd : ∀ c, c ∈ t.cols → c ∈ (combosStage sq t).cols := by
    intro c hc
    exact hf8 c (hf7 c (hf6 c (hf5 c hc)))
  have hbwd : ∀ c, c ∈ (combosStage sq t).cols → c ∈ t.cols ∨
      c ∈ (["player_pass_rush_yds", "player_pass_rush_yds_sd",
        "player_pass_rush_reception_yds", "player_pass_rush_reception_yds_sd"] :
          List String) := by
    intro c hc
    rcases hb8 c hc with h | h
    · rcases hb7 c h with h | h
      · rcases hb6 c h with h | h
        · rcases hb5 c h with h | h
          · exact Or.inl h
          · exact Or.inr (by rw [h]; decide)
        · exact Or.inr (by rw [h]; decide)
      · exact Or.inr (by rw [h]; decide)
    · exact Or.inr (by rw [h]; decide)
  have hcells : ∀ rr ∈ (combosStage sq t).rows, ∃ r ∈ t.rows,
      ∀ c ∈ t.cols, cellAt (combosStage sq t).cols rr c = cellAt t.cols r c := by
    intro rr hrr
    obtain ⟨r7, hr7, hc8⟩ := hcell8 rr hrr
    obtain ⟨r6, hr6, hc7⟩ := hcell7 r7 hr7
    obtain ⟨r5, hr5, hc6⟩ := hcell6 r6 hr6
    obtain ⟨r0, hr0, hc5⟩ := hcell5 r5 hr5
    refine ⟨r0, hr0, fun c hc => ?_⟩
    exact (hc8 c (hf7 c (hf6 c (hf5 c hc)))).trans
      ((hc7 c (hf6 c (hf5 c hc))).trans ((hc6 c (hf5 c hc)).trans (hc5 c hc)))
  have hbwd5 : ∀ c, c ∈ (combosStage sq t).cols →
      c ∈ (addComboSum t "player_pass_rush_yds" ["player_pass_yds", "player_rush_yds"]).cols ∨
        c ∈ (["player_pass_rush_yds_sd", "player_pass_rush_reception_yds",
          "player_pass_rush_reception_yds_sd"] : List String) := by
    intro c hc
    rcases hb8 c hc with h | h
    · rcases hb7 c h with h | h
      · rcases hb6 c h with h | h
        · exact Or.inl h
        · exact Or.inr (by rw [h]; decide)
      · exact Or.inr (by rw [h]; decide)
    · exact Or.inr (by rw [h]; decide)
  have hbwd6 : ∀ c, c ∈ (combosStage sq t).cols →
      c ∈ (addComboSd sq (addComboSum t "player_pass_rush_yds"
          ["player_pass_yds", "player_rush_yds"]) "player_pass_rush_yds_sd"
          ["player_pass_yds_sd", "player_rush_yds_sd"]).cols ∨
        c ∈ (["player_pass_rush_reception_yds", "player_pass_rush_reception_yds_sd"] :
          List String) := by
    intro c hc
    rcases hb8 c hc with h | h
    · rcases hb7 c h with h | h
      · exact Or.inl h
      · exact Or.inr (by rw [h]; decide)
    · exact Or.inr (by rw [h]; decide)
  have hbwd7 : ∀ c, c ∈ (combosStage sq t).cols →
      c ∈ (addComboSum (addComboSd sq (addComboSum t "player_pass_rush_yds"
          ["player_pass_yds", "player_rush_yds"]) "player_pass_rush_yds_sd"
          ["player_pass_yds_sd", "player_rush_yds_sd"]) "player_pass_rush_reception_yds"
          ["player_pass_yds", "player_rush_yds", "player_reception_yds"]).cols ∨
        c ∈ (["player_pass_rush_reception_yds_sd"] : List String) := by
    intro c hc
    rcases hb8 c hc with h | h
    · exact Or.inl h
    · exact Or.inr (by rw [h]; decide)
  refine ⟨hnd8, hwf8, hfwd, hbwd, hcells,
    fun P hPn hP rr hrr => hP8 P hPn (hP7 P hPn (hP6 P hPn (hP5 P hPn hP))) rr hrr,
    fun c hfix => hfix8 c (hfix7 c (hfix6 c (hfix5 c hfix))), ?_, ?_, ?_, ?_⟩
  · rcases addCombo_post_sum t "player_pass_rush_yds"
        ["player_pass_yds", "player_rush_yds"] with h | h
    · refine Or.inl ?_
      have : "player_pass_rush_yds" ∈ (combosStage sq t).cols :=
        hf8 _ (hf7 _ (hf6 _ (by simpa using h)))
      simpa using this
    · refine Or.inr fun cc hcc => ?_
      cases hb : (combosStage sq t).cols.contains cc
      · rfl
      · exfalso
        have hm : cc ∈ (combosStage sq t).cols := by simpa using hb
        rcases hbwd5 cc hm with hmm | hmm
        · exact absurd (by simpa using hmm : (addComboSum t "player_pass_rush_yds"
            ["player_pass_yds", "player_rush_yds"]).cols.contains cc = true)
            (by rw [h cc hcc]; exact Bool.false_ne_true)
        · have hdec : ∀ cc0 ∈ (["player_pass_yds", "player_rush_yds"] : List String),
              cc0 ∉ (["player_pass_rush_yds_sd", "player_pass_rush_reception_yds",
                "player_pass_rush_reception_yds_sd"] : List String) := by decide
          exact hdec cc hcc hmm
  · rcases addCombo_post_sd sq (addComboSum t "player_pass_rush_yds"
        ["player_pass_yds", "player_rush_yds"]) "player_pass_rush_yds_sd"
        ["player_pass_yds_sd", "player_rush_yds_sd"] with h | h
    · refine Or.inl ?_
      have : "player_pass_rush_yds_sd" ∈ (combosStage sq t).cols :=
        hf8 _ (hf7 _ (by simpa using h))
      simpa using this
    · refine Or.inr fun cc hcc => ?_
      cases hb : (combosStage sq t).cols.contains cc
      · rfl
      · exfalso
        have hm : cc ∈ (combosStage sq t).cols := by simpa using hb
        rcases hbwd6 cc hm with hmm | hmm
        · exact absurd (by simpa using hmm : (addComboSd sq (addComboSum t
            "player_pass_rush_yds" ["player_pass_yds", "player_rush_yds"])
            "player_pass_rush_yds_sd" ["player_pass_yds_sd", "player_rush_yds_sd"]).cols.contains
              cc = true)
            (by rw [h cc hcc]; exact Bool.false_ne_true)
        · have hdec : ∀ cc0 ∈ (["player_pass_yds_sd", "player_rush_yds_sd"] : List String),
              cc0 ∉ (["player_pass_rush_reception_yds",
                "player_pass_rush_reception_yds_sd"] : List String) := by decide
          exact hdec cc hcc hmm
  · rcases addCombo_post_sum (addComboSd sq (addComboSum t "player_pass_rush_yds"
        ["player_pass_yds", "player_rush_yds"]) "player_pass_rush_yds_sd"
        ["player_pass_yds_sd", "player_rush_yds_sd"]) "player_pass_rush_reception_yds"
        ["player_pass_yds", "player_rush_yds", "player_reception_yds"] with h | h
    · refine Or.inl ?_
      have : "player_pass_rush_reception_yds" ∈ (combosStage sq t).cols :=
        hf8 _ (by simpa using h)
      simpa using this
    · refine Or.inr fun cc hcc => ?_
      cases hb : (combosStage sq t).cols.contains cc
      · rfl
      · exfalso
        have hm : cc ∈ (combosStage sq t).cols := by simpa using hb
        rcases hbwd7 cc hm with hmm | hmm
        · exact absurd (by simpa using hmm : (addComboSum (addComboSd sq (addComboSum t
            "player_pass_rush_yds" ["player_pass_yds", "player_rush_yds"])
            "player_pass_rush_yds_sd" ["player_pass_yds_sd", "player_rush_yds_sd"])
            "player_pass_rush_reception_yds"
            ["player_pass_yds", "player_rush_yds", "player_reception_yds"]).cols.contains
              cc = true)
            (by rw [h cc hcc]; exact Bool.false_ne_true)
        · have hdec : ∀ cc0 ∈ (["player_pass_yds", "player_rush_yds",
              "player_reception_yds"] : List String),
              cc0 ∉ (["player_pass_rush_reception_yds_sd"] : List String) := by decide
          exact hdec cc hcc hmm
  · rcases addCombo_post_sd sq (addComboSum (addComboSd sq (addComboSum t
        "player_pass_rush_yds" ["player_pass_yds", "player_rush_yds"])
        "player_pass_rush_yds_sd" ["player_pass_yds_sd", "player_rush_yds_sd"])
        "player_pass_rush_reception_yds"
        ["player_pass_yds", "player_rush_yds", "player_reception_yds"])
        "player_pass_rush_reception_yds_sd"
        ["player_pass_yds_sd", "player_rush_yds_sd", "player_reception_yds_sd"] with h | h
    · refine Or.inl ?_
      exact h
    · exact Or.inr h

theorem keepPos_replace {v : Val}
    (h : _KEEP_POS.contains (strUpper (pyValStr v)) = true) : replaceNaCell v = v := by
  cases v with
  | num q => rfl
  | nan => rfl
  | str s =>
    rw [replaceNaCell]
    by_cases ht : naTokens.contains s
    · exfalso
      have hdec : ∀ s0 ∈ naTokens, _KEEP_POS.contains (strUpper (pyValStr (Val.str s0))) =
          false := by decide
      have hs : s ∈ naTokens := by simpa using ht
      rw [hdec s hs] at h
      exact Bool.false_ne_true h
    · rw [if_neg ht]

theorem cellAt_mem_or_nan (cols : List String) (r : List Val) (c : String) :
    cellAt cols r c ∈ r ∨ cellAt cols r c = Val.nan := by
  rw [cellAt]
  cases hidx : cols.indexOf? c with
  | none => exact Or.inr rfl
  | some i =>
    by_cases hi : i < r.length
    · refine Or.inl ?_
      show r.getD i Val.nan ∈ r
      rw [List.getD_eq_getElem r Val.nan hi]
      exact List.getElem_mem hi
    · refine Or.inr ?_
      show r.getD i Val.nan = Val.nan
      exact List.getD_eq_default r Val.nan (by omega)

theorem renamePairs_eq_nil_of {cols : List String}
    (h : ∀ wa ∈ headerAlts, wa.1 ∈ cols ∨ ∀ al ∈ wa.2, al ∉ cols) :
    renamePairs cols = [] := by
  rw [renamePairs, List.flatMap_eq_nil_iff]
  intro wa hwa
  by_cases hc : cols.contains wa.1 = true
  · rw [if_pos hc]
  · rw [if_neg hc]
    rcases h wa hwa with hw | hw
    · exact absurd (by simpa using hw) hc
    · rw [List.find?_eq_none.2 fun al hal => by simpa using hw al hal]

theorem dropStage_props (t : Table) (hnd : t.cols.Nodup)
    (hwf : ∀ r ∈ t.rows, r.length = t.cols.length) :
    (dropStage t).cols.Nodup ∧
      (∀ r ∈ (dropStage t).rows, r.length = (dropStage t).cols.length) ∧
      (∀ c, c ∈ (dropStage t).cols ↔ c ∈ t.cols ∧ c ∉ _DROP_COLS) ∧
      (∀ rr ∈ (dropStage t).rows, ∃ r ∈ t.rows,
        ∀ c ∈ (dropStage t).cols, cellAt (dropStage t).cols rr c = cellAt t.cols r c) := by
  rw [dropStage]
  by_cases he : (_DROP_COLS.filter fun c => t.cols.contains c).isEmpty = true
  · rw [if_pos he]
    have hnil := List.isEmpty_iff.1 he
    have habs : ∀ d ∈ _DROP_COLS, t.cols.contains d = false := by
      intro d hd
      have := List.filter_eq_nil_iff.1 hnil d hd
      cases hb : t.cols.contains d
      · rfl
      · exact absurd hb this
    refine ⟨hnd, hwf, ?_, fun rr hrr => ⟨rr, hrr, fun c _ => rfl⟩⟩
    intro c
    constructor
    · intro hc
      refine ⟨hc, fun hd => ?_⟩
      have h1 : t.cols.contains c = true := by simpa using hc
      rw [habs c hd] at h1
      exact Bool.false_ne_true h1
    · exact fun h => h.1
  · rw [if_neg he]
    rw [dropColsTable]
    have hsel : ∀ names : List String, names = t.cols.filter
        (fun c => ¬_DROP_COLS.contains c) → True := fun _ _ => trivial
    refine ⟨?_, ?_, ?_, ?_⟩
    · exact List.Nodup.filter _ hnd
    · intro r hr
      rw [selectColsTable] at hr
      obtain ⟨r0, _, rfl⟩ := List.mem_map.1 hr
      simp [selectColsTable]
    · intro c
      rw [show (selectColsTable t (t.cols.filter fun c => ¬_DROP_COLS.contains c)).cols =
          t.cols.filter (fun c => ¬_DROP_COLS.contains c) from rfl]
      rw [List.mem_filter]
      simp
    · intro rr hrr
      rw [selectColsTable] at hrr
      obtain ⟨r0, hr0, rfl⟩ := List.mem_map.1 hrr
      refine ⟨r0, hr0, fun c hc => ?_⟩
      exact cellAt_select t.cols r0 _ c hc

theorem selectStage_struct (t : Table) :
    (selectStage t).cols = finalColsOf t.cols ∧
      (∀ rr ∈ (selectStage t).rows, ∃ r ∈ t.rows,
        rr = (finalColsOf t.cols).map (cellAt t.cols r)) ∧
      (keepMarketsList t.cols ≠ [] → ∀ rr ∈ (selectStage t).rows,
        ((keepMarketsList t.cols).any fun c =>
          cellAt (finalColsOf t.cols) rr c ≠ Val.nan) = true) := by
  simp only [selectStage]
  by_cases hk : (keepMarketsList t.cols).isEmpty = true
  · rw [if_pos hk]
    refine ⟨rfl, ?_, ?_⟩
    · intro rr hrr
      rw [selectColsTable] at hrr
      obtain ⟨r, hr, rfl⟩ := List.mem_map.1 hrr
      exact ⟨r, hr, rfl⟩
    · intro hne
      exact absurd (List.isEmpty_iff.1 hk) hne
  · rw [if_neg hk]
    refine ⟨rfl, ?_, ?_⟩
    · intro rr hrr
      rw [dropAllNaRows] at hrr
      have hrr' := List.mem_of_mem_filter hrr
      rw [selectColsTable] at hrr'
      obtain ⟨r, hr, rfl⟩ := List.mem_map.1 hrr'
      exact ⟨r, hr, rfl⟩
    · intro _ rr hrr
      rw [dropAllNaRows] at hrr
      exact (List.mem_filter.1 hrr).2

set_option maxHeartbeats 3000000 in
/-- C9: the cleaning pipeline is idempotent: re-cleaning its own output (for
any well-formed input table on which it succeeds — distinct column labels,
rows as wide as the header) returns that output unchanged: same columns in
the same order, same rows, same values. -/
theorem c9_idempotent (sq : ℚ → ℚ) (t u : Table) (hnd : t.cols.Nodup)
    (hwf : ∀ r ∈ t.rows, r.length = t.cols.length)
    (h : clean_projections sq t = .ok u) :
    clean_projections sq u = .ok u := by
  rw [clean_projections_eq] at h
  split at h
  case isFalse hp => cases h
  case isTrue hp =>
    have hu : u = cleanCore sq (_normalize_columns t) := (Except.ok.inj h).symm
    clear h
    rw [hu, cleanCore]
    -- stage d0
    have hnd0 : (_normalize_columns t).cols.Nodup := normalize_nodup t hnd
    have hwf0 : ∀ r ∈ (_normalize_columns t).rows,
        r.length = (_normalize_columns t).cols.length := by
      intro r hr
      rw [normalize_rows_eq] at hr
      rw [normalize_cols_eq, List.length_map]
      exact hwf r hr
    have hB0 := normalize_B t
    -- stage d1
    have hnd1 : (filterPosTable (_normalize_columns t)).cols.Nodup := hnd0
    have hwf1 : ∀ r ∈ (filterPosTable (_normalize_columns t)).rows,
        r.length = (filterPosTable (_normalize_columns t)).cols.length := by
      intro r hr
      exact hwf0 r (List.mem_of_mem_filter hr)
    have hK1 : ∀ r ∈ (filterPosTable (_normalize_columns t)).rows,
        keepPosRow (_normalize_columns t).cols r = true := by
      intro r hr
      exact (List.mem_filter.1 hr).2
    have hpos1 : "pos" ∈ (filterPosTable (_normalize_columns t)).cols := by
      simpa using hp
    have hB1 : ∀ wa ∈ headerAlts, wa.1 ∈ (filterPosTable (_normalize_columns t)).cols ∨
        ∀ al ∈ wa.2, al ∉ (filterPosTable (_normalize_columns t)).cols := hB0
    -- stage d2
    obtain ⟨hnd2, hwf2, hmem2, hcell2⟩ :=
      dropStage_props (filterPosTable (_normalize_columns t)) hnd1 hwf1
    have hwnd : ∀ wa ∈ headerAlts, wa.1 ∉ _DROP_COLS := by decide
    have hposnd : ("pos" : String) ∉ _DROP_COLS := by decide
    have hpos2 : "pos" ∈ (dropStage (filterPosTable (_normalize_columns t))).cols :=
      (hmem2 "pos").2 ⟨hpos1, hposnd⟩
    have hK2 : ∀ rr ∈ (dropStage (filterPosTable (_normalize_columns t))).rows,
        keepPosRow (dropStage (filterPosTable (_normalize_columns t))).cols rr = true := by
      intro rr hrr
      obtain ⟨r, hr, hc⟩ := hcell2 rr hrr
      rw [keepPosRow, hc "pos" hpos2]
      have := hK1 r hr
      rw [keepPosRow] at this
      exact this
    have hB2 : ∀ wa ∈ headerAlts,
        wa.1 ∈ (dropStage (filterPosTable (_normalize_columns t))).cols ∨
        ∀ al ∈ wa.2, al ∉ (dropStage (filterPosTable (_normalize_columns t))).cols := by
      intro wa hwa
      rcases hB1 wa hwa with hw | hw
      · exact Or.inl ((hmem2 wa.1).2 ⟨hw, hwnd wa hwa⟩)
      · exact Or.inr fun al hal hmm => hw al hal ((hmem2 al).1 hmm).1
    -- stage d3
    obtain ⟨⟨ext3, hcols3, hext3⟩, hnd3, hwf3, hcell3, hC3⟩ :=
      add_market_props (dropStage (filterPosTable (_normalize_columns t))) hnd2 hwf2
    have hpos3 : "pos" ∈ (_add_market_columns
        (dropStage (filterPosTable (_normalize_columns t)))).cols := by
      rw [hcols3]
      exact List.mem_append.2 (Or.inl hpos2)
    have hK3 : ∀ rr ∈ (_add_market_columns
        (dropStage (filterPosTable (_normalize_columns t)))).rows,
        keepPosRow (_add_market_columns
          (dropStage (filterPosTable (_normalize_columns t)))).cols rr = true := by
      intro rr hrr
      obtain ⟨r, hr, hc⟩ := hcell3 rr hrr
      rw [keepPosRow, hc "pos" hpos2]
      have := hK2 r hr
      rw [keepPosRow] at this
      exact this
    have haltsmkt : ∀ wa ∈ headerAlts, ∀ al ∈ wa.2, ∀ am ∈ _MARKET_MAP,
        al ≠ am.2 ∧ al ≠ am.2 ++ "_sd" := by decide
    have hB3 : ∀ wa ∈ headerAlts, wa.1 ∈ (_add_market_columns
        (dropStage (filterPosTable (_normalize_columns t)))).cols ∨
        ∀ al ∈ wa.2, al ∉ (_add_market_columns
          (dropStage (filterPosTable (_normalize_columns t)))).cols := by
      intro wa hwa
      rcases hB2 wa hwa with hw | hw
      · refine Or.inl ?_
        rw [hcols3]
        exact List.mem_append.2 (Or.inl hw)
      · refine Or.inr fun al hal hmm => ?_
        rw [hcols3] at hmm
        rcases List.mem_append.1 hmm with hm | hm
        · exact hw al hal hm
        · obtain ⟨am, ham, hcv⟩ := hext3 al hm
          rcases hcv with hcv | hcv
          · exact (haltsmkt wa hwa al hal am ham).1 hcv
          · exact (haltsmkt wa hwa al hal am ham).2 hcv
    -- stage d4
    obtain ⟨hcols4, hnd4, hwf4, hE4, hD4, hprov4⟩ :=
      coerce_props (_add_market_columns
        (dropStage (filterPosTable (_normalize_columns t)))) hnd3 hwf3
    have hwf4' : ∀ r ∈ (_coerce_numeric (_add_market_columns
        (dropStage (filterPosTable (_normalize_columns t))))).rows,
        r.length = (_coerce_numeric (_add_market_columns
          (dropStage (filterPosTable (_normalize_columns t))))).cols.length := by
      intro r hr
      rw [hcols4]
      exact hwf4 r hr
    have hposnc : ("pos" : String) ∉ numericCandidates := by decide
    have hpos4 : "pos" ∈ (_coerce_numeric (_add_market_columns
        (dropStage (filterPosTable (_normalize_columns t))))).cols := by
      rw [hcols4]
      exact hpos3
    have hK4 : ∀ rr ∈ (_coerce_numeric (_add_market_columns
        (dropStage (filterPosTable (_normalize_columns t))))).rows,
        keepPosRow (_coerce_numeric (_add_market_columns
          (dropStage (filterPosTable (_normalize_columns t))))).cols rr = true := by
      intro rr hrr
      obtain ⟨r, hr, hc⟩ := hprov4 "pos" hposnc rr hrr
      rw [keepPosRow, hcols4, hc]
      have hK := hK3 r hr
      rw [keepPosRow] at hK
      rw [keepPos_replace hK]
      exact hK
    have hB4 : ∀ wa ∈ headerAlts, wa.1 ∈ (_coerce_numeric (_add_market_columns
        (dropStage (filterPosTable (_normalize_columns t))))).cols ∨
        ∀ al ∈ wa.2, al ∉ (_coerce_numeric (_add_market_columns
          (dropStage (filterPosTable (_normalize_columns t))))).cols := by
      intro wa hwa
      rw [hcols4]
      exact hB3 wa hwa
    have hC4 : ∀ am ∈ _MARKET_MAP,
        ((_coerce_numeric (_add_market_columns
          (dropStage (filterPosTable (_normalize_columns t))))).cols.contains am.2 = true ∨
          (_coerce_numeric (_add_market_columns
            (dropStage (filterPosTable (_normalize_columns t))))).cols.contains am.1 = false) ∧
        ((_coerce_numeric (_add_market_columns
          (dropStage (filterPosTable (_normalize_columns t))))).cols.contains
            (am.2 ++ "_sd") = true ∨
          (_coerce_numeric (_add_market_columns
            (dropStage (filterPosTable (_normalize_columns t))))).cols.contains
              (am.1 ++ "_sd") = false) := by
      intro am ham
      rw [hcols4]
      exact hC3 am ham
    have hE4' : ∀ c ∈ numericCandidates, ∀ r ∈ (_coerce_numeric (_add_market_columns
        (dropStage (filterPosTable (_normalize_columns t))))).rows,
        toNumericCell (cellAt (_coerce_numeric (_add_market_columns
          (dropStage (filterPosTable (_normalize_columns t))))).cols r c) =
          cellAt (_coerce_numeric (_add_market_columns
            (dropStage (filterPosTable (_normalize_columns t))))).cols r c := by
      intro c hc r hr
      rw [hcols4]
      exact hE4 c hc r hr
    -- stage t8
    obtain ⟨hnd8, hwf8, hf8, hb8, hcell8, hP8, hfix8, hF1, hF2, hF3, hF4⟩ :=
      combos_props sq (_coerce_numeric (_add_market_columns
        (dropStage (filterPosTable (_normalize_columns t))))) hnd4 hwf4'
    have hpos8 : "pos" ∈ (combosStage sq (_coerce_numeric (_add_market_columns
        (dropStage (filterPosTable (_normalize_columns t)))))).cols := hf8 "pos" hpos4
    have hK8 : ∀ rr ∈ (combosStage sq (_coerce_numeric (_add_market_columns
        (dropStage (filterPosTable (_normalize_columns t)))))).rows,
        keepPosRow (combosStage sq (_coerce_numeric (_add_market_columns
          (dropStage (filterPosTable (_normalize_columns t)))))).cols rr = true := by
      intro rr hrr
      obtain ⟨r, hr, hc⟩ := hcell8 rr hrr
      rw [keepPosRow, hc "pos" hpos4]
      have := hK4 r hr
      rw [keepPosRow] at this
      exact this
    have haltscombo : ∀ wa ∈ headerAlts, ∀ al ∈ wa.2,
        al ∉ (["player_pass_rush_yds", "player_pass_rush_yds_sd",
          "player_pass_rush_reception_yds", "player_pass_rush_reception_yds_sd"] :
            List String) := by decide
    have hB8 : ∀ wa ∈ headerAlts, wa.1 ∈ (combosStage sq (_coerce_numeric
        (_add_market_columns (dropStage (filterPosTable (_normalize_columns t)))))).cols ∨
        ∀ al ∈ wa.2, al ∉ (combosStage sq (_coerce_numeric (_add_market_columns
          (dropStage (filterPosTable (_normalize_columns t)))))).cols := by
      intro wa hwa
      rcases hB4 wa hwa with hw | hw
      · exact Or.inl (hf8 wa.1 hw)
      · refine Or.inr fun al hal hmm => ?_
        rcases hb8 al hmm with hm | hm
        · exact hw al hal hm
        · exact haltscombo wa hwa al hal hm
    have haliascombo : ∀ am ∈ _MARKET_MAP,
        am.1 ∉ (["player_pass_rush_yds", "player_pass_rush_yds_sd",
          "player_pass_rush_reception_yds", "player_pass_rush_reception_yds_sd"] :
            List String) ∧
        am.1 ++ "_sd" ∉ (["player_pass_rush_yds", "player_pass_rush_yds_sd",
          "player_pass_rush_reception_yds", "player_pass_rush_reception_yds_sd"] :
            List String) := by decide
    have hC8 : ∀ am ∈ _MARKET_MAP,
        ((combosStage sq (_coerce_numeric (_add_market_columns
          (dropStage (filterPosTable (_normalize_columns t)))))).cols.contains am.2 = true ∨
          (combosStage sq (_coerce_numeric (_add_market_columns
            (dropStage (filterPosTable (_normalize_columns t)))))).cols.contains
              am.1 = false) ∧
        ((combosStage sq (_coerce_numeric (_add_market_columns
          (dropStage (filterPosTable (_normalize_columns t)))))).cols.contains
            (am.2 ++ "_sd") = true ∨
          (combosStage sq (_coerce_numeric (_add_market_columns
            (dropStage (filterPosTable (_normalize_columns t)))))).cols.contains
              (am.1 ++ "_sd") = false) := by
      intro am ham
      obtain ⟨hCa, hCb⟩ := hC4 am ham
      constructor
      · rcases hCa with hx | hx
        · refine Or.inl ?_
          have := hf8 am.2 (by simpa using hx)
          simpa using this
        · refine Or.inr ?_
          cases hb : (combosStage sq (_coerce_numeric (_add_market_columns
              (dropStage (filterPosTable (_normalize_columns t)))))).cols.contains am.1
          · rfl
          · exfalso
            have hmm : am.1 ∈ (combosStage sq (_coerce_numeric (_add_market_columns
                (dropStage (filterPosTable (_normalize_columns t)))))).cols := by
              simpa using hb
            rcases hb8 _ hmm with hm | hm
            · exact absurd (by simpa using hm : (_coerce_numeric (_add_market_columns
                (dropStage (filterPosTable (_normalize_columns t))))).cols.contains
                  am.1 = true) (by rw [hx]; exact Bool.false_ne_true)
            · exact (haliascombo am ham).1 hm
      · rcases hCb with hx | hx
        · refine Or.inl ?_
          have := hf8 (am.2 ++ "_sd") (by simpa using hx)
          simpa using this
        · refine Or.inr ?_
          cases hb : (combosStage sq (_coerce_numeric (_add_market_columns
              (dropStage (filterPosTable (_normalize_columns t)))))).cols.contains
              (am.1 ++ "_sd")
          · rfl
          · exfalso
            have hmm : am.1 ++ "_sd" ∈ (combosStage sq (_coerce_numeric (_add_market_columns
                (dropStage (filterPosTable (_normalize_columns t)))))).cols := by
              simpa using hb
            rcases hb8 _ hmm with hm | hm
            · exact absurd (by simpa using hm : (_coerce_numeric (_add_market_columns
                (dropStage (filterPosTable (_normalize_columns t))))).cols.contains
                  (am.1 ++ "_sd") = true) (by rw [hx]; exact Bool.false_ne_true)
            · exact (haliascombo am ham).2 hm
    have hD8 : ∀ rr ∈ (combosStage sq (_coerce_numeric (_add_market_columns
        (dropStage (filterPosTable (_normalize_columns t)))))).rows,
        ∀ v ∈ rr, replaceNaCell v = v :=
      hP8 (fun v => replaceNaCell v = v) (fun q => rfl) hD4
    have hE8 : ∀ c ∈ numericCandidates, ∀ rr ∈ (combosStage sq (_coerce_numeric
        (_add_market_columns (dropStage (filterPosTable (_normalize_columns t)))))).rows,
        toNumericCell (cellAt (combosStage sq (_coerce_numeric (_add_market_columns
          (dropStage (filterPosTable (_normalize_columns t)))))).cols rr c) =
          cellAt (combosStage sq (_coerce_numeric (_add_market_columns
            (dropStage (filterPosTable (_normalize_columns t)))))).cols rr c := by
      intro c hc
      exact hfix8 c (hE4' c hc)
    -- the output table
    obtain ⟨hucols, hurows, hna0⟩ := selectStage_struct (combosStage sq (_coerce_numeric
      (_add_market_columns (dropStage (filterPosTable (_normalize_columns t))))))
    apply clean_fixes
    -- Nodup
    · rw [hucols]
      exact nodup_finalColsOf _ hnd8
    -- lengths
    · intro r hr
      obtain ⟨r0, hr0, hre⟩ := hurows r hr
      rw [hre, hucols, List.length_map]
    -- renamePairs
    · apply renamePairs_eq_nil_of
      intro wa hwa
      rcases hB8 wa hwa with hw | hw
      · refine Or.inl ?_
        rw [hucols, mem_finalColsOf]
        exact ⟨hw, hwnd wa hwa⟩
      · refine Or.inr fun al hal hmm => ?_
        rw [hucols, mem_finalColsOf] at hmm
        exact hw al hal hmm.1
    -- pos present
    · have : "pos" ∈ (selectStage (combosStage sq (_coerce_numeric (_add_market_columns
          (dropStage (filterPosTable (_normalize_columns t))))))).cols := by
        rw [hucols, mem_finalColsOf]
        exact ⟨hpos8, hposnd⟩
      simpa using this
    -- keepPos rows
    · intro r hr
      obtain ⟨r0, hr0, hre⟩ := hurows r hr
      have hposf : "pos" ∈ finalColsOf (combosStage sq (_coerce_numeric (_add_market_columns
          (dropStage (filterPosTable (_normalize_columns t)))))).cols :=
        (mem_finalColsOf _ _).2 ⟨hpos8, hposnd⟩
      rw [hre, keepPosRow, hucols, cellAt_select _ _ _ _ hposf]
      have := hK8 r0 hr0
      rw [keepPosRow] at this
      exact this
    -- drops absent
    · intro c hc
      cases hb : (selectStage (combosStage sq (_coerce_numeric (_add_market_columns
          (dropStage (filterPosTable (_normalize_columns t))))))).cols.contains c
      · rfl
      · exfalso
        have hmm : c ∈ (selectStage (combosStage sq (_coerce_numeric (_add_market_columns
            (dropStage (filterPosTable (_normalize_columns t))))))).cols := by simpa using hb
        rw [hucols, mem_finalColsOf] at hmm
        exact hmm.2 hc
    -- markets backfilled
    · intro am ham
      have hmknd : ∀ am0 ∈ _MARKET_MAP, am0.2 ∉ _DROP_COLS ∧
          am0.2 ++ "_sd" ∉ _DROP_COLS := by decide
      obtain ⟨hCa, hCb⟩ := hC8 am ham
      constructor
      · rcases hCa with hx | hx
        · refine Or.inl ?_
          have : am.2 ∈ (selectStage (combosStage sq (_coerce_numeric (_add_market_columns
              (dropStage (filterPosTable (_normalize_columns t))))))).cols := by
            rw [hucols, mem_finalColsOf]
            exact ⟨by simpa using hx, (hmknd am ham).1⟩
          simpa using this
        · refine Or.inr ?_
          cases hb : (selectStage (combosStage sq (_coerce_numeric (_add_market_columns
              (dropStage (filterPosTable (_normalize_columns t))))))).cols.contains am.1
          · rfl
          · exfalso
            have hmm : am.1 ∈ (selectStage (combosStage sq (_coerce_numeric
                (_add_market_columns (dropStage
                  (filterPosTable (_normalize_columns t))))))).cols := by simpa using hb
            rw [hucols, mem_finalColsOf] at hmm
            exact absurd (by simpa using hmm.1 : (combosStage sq (_coerce_numeric
              (_add_market_columns (dropStage (filterPosTable
                (_normalize_columns t)))))).cols.contains am.1 = true)
              (by rw [hx]; exact Bool.false_ne_true)
      · rcases hCb with hx | hx
        · refine Or.inl ?_
          have : am.2 ++ "_sd" ∈ (selectStage (combosStage sq (_coerce_numeric
              (_add_market_columns (dropStage
                (filterPosTable (_normalize_columns t))))))).cols := by
            rw [hucols, mem_finalColsOf]
            exact ⟨by simpa using hx, (hmknd am ham).2⟩
          simpa using this
        · refine Or.inr ?_
          cases hb : (selectStage (combosStage sq (_coerce_numeric (_add_market_columns
              (dropStage (filterPosTable
                (_normalize_columns t))))))).cols.contains (am.1 ++ "_sd")
          · rfl
          · exfalso
            have hmm : am.1 ++ "_sd" ∈ (selectStage (combosStage sq (_coerce_numeric
                (_add_market_columns (dropStage
                  (filterPosTable (_normalize_columns t))))))).cols := by simpa using hb
            rw [hucols, mem_finalColsOf] at hmm
            exact absurd (by simpa using hmm.1 : (combosStage sq (_coerce_numeric
              (_add_market_columns (dropStage (filterPosTable
                (_normalize_columns t)))))).cols.contains (am.1 ++ "_sd") = true)
              (by rw [hx]; exact Bool.false_ne_true)
    -- replace-fixed cells
    · intro r hr v hv
      obtain ⟨r0, hr0, hre⟩ := hurows r hr
      rw [hre] at hv
      obtain ⟨c, _, hvc⟩ := List.mem_map.1 hv
      rw [← hvc]
      rcases cellAt_mem_or_nan (combosStage sq (_coerce_numeric (_add_market_columns
          (dropStage (filterPosTable (_normalize_columns t)))))).cols r0 c with hm | hm
      · exact hD8 r0 hr0 _ hm
      · rw [hm]
        rfl
    -- numeric-fixed cells
    · intro c hc r hr
      obtain ⟨r0, hr0, hre⟩ := hurows r hr
      by_cases hcin : c ∈ finalColsOf (combosStage sq (_coerce_numeric (_add_market_columns
          (dropStage (filterPosTable (_normalize_columns t)))))).cols
      · rw [hre, hucols, cellAt_select _ _ _ _ hcin]
        exact hE8 c hc r0 hr0
      · have hnm : (selectStage (combosStage sq (_coerce_numeric (_add_market_columns
            (dropStage (filterPosTable (_normalize_columns t))))))).cols.contains
              c = false := by
          cases hb : (selectStage (combosStage sq (_coerce_numeric (_add_market_columns
              (dropStage (filterPosTable (_normalize_columns t))))))).cols.contains c
          · rfl
          · exfalso
            apply hcin
            rw [← hucols]
            simpa using hb
        rw [cellAt_not_mem _ _ _ hnm]
        rfl
    -- combo 1
    · rcases hF1 with hx | hx
      · refine Or.inl ?_
        have : "player_pass_rush_yds" ∈ (selectStage (combosStage sq (_coerce_numeric
            (_add_market_columns (dropStage
              (filterPosTable (_normalize_columns t))))))).cols := by
          rw [hucols, mem_finalColsOf]
          exact ⟨by simpa using hx, by decide⟩
        simpa using this
      · refine Or.inr fun cc hcc => ?_
        cases hb : (selectStage (combosStage sq (_coerce_numeric (_add_market_columns
            (dropStage (filterPosTable (_normalize_columns t))))))).cols.contains cc
        · rfl
        · exfalso
          have hmm : cc ∈ (selectStage (combosStage sq (_coerce_numeric (_add_market_columns
              (dropStage (filterPosTable (_normalize_columns t))))))).cols := by
            simpa using hb
          rw [hucols, mem_finalColsOf] at hmm
          exact absurd (by simpa using hmm.1 : (combosStage sq (_coerce_numeric
            (_add_market_columns (dropStage (filterPosTable
              (_normalize_columns t)))))).cols.contains cc = true)
            (by rw [hx cc hcc]; exact Bool.false_ne_true)
    -- combo 2
    · rcases hF2 with hx | hx
      · refine Or.inl ?_
        have : "player_pass_rush_yds_sd" ∈ (selectStage (combosStage sq (_coerce_numeric
            (_add_market_columns (dropStage
              (filterPosTable (_normalize_columns t))))))).cols := by
          rw [hucols, mem_finalColsOf]
          exact ⟨by simpa using hx, by decide⟩
        simpa using this
      · refine Or.inr fun cc hcc => ?_
        cases hb : (selectStage (combosStage sq (_coerce_numeric (_add_market_columns
            (dropStage (filterPosTable (_normalize_columns t))))))).cols.contains cc
        · rfl
        · exfalso
          have hmm : cc ∈ (selectStage (combosStage sq (_coerce_numeric (_add_market_columns
              (dropStage (filterPosTable (_normalize_columns t))))))).cols := by
            simpa using hb
          rw [hucols, mem_finalColsOf] at hmm
          exact absurd (by simpa using hmm.1 : (combosStage sq (_coerce_numeric
            (_add_market_columns (dropStage (filterPosTable
              (_normalize_columns t)))))).cols.contains cc = true)
            (by rw [hx cc hcc]; exact Bool.false_ne_true)
    -- combo 3
    · rcases hF3 with hx | hx
      · refine Or.inl ?_
        have : "player_pass_rush_reception_yds" ∈ (selectStage (combosStage sq
            (_coerce_numeric (_add_market_columns (dropStage
              (filterPosTable (_normalize_columns t))))))).cols := by
          rw [hucols, mem_finalColsOf]
          exact ⟨by simpa using hx, by decide⟩
        simpa using this
      · refine Or.inr fun cc hcc => ?_
        cases hb : (selectStage (combosStage sq (_coerce_numeric (_add_market_columns
            (dropStage (filterPosTable (_normalize_columns t))))))).cols.contains cc
        · rfl
        · exfalso
          have hmm : cc ∈ (selectStage (combosStage sq (_coerce_numeric (_add_market_columns
              (dropStage (filterPosTable (_normalize_columns t))))))).cols := by
            simpa using hb
          rw [hucols, mem_finalColsOf] at hmm
          exact absurd (by simpa using hmm.1 : (combosStage sq (_coerce_numeric
            (_add_market_columns (dropStage (filterPosTable
              (_normalize_columns t)))))).cols.contains cc = true)
            (by rw [hx cc hcc]; exact Bool.false_ne_true)
    -- combo 4
    · rcases hF4 with hx | hx
      · refine Or.inl ?_
        have : "player_pass_rush_reception_yds_sd" ∈ (selectStage (combosStage sq
            (_coerce_numeric (_add_market_columns (dropStage
              (filterPosTable (_normalize_columns t))))))).cols := by
          rw [hucols, mem_finalColsOf]
          exact ⟨by simpa using hx, by decide⟩
        simpa using this
      · refine Or.inr fun cc hcc => ?_
        cases hb : (selectStage (combosStage sq (_coerce_numeric (_add_market_columns
            (dropStage (filterPosTable (_normalize_columns t))))))).cols.contains cc
        · rfl
        · exfalso
          have hmm : cc ∈ (selectStage (combosStage sq (_coerce_numeric (_add_market_columns
              (dropStage (filterPosTable (_normalize_columns t))))))).cols := by
            simpa using hb
          rw [hucols, mem_finalColsOf] at hmm
          exact absurd (by simpa using hmm.1 : (combosStage sq (_coerce_numeric
            (_add_market_columns (dropStage (filterPosTable
              (_normalize_columns t)))))).cols.contains cc = true)
            (by rw [hx cc hcc]; exact Bool.false_ne_true)
    -- selection fixpoint
    · rw [hucols]
      exact finalColsOf_idem _
    -- dropna stability
    · have hmemiff : ∀ x, x ∉ _DROP_COLS →
          (x ∈ (selectStage (combosStage sq (_coerce_numeric (_add_market_columns
            (dropStage (filterPosTable (_normalize_columns t))))))).cols ↔
            x ∈ (combosStage sq (_coerce_numeric (_add_market_columns
              (dropStage (filterPosTable (_normalize_columns t)))))).cols) := by
        intro x hx
        rw [hucols, mem_finalColsOf]
        exact ⟨fun h0 => h0.1, fun h0 => ⟨h0, hx⟩⟩
      have hkmeq : keepMarketsList (selectStage (combosStage sq (_coerce_numeric
          (_add_market_columns (dropStage
            (filterPosTable (_normalize_columns t))))))).cols =
          keepMarketsList (combosStage sq (_coerce_numeric (_add_market_columns
            (dropStage (filterPosTable (_normalize_columns t)))))).cols :=
        keepMarketsList_congr hmemiff
      intro hne r hr
      rw [hkmeq]
      obtain ⟨r0, hr0, hre⟩ := hurows r hr
      have := hna0 (by rw [← hkmeq]; exact hne) r hr
      have hgoal : ((keepMarketsList (combosStage sq (_coerce_numeric (_add_market_columns
          (dropStage (filterPosTable (_normalize_columns t)))))).cols).any fun c =>
            cellAt (selectStage (combosStage sq (_coerce_numeric (_add_market_columns
              (dropStage (filterPosTable (_normalize_columns t))))))).cols r c ≠
              Val.nan) = true := by
        rw [hucols]
        exact this
      exact hgoal

/-- Witness for C9 at a concrete table: cleaning `tC9` yields `uC9`, and
re-cleaning `uC9` returns it unchanged. -/
theorem c9_idempotent_witness :
    clean_projections (fun q => q) tC9 = .ok uC9 ∧
      clean_projections (fun q => q) uC9 = .ok uC9 :=
  ⟨by rfl, c9_idempotent (fun q => q) tC9 uC9 (by decide) (by decide) (by rfl)⟩
